import Mathlib

/-!
# The sstable reader of pebble: a shallow embedding of `sstable/reader.go`

The definitions follow `sstable/reader.go` function by function and keep its
names.  Go's `(value, error)` results are pairs whose error component is an
`Option Err` (`none` is Go's `nil`), a Go map is an association list whose
order is the order in which `range` happens to visit it, and a Go `panic` is
the `Outcome.panic` result.  Code that `reader.go` calls but that lives in
other files (the block reader, the block decoders, the footer reader, the
formatting library) is collected in the structure `Env`, so every theorem
holds for every behaviour of those collaborators.
-/

namespace Pebble

/-- A byte string (`[]byte`). -/
abbrev Bytes := List UInt8

/-- Go `error` values that `reader.go` builds or passes on. -/
inductive Err where
  /-- The sentinel `errReaderClosed`. -/
  | readerClosed
  /-- Result of `errors.New`, `errors.Newf` and `errors.Errorf`: a message. -/
  | new (msg : String)
  /-- Result of `errors.Mark(e, base.ErrCorruption)`. -/
  | mark (e : Err)
  /-- Result of `errors.Wrap(e, msg)`. -/
  | wrap (e : Err) (msg : String)
  /-- Result of `errors.CombineErrors(e, other)` when both are non-nil. -/
  | combine (e other : Err)
  /-- An error raised by a collaborator outside `reader.go` (I/O, checksum,
  decoding, cancellation); `corrupt` tells whether it is marked as corruption. -/
  | foreign (msg : String) (corrupt : Bool)
  deriving DecidableEq, Repr

/-- The text of an error (`err.Error()`). -/
def Err.Error : Err → String
  | .readerClosed => "pebble/table: reader is closed"
  | .new msg => msg
  | .mark e => e.Error
  | .wrap e msg => msg ++ ": " ++ e.Error
  | .combine e _ => e.Error
  | .foreign msg _ => msg

/-- Whether `errors.Is(err, base.ErrCorruption)` holds. -/
def Err.isCorruption : Err → Bool
  | .readerClosed => false
  | .new _ => false
  | .mark _ => true
  | .wrap e _ => e.isCorruption
  | .combine e _ => e.isCorruption
  | .foreign _ c => c

/-- The sentinel `errReaderClosed` (reader.go line 30). -/
def errReaderClosed : Err := .readerClosed

/-- Modelled from the spec: `base.CorruptionErrorf` is outside the sources; it
builds the "Corruption" kind of error of section 7, an error with the given
text that is marked as corruption. -/
def CorruptionErrorf (msg : String) : Err := .mark (.new msg)

/-- Modelled from the spec: `firstError` is a helper of the package outside
the sources; by its name and by "a failed reader stays failed; every
subsequent operation returns the recorded error" it keeps the first error
when there is one and otherwise yields the second. -/
def firstError (err0 err1 : Option Err) : Option Err :=
  match err0 with
  | some e => some e
  | none => err1

/-- The library function `errors.CombineErrors`: the first error, with the
second attached when both are present. -/
def CombineErrors (err other : Option Err) : Option Err :=
  match err, other with
  | none, o => o
  | some e, none => some e
  | some e, some o => some (.combine e o)

/-- Result of a Go call that may panic instead of returning. -/
inductive Outcome (α : Type) where
  | ret (a : α)
  | panic (v : Err)
  deriving DecidableEq, Repr

/-- A block handle (`block.Handle`): offset and length (trailer excluded). -/
structure Handle where
  Offset : Nat := 0
  Length : Nat := 0
  deriving DecidableEq, Repr

/-- A block handle with block properties (`block.HandleWithProperties`). -/
structure HandleWithProperties where
  Handle : Handle := {}
  Props : Bytes := []
  deriving DecidableEq, Repr

/-- The handle of the value-block index (`valblk.IndexHandle`). -/
structure IndexHandle where
  Handle : Handle := {}
  BlockNumByteLength : Nat := 0
  BlockOffsetByteLength : Nat := 0
  deriving DecidableEq, Repr

/-- A table format version (`TableFormat`, an integer type). -/
abbrev TableFormat := Nat

/-- The zero table format, `TableFormatUnspecified`. -/
def TableFormatUnspecified : TableFormat := 0

/-- The fields of `Properties` that `reader.go` reads. -/
structure Properties where
  ComparerName : String := ""
  MergerName : String := ""
  KeySchemaName : String := ""
  IndexType : Nat := 0
  IndexPartitions : Nat := 0
  NumDataBlocks : Nat := 0
  DataSize : Nat := 0
  ValueBlocksSize : Nat := 0
  deriving DecidableEq, Repr

/-- A comparer (`base.Comparer`): its name and its ordering of keys. -/
structure Comparer where
  Name : String
  Compare : Bytes → Bytes → Ordering

/-- A merger (`base.Merger`), of which the reader only uses the name. -/
structure Merger where
  Name : String
  deriving DecidableEq, Repr

/-- A key schema (`colblk.KeySchema`), of which the reader only keeps a
reference. -/
structure KeySchema where
  Name : String
  deriving DecidableEq, Repr

/-- A filter policy (`FilterPolicy`), of which the reader uses the name. -/
structure FilterPolicy where
  Name : String
  deriving DecidableEq, Repr

/-- The table filter reader built by `newTableFilterReader(fp, tracker)`. -/
structure tableFilterReader where
  policy : FilterPolicy
  metrics : Option Nat
  deriving DecidableEq, Repr

/-- The file under the reader (`objstorage.Readable`), as far as the reader's
lifecycle is concerned: what `Close` on it returns, and how many times it has
been closed. -/
structure Readable where
  closeErr : Option Err := none
  closeCalls : Nat := 0
  deriving DecidableEq, Repr

/-- The method `Close` of `objstorage.Readable`. -/
def Readable.Close (f : Readable) : Readable × Option Err :=
  ({ f with closeCalls := f.closeCalls + 1 }, f.closeErr)

/-- Whether the file has been closed. -/
def Readable.closed (f : Readable) : Bool := decide (0 < f.closeCalls)

/-- The block reader (`block.Reader`) as the reader sees it: the file it was
initialised with, the file number of its options and the checksum kind. -/
structure BlockReader where
  readable : Option Readable := none
  fileNum : Nat := 0
  checksum : Nat := 0
  deriving DecidableEq, Repr

/-- Modelled from the spec: `block.Reader.Init` is outside the sources; it
records the file, the options (of which the file number is used here) and the
checksum kind ("Initialize block reader with the selected checksum kind"). -/
def BlockReader.Init (_b : BlockReader) (f : Readable) (fileNum checksum : Nat) : BlockReader :=
  { readable := some f, fileNum := fileNum, checksum := checksum }

/-- Modelled from the spec: `block.Reader.Close` is outside the sources; by
the comment of `Reader.Close`, "Close the reader and the underlying
objstorage.Readable", it closes the file and returns the file's error. -/
def BlockReader.Close (b : BlockReader) : BlockReader × Option Err :=
  match b.readable with
  | none => (b, none)
  | some f => ({ b with readable := some (f.Close).1 }, (f.Close).2)

/-- Modelled from the spec: `block.Reader.FileNum` is outside the sources; it
returns the file number the block reader was initialised with. -/
def BlockReader.FileNum (b : BlockReader) : Nat := b.fileNum

/-- The table reader (`Reader`, reader.go lines 42-65). -/
structure Reader where
  blockReader : BlockReader := {}
  keySchema : Option KeySchema := none
  filterMetricsTracker : Option Nat := none
  Comparer : Option Comparer := none
  tableFilter : Option tableFilterReader := none
  err : Option Err := none
  indexBH : Handle := {}
  filterBH : Handle := {}
  rangeDelBH : Handle := {}
  rangeKeyBH : Handle := {}
  valueBIH : IndexHandle := {}
  propertiesBH : Handle := {}
  metaindexBH : Handle := {}
  footerBH : Handle := {}
  Properties : Properties := {}
  tableFormat : TableFormat := 0

/-- One entry of a decoded index block: the separator key, and what
`BlockHandleWithProperties` returns at that entry (the handle, or a decoding
error). -/
structure IndexEntry where
  sep : Bytes
  bh : Except Err HandleWithProperties

/-- The decoded footer (`footer`), as read by `readFooter`. -/
structure Footer where
  format : TableFormat := 0
  checksum : Nat := 0
  metaindexBH : Handle := {}
  indexBH : Handle := {}
  footerBH : Handle := {}
  deriving DecidableEq, Repr

/-- The reader options (`ReaderOptions`) that `NewReader` consults. -/
structure ReaderOptions where
  Comparer : Option Comparer := none
  Merger : Option Merger := none
  Comparers : List (String × Pebble.Comparer) := []
  Mergers : List (String × Pebble.Merger) := []
  KeySchemas : List (String × KeySchema) := []
  Filters : List (String × FilterPolicy) := []
  DeniedUserProperties : List String := []
  FilterMetricsTracker : Option Nat := none
  FileNum : Nat := 0

/-- The collaborators of `reader.go` that are outside the sources.  Each field
is the observable behaviour of one of them; the theorems quantify over all
environments. -/
structure Env where
  /-- The build flag `invariants.Enabled`. -/
  invariantsEnabled : Bool
  /-- The physical part of `block.Reader.Read` for a handle: the bytes of the
  block after checksum verification and decompression, or the error. -/
  readBlock : Handle → Except Err Bytes
  /-- The method `TableFormat.BlockColumnar`. -/
  BlockColumnar : TableFormat → Bool
  /-- The function `colblk.InitIndexBlockMetadata`. -/
  colblkInitIndexBlockMetadata : Bytes → Option Err
  /-- The function `colblk.InitDataBlockMetadata`. -/
  colblkInitDataBlockMetadata : Option KeySchema → Bytes → Option Err
  /-- The function `colblk.InitKeyspanBlockMetadata`. -/
  colblkInitKeyspanBlockMetadata : Bytes → Option Err
  /-- The function `decodeMetaindex`: the mapping, the value-block index
  handle and the error. -/
  decodeMetaindex : Bytes → List (String × Handle) × IndexHandle × Option Err
  /-- The method `Properties.load` on the (so far unloaded) properties. -/
  propertiesLoad : Properties → Bytes → List String → Properties × Option Err
  /-- Initialising an index iterator of the given format on the bytes of an
  index block (`Init`, `InitHandle`): the entries in iteration order, or the
  error. -/
  indexInit : TableFormat → Bytes → Except Err (List IndexEntry)
  /-- The function `valblk.DecodeIndex`. -/
  valblkDecodeIndex : Bytes → IndexHandle → Except Err (List Handle)
  /-- The function `rowblk.NewFragmentIter`: the error, if it fails. -/
  rowblkNewFragmentIter : Nat → Bytes → Option Err
  /-- The function `readFooter` on the file, for a file number. -/
  readFooter : Readable → Nat → Except Err Footer
  /-- The method `ReaderOptions.ensureDefaults`. -/
  ensureDefaults : ReaderOptions → ReaderOptions
  /-- The verb `%q` of `fmt` on a string. -/
  quote : String → String
  /-- The floating point expression
  `uint64((float64(d) / float64(dataSize)) * float64(valueBlocksSize))`. -/
  interpolate : (d dataSize valueBlocksSize : Nat) → Nat

/-- Modelled from the spec: `block.Reader.Read` is outside the sources; it
"fetches the block identified by the handle, verifies checksum, decompresses
if needed, invokes initMetadata(metadata, data) and returns a handle"; a
failure of either step is the error of the read. -/
def BlockReader.Read (env : Env) (_b : BlockReader) (bh : Handle)
    (initBlockMetadataFn : Bytes → Option Err) : Except Err Bytes :=
  match env.readBlock bh with
  | .error e => .error e
  | .ok data =>
    match initBlockMetadataFn data with
    | some e => .error e
    | none => .ok data

/-- The function `noInitBlockMetadataFn` (line 285). -/
def noInitBlockMetadataFn (_data : Bytes) : Option Err := none

/-- The method `Reader.Close` (lines 69-78): the new state of the reader and
the error returned. -/
def Reader.Close (r : Reader) : Reader × Option Err :=
  let r1 : Reader :=
    { r with blockReader := (r.blockReader.Close).1,
             err := firstError r.err (r.blockReader.Close).2 }
  match r1.err with
  | some e => (r1, some e)
  | none => ({ r1 with err := some errReaderClosed }, none)

/-- The method `Reader.TableFormat` (lines 791-797). -/
def Reader.TableFormat (r : Reader) : TableFormat × Option Err :=
  match r.err with
  | some e => (TableFormatUnspecified, some e)
  | none => (r.tableFormat, none)

/-- The method `Reader.initIndexBlockMetadata` (lines 312-317). -/
def Reader.initIndexBlockMetadata (env : Env) (r : Reader) (data : Bytes) : Option Err :=
  if env.BlockColumnar r.tableFormat then env.colblkInitIndexBlockMetadata data else none

/-- The method `Reader.initDataBlockMetadata` (lines 328-333). -/
def Reader.initDataBlockMetadata (env : Env) (r : Reader) (data : Bytes) : Option Err :=
  if env.BlockColumnar r.tableFormat then env.colblkInitDataBlockMetadata r.keySchema data
  else none

/-- The method `Reader.initKeyspanBlockMetadata` (lines 358-363). -/
def Reader.initKeyspanBlockMetadata (env : Env) (r : Reader) (data : Bytes) : Option Err :=
  if env.BlockColumnar r.tableFormat then env.colblkInitKeyspanBlockMetadata data else none

/-- The method `Reader.readMetaindexBlock` (lines 288-293). -/
def Reader.readMetaindexBlock (env : Env) (r : Reader) : Except Err Bytes :=
  r.blockReader.Read env r.metaindexBH noInitBlockMetadataFn

/-- The method `Reader.readIndexBlock` (lines 303-308). -/
def Reader.readIndexBlock (env : Env) (r : Reader) (bh : Handle) : Except Err Bytes :=
  r.blockReader.Read env bh (r.initIndexBlockMetadata env)

/-- The method `Reader.readTopLevelIndexBlock` (lines 296-300). -/
def Reader.readTopLevelIndexBlock (env : Env) (r : Reader) : Except Err Bytes :=
  r.readIndexBlock env r.indexBH

/-- The method `Reader.readDataBlock` (lines 319-324). -/
def Reader.readDataBlock (env : Env) (r : Reader) (bh : Handle) : Except Err Bytes :=
  r.blockReader.Read env bh (r.initDataBlockMetadata env)

/-- The method `Reader.readFilterBlock` (lines 335-340). -/
def Reader.readFilterBlock (env : Env) (r : Reader) (bh : Handle) : Except Err Bytes :=
  r.blockReader.Read env bh noInitBlockMetadataFn

/-- The method `Reader.readRangeDelBlock` (lines 342-347). -/
def Reader.readRangeDelBlock (env : Env) (r : Reader) (bh : Handle) : Except Err Bytes :=
  r.blockReader.Read env bh (r.initKeyspanBlockMetadata env)

/-- The method `Reader.readRangeKeyBlock` (lines 349-354). -/
def Reader.readRangeKeyBlock (env : Env) (r : Reader) (bh : Handle) : Except Err Bytes :=
  r.blockReader.Read env bh (r.initKeyspanBlockMetadata env)

/-- The method `Reader.readValueBlock` (lines 373-378). -/
def Reader.readValueBlock (env : Env) (r : Reader) (bh : Handle) : Except Err Bytes :=
  r.blockReader.Read env bh noInitBlockMetadataFn

/-- The value of a Go run-time panic on dereferencing a nil pointer. -/
def nilDereference : Err :=
  .foreign "runtime error: invalid memory address or nil pointer dereference" false

/-- The fragment iterators that `NewRawRangeDelIter` and `NewRawRangeKeyIter`
build, recorded by how they were built. -/
inductive FragmentIterator where
  /-- Result of `colblk.NewKeyspanIter(cmp, h, transforms)`. -/
  | colblkKeyspanIter (comparer : String) (block : Bytes) (transforms : Nat)
  /-- Result of `rowblk.NewFragmentIter(fileNum, comparer, h, transforms)`. -/
  | rowblkFragmentIter (fileNum : Nat) (comparer : String) (block : Bytes) (transforms : Nat)
  /-- The assertion wrapper that `keyspan.MaybeAssert` adds. -/
  | asserted (iter : FragmentIterator)
  deriving DecidableEq, Repr

/-- Modelled from the spec: `keyspan.MaybeAssert` is outside the sources; "an
optional assertion wrapper validates ordering in debug builds". -/
def MaybeAssert (env : Env) (iter : FragmentIterator) : FragmentIterator :=
  if env.invariantsEnabled then .asserted iter else iter

/-- The common body of `NewRawRangeDelIter` and `NewRawRangeKeyIter` after the
block has been read (lines 245-253 and 270-278). -/
def Reader.newKeyspanIter (env : Env) (r : Reader) (h : Bytes) (transforms : Nat) :
    Outcome (Option FragmentIterator × Option Err) :=
  if env.BlockColumnar r.tableFormat then
    match r.Comparer with
    | none => .panic nilDereference
    | some c => .ret (some (MaybeAssert env (.colblkKeyspanIter c.Name h transforms)), none)
  else
    match env.rowblkNewFragmentIter r.blockReader.FileNum h with
    | some e => .ret (none, some e)
    | none =>
      match r.Comparer with
      | none => .panic nilDereference
      | some c =>
        .ret (some (MaybeAssert env
          (.rowblkFragmentIter r.blockReader.FileNum c.Name h transforms)), none)

/-- The method `Reader.NewRawRangeDelIter` (lines 234-254). -/
def Reader.NewRawRangeDelIter (env : Env) (r : Reader) (transforms : Nat) :
    Outcome (Option FragmentIterator × Option Err) :=
  if r.rangeDelBH.Length = 0 then .ret (none, none)
  else
    match r.readRangeDelBlock env r.rangeDelBH with
    | .error e => .ret (none, some e)
    | .ok h => r.newKeyspanIter env h transforms

/-- The method `Reader.NewRawRangeKeyIter` (lines 259-279). -/
def Reader.NewRawRangeKeyIter (env : Env) (r : Reader) (transforms : Nat) :
    Outcome (Option FragmentIterator × Option Err) :=
  if r.rangeKeyBH.Length = 0 then .ret (none, none)
  else
    match r.readRangeKeyBlock env r.rangeKeyBH with
    | .error e => .ret (none, some e)
    | .ok h => r.newKeyspanIter env h transforms

/-- Modelled from the spec: the constant `metaPropertiesName` is outside the
sources; section 3 reserves the name `properties`. -/
def metaPropertiesName : String := "properties"

/-- Modelled from the spec: the constant `metaRangeDelV2Name` is outside the
sources; section 3 reserves the name `rangedel.v2`. -/
def metaRangeDelV2Name : String := "rangedel.v2"

/-- Modelled from the spec: the constant `metaRangeDelV1Name` is outside the
sources; scenario S4 names the legacy block `rangedel.v1`. -/
def metaRangeDelV1Name : String := "rangedel.v1"

/-- Modelled from the spec: the constant `metaRangeKeyName` is outside the
sources; section 3 reserves the name `rangekey`. -/
def metaRangeKeyName : String := "rangekey"

/-- The loop over `filters` at the end of `readMetaindex` (lines 462-468): the
first visited policy whose `fullfilter.<name>` block is in the metaindex. -/
def findFilter (meta : List (String × Handle)) :
    List (String × FilterPolicy) → Option (Handle × FilterPolicy)
  | [] => none
  | (name, fp) :: rest =>
    match meta.lookup ("fullfilter." ++ name) with
    | some bh => some (bh, fp)
    | none => findFilter meta rest

/-- The error of line 422, for the size read and the size of the handle. -/
def metaindexSizeError (len length : Nat) : Err :=
  CorruptionErrorf ("pebble/table: unexpected metaindex block size: "
    ++ toString len ++ " vs " ++ toString length)

/-- The error of lines 454-455. -/
def rangeDelV1Error : Err :=
  .mark (.new ("pebble/table: unexpected range-del block type: " ++ metaRangeDelV1Name))

/-- The method `Reader.readMetaindex` (lines 393-470): the new state of the
reader and the error returned. -/
def Reader.readMetaindex (env : Env) (r : Reader) (filters : List (String × FilterPolicy))
    (deniedUserProperties : List String) : Reader × Option Err :=
  match r.readMetaindexBlock env with
  | .error err => (r, some err)
  | .ok data =>
    if data.length ≠ r.metaindexBH.Length then
      (r, some (metaindexSizeError data.length r.metaindexBH.Length))
    else
      let meta := (env.decodeMetaindex data).1
      let r1 : Reader := { r with valueBIH := (env.decodeMetaindex data).2.1 }
      match (env.decodeMetaindex data).2.2 with
      | some err => (r1, some err)
      | none =>
        -- lines 432-443: the properties block
        let step2 : Reader × Option Err :=
          match meta.lookup metaPropertiesName with
          | none => (r1, none)
          | some bh =>
            match r1.blockReader.Read env bh noInitBlockMetadataFn with
            | .error err => (r1, some err)
            | .ok b =>
              ({ r1 with propertiesBH := bh,
                         Properties := (env.propertiesLoad r1.Properties b deniedUserProperties).1 },
               (env.propertiesLoad r1.Properties b deniedUserProperties).2)
        match step2 with
        | (r2, some err) => (r2, some err)
        | (r2, none) =>
          -- lines 445-456: the range deletion block
          let step3 : Reader × Option Err :=
            match meta.lookup metaRangeDelV2Name with
            | some bh => ({ r2 with rangeDelBH := bh }, none)
            | none =>
              match meta.lookup metaRangeDelV1Name with
              | some _ => (r2, some rangeDelV1Error)
              | none => (r2, none)
          match step3 with
          | (r3, some err) => (r3, some err)
          | (r3, none) =>
            -- lines 458-460: the range key block
            let r4 : Reader :=
              match meta.lookup metaRangeKeyName with
              | some bh => { r3 with rangeKeyBH := bh }
              | none => r3
            -- lines 462-469: the filter block
            match findFilter meta filters with
            | some (bh, fp) =>
              ({ r4 with filterBH := bh,
                         tableFilter := some { policy := fp, metrics := r4.filterMetricsTracker } },
               none)
            | none => (r4, none)

/-- A named block handle (`NamedBlockHandle`). -/
structure NamedBlockHandle where
  Name : String
  Handle : Handle
  deriving DecidableEq, Repr

/-- The layout of a table (`Layout`). -/
structure Layout where
  Data : List HandleWithProperties := []
  Index : List Handle := []
  TopIndex : Handle := {}
  Filter : List NamedBlockHandle := []
  RangeDel : Handle := {}
  RangeKey : Handle := {}
  ValueBlock : List Handle := []
  ValueIndex : Handle := {}
  Properties : Handle := {}
  MetaIndex : Handle := {}
  Footer : Handle := {}
  Format : TableFormat := 0
  deriving DecidableEq, Repr

/-- The function `errCorruptIndexEntry` (lines 938-944): it panics in builds
with invariants enabled and returns the corruption error otherwise. -/
def errCorruptIndexEntry (env : Env) (err : Err) : Outcome Err :=
  if env.invariantsEnabled then
    .panic (CorruptionErrorf ("pebble/table: corrupt index entry: " ++ err.Error))
  else
    .ret (CorruptionErrorf ("pebble/table: corrupt index entry: " ++ err.Error))

/-- The loop over the entries of one index block of data handles in `Layout`
(lines 508-517 and 543-552): the handles are appended to `data` in iteration
order; a handle that does not decode ends the loop with
`errCorruptIndexEntry`. -/
def layoutData (env : Env) :
    List IndexEntry → List HandleWithProperties → Outcome (Except Err (List HandleWithProperties))
  | [], data => .ret (.ok data)
  | e :: rest, data =>
    match e.bh with
    | .error err =>
      match errCorruptIndexEntry env err with
      | .panic v => .panic v
      | .ret ce => .ret (.error ce)
    | .ok dataBH => layoutData env rest (data ++ [dataBH])

/-- The loop over the entries of the top-level index of a partitioned index in
`Layout` (lines 526-558), from the sub-index handles and data handles
collected so far. -/
def layoutTwoLevel (env : Env) (r : Reader) :
    List IndexEntry → List Handle → List HandleWithProperties →
      Outcome (Except Err (List Handle × List HandleWithProperties))
  | [], index, data => .ret (.ok (index, data))
  | e :: rest, index, data =>
    match e.bh with
    | .error err =>
      match errCorruptIndexEntry env err with
      | .panic v => .panic v
      | .ret ce => .ret (.error ce)
    | .ok indexBH =>
      match r.readIndexBlock env indexBH.Handle with
      | .error err => .ret (.error err)
      | .ok subIndex =>
        match env.indexInit r.tableFormat subIndex with
        | .error err => .ret (.error err)
        | .ok entries =>
          match layoutData env entries data with
          | .panic v => .panic v
          | .ret (.error err) => .ret (.error err)
          | .ret (.ok data1) => layoutTwoLevel env r rest (index ++ [indexBH.Handle]) data1

/-- The end of `Layout` (lines 560-572): the value blocks, when there is a
value-block index. -/
def layoutValueBlocks (env : Env) (r : Reader) (l : Layout) : Option Layout × Option Err :=
  if r.valueBIH.Handle.Length ≠ 0 then
    match r.readValueBlock env r.valueBIH.Handle with
    | .error err => (none, some err)
    | .ok vbiH =>
      match env.valblkDecodeIndex vbiH r.valueBIH with
      | .error err => (none, some err)
      | .ok vbs => (some { l with ValueBlock := vbs }, none)
  else (some l, none)

/-- The method `Reader.Layout` (lines 473-573).  It does not assign to the
reader. -/
def Reader.Layout (env : Env) (r : Reader) : Outcome (Option Pebble.Layout × Option Err) :=
  match r.err with
  | some e => .ret (none, some e)
  | none =>
    let l0 : Pebble.Layout :=
      { Data := [], RangeDel := r.rangeDelBH, RangeKey := r.rangeKeyBH,
        ValueIndex := r.valueBIH.Handle, Properties := r.propertiesBH,
        MetaIndex := r.metaindexBH, Footer := r.footerBH, Format := r.tableFormat }
    let withFilter : Outcome Pebble.Layout :=
      if r.filterBH.Length > 0 then
        match r.tableFilter with
        | none => .panic nilDereference
        | some tf =>
          .ret { l0 with Filter := [{ Name := "fullfilter." ++ tf.policy.Name,
                                      Handle := r.filterBH }] }
      else .ret l0
    match withFilter with
    | .panic v => .panic v
    | .ret l =>
      match r.readTopLevelIndexBlock env with
      | .error err => .ret (none, some err)
      | .ok indexH =>
        if r.Properties.IndexPartitions = 0 then
          match env.indexInit r.tableFormat indexH with
          | .error err => .ret (none, some (.wrap err "reading index block"))
          | .ok entries =>
            match layoutData env entries l.Data with
            | .panic v => .panic v
            | .ret (.error err) => .ret (none, some err)
            | .ret (.ok data) =>
              .ret (layoutValueBlocks env r { l with Index := l.Index ++ [r.indexBH], Data := data })
        else
          match env.indexInit r.tableFormat indexH with
          | .error err => .ret (none, some (.wrap err "reading index block"))
          | .ok topEntries =>
            match layoutTwoLevel env r topEntries l.Index l.Data with
            | .panic v => .panic v
            | .ret (.error err) => .ret (none, some err)
            | .ret (.ok (index, data)) =>
              .ret (layoutValueBlocks env r
                { l with TopIndex := r.indexBH, Index := index, Data := data })

/-- A block to check in `ValidateBlockChecksums` (the local type `blk`). -/
structure blk where
  bh : Handle
  readFn : Handle → Except Err Bytes

/-- The blocks that `ValidateBlockChecksums` collects from a layout, in the
order of lines 589-630. -/
def Reader.checksumBlocks (env : Env) (r : Reader) (l : Pebble.Layout) : List blk :=
  l.Data.map (fun d => { bh := d.Handle, readFn := r.readDataBlock env })
    ++ l.Index.map (fun h => { bh := h, readFn := r.readIndexBlock env })
    ++ [{ bh := l.TopIndex, readFn := r.readIndexBlock env }]
    ++ l.Filter.map (fun bh => { bh := bh.Handle, readFn := r.readFilterBlock env })
    ++ [{ bh := l.RangeDel, readFn := r.readRangeDelBlock env }]
    ++ [{ bh := l.RangeKey, readFn := r.readRangeKeyBlock env }]
    ++ [{ bh := l.Properties,
          readFn := fun bh => r.blockReader.Read env bh noInitBlockMetadataFn }]
    ++ [{ bh := l.MetaIndex,
          readFn := fun bh => r.blockReader.Read env bh noInitBlockMetadataFn }]

/-- The reading loop of `ValidateBlockChecksums` (lines 639-651). -/
def validateBlocks : List blk → Option Err
  | [] => none
  | b :: rest =>
    if b.bh.Length = 0 then validateBlocks rest
    else
      match b.readFn b.bh with
      | .error err => some err
      | .ok _ => validateBlocks rest

/-- The method `Reader.ValidateBlockChecksums` (lines 576-652).  The sort by
offset of `slices.SortFunc` is an insertion sort here: both order the blocks
by non-decreasing offset. -/
def Reader.ValidateBlockChecksums (env : Env) (r : Reader) : Outcome (Option Err) :=
  match r.Layout env with
  | .panic v => .panic v
  | .ret (_, some err) => .ret (some err)
  | .ret (none, none) => .panic nilDereference
  | .ret (some l, none) =>
    .ret (validateBlocks
      ((r.checksumBlocks env l).insertionSort (fun a b => a.bh.Offset ≤ b.bh.Offset)))

/-- Modelled from the spec: the index iterators are outside the sources;
"SeekGE(key) returns the first separator ≥ key (or positions past-end)", in
the order of the comparer.  The result is the entry the iterator is positioned
at, or `none` when `SeekGE` returns false. -/
def indexSeekGE (c : Comparer) (entries : List IndexEntry) (key : Bytes) : Option IndexEntry :=
  entries.find? (fun e => c.Compare e.sep key != Ordering.lt)

/-- Unsigned 64-bit addition. -/
def u64add (a b : Nat) : Nat := (a + b) % 2 ^ 64

/-- Unsigned 64-bit subtraction. -/
def u64sub (a b : Nat) : Nat := (a % 2 ^ 64 + 2 ^ 64 - b % 2 ^ 64) % 2 ^ 64

/-- Modelled from the spec: the constant `block.TrailerLen` is outside the
sources; the block trailer is "1 byte compression type, 4 bytes checksum". -/
def TrailerLen : Nat := 5

/-- The closure `includeInterpolatedValueBlocksSize` (lines 761-774). -/
def includeInterpolatedValueBlocksSize (env : Env) (r : Reader) (dataBlockSize : Nat) : Nat :=
  u64add dataBlockSize
    (env.interpolate dataBlockSize r.Properties.DataSize r.Properties.ValueBlocksSize)

/-- The end of `estimateDiskUsage` (lines 752-788), from the bottom-level
index iterators for `start` and (when there is one) for `end`. -/
def estimateFromIters (env : Env) (r : Reader) (c : Comparer) (startIdxIter : List IndexEntry)
    (endIdxIter : Option (List IndexEntry)) (start end_ : Bytes) : Outcome (Nat × Option Err) :=
  match indexSeekGE c startIdxIter start with
  | none => .ret (0, none)
  | some startEntry =>
    match startEntry.bh with
    | .error err =>
      match errCorruptIndexEntry env err with
      | .panic v => .panic v
      | .ret ce => .ret (0, some ce)
    | .ok startBH =>
      match endIdxIter with
      | none =>
        .ret (includeInterpolatedValueBlocksSize env r
          (u64sub r.Properties.DataSize startBH.Handle.Offset), none)
      | some endIter =>
        match indexSeekGE c endIter end_ with
        | none =>
          .ret (includeInterpolatedValueBlocksSize env r
            (u64sub r.Properties.DataSize startBH.Handle.Offset), none)
        | some endEntry =>
          match endEntry.bh with
          | .error err =>
            match errCorruptIndexEntry env err with
            | .panic v => .panic v
            | .ret ce => .ret (0, some ce)
          | .ok endBH =>
            .ret (includeInterpolatedValueBlocksSize env r
              (u64sub (u64add (u64add endBH.Handle.Offset endBH.Handle.Length) TrailerLen)
                startBH.Handle.Offset), none)

/-- The function `estimateDiskUsage` (lines 681-789).  It does not assign to
the reader.  A nil comparer is dereferenced by the first `SeekGE`. -/
def estimateDiskUsage (env : Env) (r : Reader) (start end_ : Bytes) : Outcome (Nat × Option Err) :=
  match r.err with
  | some e => .ret (0, some e)
  | none =>
    match r.readTopLevelIndexBlock env with
    | .error err => .ret (0, some err)
    | .ok indexH =>
      if r.Properties.IndexPartitions = 0 then
        match env.indexInit r.tableFormat indexH with
        | .error err => .ret (0, some err)
        | .ok startIdxIter =>
          match r.Comparer with
          | none => .panic nilDereference
          | some c => estimateFromIters env r c startIdxIter (some startIdxIter) start end_
      else
        match env.indexInit r.tableFormat indexH with
        | .error err => .ret (0, some err)
        | .ok topIter =>
          match r.Comparer with
          | none => .panic nilDereference
          | some c =>
            match indexSeekGE c topIter start with
            | none => .ret (0, none)
            | some startTop =>
              match startTop.bh with
              | .error err =>
                match errCorruptIndexEntry env err with
                | .panic v => .panic v
                | .ret ce => .ret (0, some ce)
              | .ok startIndexBH =>
                match r.readIndexBlock env startIndexBH.Handle with
                | .error err => .ret (0, some err)
                | .ok startIdxBlock =>
                  match env.indexInit r.tableFormat startIdxBlock with
                  | .error err => .ret (0, some err)
                  | .ok startIdxIter =>
                    match indexSeekGE c topIter end_ with
                    | none => estimateFromIters env r c startIdxIter none start end_
                    | some endTop =>
                      match endTop.bh with
                      | .error err =>
                        match errCorruptIndexEntry env err with
                        | .panic v => .panic v
                        | .ret ce => .ret (0, some ce)
                      | .ok endIndexBH =>
                        match r.readIndexBlock env endIndexBH.Handle with
                        | .error err => .ret (0, some err)
                        | .ok endIdxBlock =>
                          match env.indexInit r.tableFormat endIdxBlock with
                          | .error err => .ret (0, some err)
                          | .ok endIdxIter =>
                            estimateFromIters env r c startIdxIter (some endIdxIter) start end_

/-- The method `Reader.EstimateDiskUsage` (lines 674-679): both block formats
run `estimateDiskUsage`, on the index iterator of the format. -/
def Reader.EstimateDiskUsage (env : Env) (r : Reader) (start end_ : Bytes) :
    Outcome (Nat × Option Err) :=
  if !env.BlockColumnar r.tableFormat then estimateDiskUsage env r start end_
  else estimateDiskUsage env r start end_

/-- The error of lines 842-843. -/
def unknownComparerError (fileNum : Nat) (name : String) : Err :=
  .new ("pebble/table: " ++ toString fileNum ++ ": unknown comparer " ++ name)

/-- The error of lines 852-853. -/
def unknownMergerError (fileNum : Nat) (name : String) : Err :=
  .new ("pebble/table: " ++ toString fileNum ++ ": unknown merger " ++ name)

/-- The list `known` of lines 861-865: the quoted names of the configured key
schemas, sorted. -/
def knownKeySchemas (env : Env) (keySchemas : List (String × KeySchema)) : List String :=
  (keySchemas.map (fun p => env.quote p.1)).insertionSort (fun a b => a ≤ b)

/-- The error of lines 867-868; a list of strings is printed by `%s` between
brackets and separated by blanks. -/
def unknownKeySchemaError (env : Env) (fileNum : Nat) (name : String) (known : List String) :
    Err :=
  .new ("pebble/table: " ++ toString fileNum ++ ": unknown key schema " ++ env.quote name
    ++ "; known key schemas: " ++ "[" ++ " ".intercalate known ++ "]")

/-- The comparer binding of `NewReader` (lines 837-844). -/
def bindComparer (r : Reader) (o : ReaderOptions) : Outcome Reader :=
  if r.Properties.ComparerName = "" then .ret { r with Comparer := o.Comparer }
  else
    match o.Comparer with
    | none => .panic nilDereference
    | some oc =>
      if oc.Name = r.Properties.ComparerName then .ret { r with Comparer := o.Comparer }
      else
        match o.Comparers.lookup r.Properties.ComparerName with
        | some comparer => .ret { r with Comparer := some comparer }
        | none =>
          .ret { r with err := some (unknownComparerError r.blockReader.FileNum
                                      r.Properties.ComparerName) }

/-- The merger check of `NewReader` (lines 846-855). -/
def bindMerger (r : Reader) (o : ReaderOptions) : Reader :=
  if r.Properties.MergerName ≠ "" ∧ r.Properties.MergerName ≠ "nullptr" then
    if (match o.Merger with
        | some m => decide (m.Name = r.Properties.MergerName)
        | none => false) then r
    else
      match o.Mergers.lookup r.Properties.MergerName with
      | some _ => r
      | none =>
        { r with err := some (unknownMergerError r.blockReader.FileNum r.Properties.MergerName) }
  else r

/-- The key schema binding of `NewReader` (lines 857-871): an unknown key
schema of a columnar table ends in `panic(r.err)`. -/
def bindKeySchema (env : Env) (r : Reader) (o : ReaderOptions) : Outcome Reader :=
  if env.BlockColumnar r.tableFormat then
    match o.KeySchemas.lookup r.Properties.KeySchemaName with
    | some ks => .ret { r with keySchema := some ks }
    | none =>
      .panic (unknownKeySchemaError env r.blockReader.FileNum r.Properties.KeySchemaName
        (knownKeySchemas env o.KeySchemas))
  else .ret r

/-- What a call of `NewReader` leaves behind: the reader and error returned
(or the panic), and the state of the file `f` after the call. -/
structure NewReaderResult where
  out : Outcome (Option Reader × Option Err)
  file : Option Readable

/-- The reader that `NewReader` has built when it calls `readMetaindex`
(lines 812-829): the metrics tracker of the options, the block reader
initialised on the file, and the format and handles of the footer. -/
def readerOfFooter (o : ReaderOptions) (f : Readable) (footer : Footer) : Reader :=
  let r : Reader := { filterMetricsTracker := o.FilterMetricsTracker }
  { r with blockReader := r.blockReader.Init f o.FileNum footer.checksum,
           tableFormat := footer.format, indexBH := footer.indexBH,
           metaindexBH := footer.metaindexBH, footerBH := footer.footerBH }

/-- The function `NewReader` (lines 806-878).  The read handle `rh` only
serves the reads of the footer and of the metaindex and is closed on every
path. -/
def NewReader (env : Env) (f : Option Readable) (o : ReaderOptions) : NewReaderResult :=
  match f with
  | none => { out := .ret (none, some (.new "pebble/table: nil file")), file := none }
  | some f =>
    let o := env.ensureDefaults o
    match env.readFooter f o.FileNum with
    | .error err =>
      { out := .ret (none, CombineErrors (some err) (f.Close).2), file := some (f.Close).1 }
    | .ok footer =>
      let r : Reader := readerOfFooter o f footer
      match r.readMetaindex env o.Filters o.DeniedUserProperties with
      | (r, some err) =>
        let r : Reader := { r with err := some err }
        { out := .ret (none, (r.Close).2), file := (r.Close).1.blockReader.readable }
      | (r, none) =>
        match bindComparer r o with
        | .panic v => { out := .panic v, file := r.blockReader.readable }
        | .ret r =>
          let r := bindMerger r o
          match bindKeySchema env r o with
          | .panic v => { out := .panic v, file := r.blockReader.readable }
          | .ret r =>
            match r.err with
            | some _ =>
              { out := .ret (none, (r.Close).2), file := (r.Close).1.blockReader.readable }
            | none => { out := .ret (some r, none), file := r.blockReader.readable }

/-- The comparer named by the properties is accepted by `NewReader`: the name
is empty, or it is the name of the configured comparer, or it is a key of the
registry of comparers. -/
def comparerAccepted (name : String) (o : ReaderOptions) : Prop :=
  name = "" ∨ ∃ oc, o.Comparer = some oc ∧ (oc.Name = name ∨ (o.Comparers.lookup name).isSome)

/-- The merger named by the properties is unknown to `NewReader`: the name is
neither empty nor `nullptr`, it is not the name of a configured merger, and
it is not a key of the registry of mergers. -/
def mergerUnknown (name : String) (o : ReaderOptions) : Prop :=
  name ≠ "" ∧ name ≠ "nullptr" ∧ (∀ m, o.Merger = some m → m.Name ≠ name) ∧
    o.Mergers.lookup name = none

/-- The key schema named by the properties is accepted by `NewReader`: the
format is not columnar, or the name is a key of the configured key schemas. -/
def keySchemaAccepted (env : Env) (format : TableFormat) (name : String) (o : ReaderOptions) :
    Prop :=
  env.BlockColumnar format = true → (o.KeySchemas.lookup name).isSome

/-- The operations of a reader that start by consulting the recorded error,
and `Close`. -/
inductive Op where
  | Close
  | Layout
  | ValidateBlockChecksums
  | EstimateDiskUsage (start end_ : Bytes)
  | TableFormat

/-- One call on a reader: the state of the reader after the call and the
error the call returned.  Only `Close` assigns to the reader. -/
def Reader.call (env : Env) (r : Reader) : Op → Outcome (Reader × Option Err)
  | .Close => .ret (r.Close.1, r.Close.2)
  | .Layout =>
    match r.Layout env with
    | .panic v => .panic v
    | .ret res => .ret (r, res.2)
  | .ValidateBlockChecksums =>
    match r.ValidateBlockChecksums env with
    | .panic v => .panic v
    | .ret err => .ret (r, err)
  | .EstimateDiskUsage start end_ =>
    match r.EstimateDiskUsage env start end_ with
    | .panic v => .panic v
    | .ret res => .ret (r, res.2)
  | .TableFormat => .ret (r, r.TableFormat.2)

/-- A sequence of calls on a reader: the final state of the reader and the
errors returned, in order. -/
def Reader.calls (env : Env) : Reader → List Op → Outcome (Reader × List (Option Err))
  | r, [] => .ret (r, [])
  | r, op :: ops =>
    match r.call env op with
    | .panic v => .panic v
    | .ret (r1, e) =>
      match Reader.calls env r1 ops with
      | .panic v => .panic v
      | .ret (r2, es) => .ret (r2, e :: es)

/-! ## Keyspan iterators and the obsolete-key filter -/

/-- The method `Reader.NewRawRangeDelIter` (lines 234-254) together with the
handles for which it calls `blockReader.Read`, in order. -/
def Reader.NewRawRangeDelIterLogged (env : Env) (r : Reader) (transforms : Nat) :
    List Handle × Outcome (Option FragmentIterator × Option Err) :=
  if r.rangeDelBH.Length = 0 then ([], .ret (none, none))
  else
    ([r.rangeDelBH],
      match r.readRangeDelBlock env r.rangeDelBH with
      | .error e => .ret (none, some e)
      | .ok h => r.newKeyspanIter env h transforms)

/-- The method `Reader.NewRawRangeKeyIter` (lines 259-279) together with the
handles for which it calls `blockReader.Read`, in order. -/
def Reader.NewRawRangeKeyIterLogged (env : Env) (r : Reader) (transforms : Nat) :
    List Handle × Outcome (Option FragmentIterator × Option Err) :=
  if r.rangeKeyBH.Length = 0 then ([], .ret (none, none))
  else
    ([r.rangeKeyBH],
      match r.readRangeKeyBlock env r.rangeKeyBH with
      | .error e => .ret (none, some e)
      | .ok h => r.newKeyspanIter env h transforms)

/-- A block property filter (`BlockPropertyFilter`): the filter
`obsoleteKeyBlockPropertyFilter{}` or a filter of the caller. -/
inductive BlockPropertyFilter where
  | obsoleteKeyBlockPropertyFilter
  | user (name : String)
  deriving DecidableEq, Repr

/-- The method `Reader.TryAddBlockPropertyFilterForHideObsoletePoints`
(lines 102-113).  The constant `TableFormatPebblev4` is declared outside the
sources and is a parameter; sequence numbers are unsigned integers. -/
def Reader.TryAddBlockPropertyFilterForHideObsoletePoints (TableFormatPebblev4 : Pebble.TableFormat)
    (r : Reader) (snapshotForHideObsoletePoints fileLargestSeqNum : Nat)
    (pointKeyFilters : List BlockPropertyFilter) : Bool × List BlockPropertyFilter :=
  let hideObsoletePoints : Bool :=
    decide (r.tableFormat ≥ TableFormatPebblev4) &&
      decide (snapshotForHideObsoletePoints > fileLargestSeqNum)
  if hideObsoletePoints then
    (hideObsoletePoints, pointKeyFilters ++ [.obsoleteKeyBlockPropertyFilter])
  else (hideObsoletePoints, pointKeyFilters)

/-! ## The replay tool (`cmd/pebble/replay.go`) -/

/-- The value merger `overwriteValueMerger` (replay.go lines 334-336). -/
structure overwriteValueMerger where
  value : Bytes
  deriving DecidableEq, Repr

/-- The method `overwriteValueMerger.MergeNewer` (lines 338-341): the new
state and the error returned. -/
def overwriteValueMerger.MergeNewer (_o : overwriteValueMerger) (value : Bytes) :
    overwriteValueMerger × Option Err :=
  ({ value := [] ++ value }, none)

/-- The method `overwriteValueMerger.MergeOlder` (lines 343-345). -/
def overwriteValueMerger.MergeOlder (o : overwriteValueMerger) (_value : Bytes) :
    overwriteValueMerger × Option Err :=
  (o, none)

/-- The method `overwriteValueMerger.Finish` (lines 347-349): the value and
the error returned (the closer returned is nil). -/
def overwriteValueMerger.Finish (o : overwriteValueMerger) (_includesBase : Bool) :
    Bytes × Option Err :=
  (o.value, none)

/-- The function that `makeMerger` stores in `merger.Merge` for
`cockroach_merge_operator` (lines 292-294). -/
def overwriteMerge (_key value : Bytes) : overwriteValueMerger × Option Err :=
  ({ value := [] ++ value }, none)

/-- The mergers that `makeMerger` returns: `base.DefaultMerger`, or the
substitute whose `Merge` is `overwriteMerge`, with its name. -/
inductive ReplayMerger where
  | DefaultMerger
  | overwrite (Name : String)
  deriving DecidableEq, Repr

/-- The function `makeMerger` (lines 281-300).  The name of
`base.DefaultMerger` is declared outside the sources and is a parameter. -/
def makeMerger (env : Env) (defaultMergerName : String) (name : String) :
    Option ReplayMerger × Option Err :=
  if name = defaultMergerName then (some .DefaultMerger, none)
  else if name = "cockroach_merge_operator" then (some (.overwrite name), none)
  else (none, some (.new ("unrecognized comparer " ++ env.quote name)))

/-- A call on a value merger after `Merge`: `MergeNewer` or `MergeOlder`, with
its operand. -/
inductive MergeCall where
  | MergeNewer (value : Bytes)
  | MergeOlder (value : Bytes)
  deriving DecidableEq, Repr

/-- One call on an `overwriteValueMerger`. -/
def overwriteValueMerger.call (o : overwriteValueMerger) :
    MergeCall → overwriteValueMerger × Option Err
  | .MergeNewer value => o.MergeNewer value
  | .MergeOlder value => o.MergeOlder value

/-- A sequence of calls on an `overwriteValueMerger`: the final state and the
errors returned, in order. -/
def overwriteValueMerger.calls :
    overwriteValueMerger → List MergeCall → overwriteValueMerger × List (Option Err)
  | o, [] => (o, [])
  | o, c :: cs =>
    ((overwriteValueMerger.calls (o.call c).1 cs).1,
      (o.call c).2 :: (overwriteValueMerger.calls (o.call c).1 cs).2)

/-- The operand of the last `MergeNewer` call of a sequence, or `v0` when the
sequence has none. -/
def lastMergeNewer (v0 : Bytes) : List MergeCall → Bytes
  | [] => v0
  | .MergeNewer value :: cs => lastMergeNewer value cs
  | .MergeOlder _ :: cs => lastMergeNewer v0 cs

/-- The `MergeNewer` calls of a sequence. -/
def onlyMergeNewer : List MergeCall → List MergeCall
  | [] => []
  | .MergeNewer value :: cs => .MergeNewer value :: onlyMergeNewer cs
  | .MergeOlder _ :: cs => onlyMergeNewer cs

/-- The function `unicode.IsSpace`: the white space characters of Unicode. -/
def unicodeIsSpace (r : Char) : Bool :=
  r.toNat = 0x09 || r.toNat = 0x0A || r.toNat = 0x0B || r.toNat = 0x0C || r.toNat = 0x0D ||
  r.toNat = 0x20 || r.toNat = 0x85 || r.toNat = 0xA0 || r.toNat = 0x1680 ||
  (0x2000 ≤ r.toNat && r.toNat ≤ 0x200A) || r.toNat = 0x2028 || r.toNat = 0x2029 ||
  r.toNat = 0x202F || r.toNat = 0x205F || r.toNat = 0x3000

/-- The first byte of the UTF-8 encoding of a character.  A Go string that is
valid UTF-8 is a list of characters here; indexing the string at the offset of
a character, `value[i]`, yields this byte. -/
def firstByte (c : Char) : Nat :=
  if c.toNat < 0x80 then c.toNat
  else if c.toNat < 0x800 then 0xC0 + c.toNat / 0x40
  else if c.toNat < 0x10000 then 0xE0 + c.toNat / 0x1000
  else 0xF0 + c.toNat / 0x40000

/-- The functions `strings.IndexFunc` and `strings.IndexRune`: the position of
the first character that satisfies `f`, or `none` for Go's -1. -/
def IndexFunc (f : Char → Bool) : List Char → Option Nat
  | [] => none
  | c :: cs => if f c then some 0 else (IndexFunc f cs).map (fun i => i + 1)

/-- The function `strings.TrimSpace`: the string without its leading and
trailing white space. -/
def TrimSpace (s : List Char) : List Char :=
  ((s.dropWhile unicodeIsSpace).reverse.dropWhile unicodeIsSpace).reverse

/-- One iteration of the loop of `parseCustomOptions` (replay.go lines
234-253): the new `value` and the new contents of `buf`. -/
def parseCustomOptionsStep (value buf : List Char) : List Char × List Char :=
  match IndexFunc (fun r => r == '[' || unicodeIsSpace r) value with
  | none => (value.drop value.length, buf ++ value)
  | some i =>
    if (value.get? i).map firstByte = some '['.toNat then
      -- j := i + strings.IndexRune(value[i:], ']'), which is i - 1 without a ']'
      match IndexFunc (fun r => r == ']') (value.drop i) with
      | none => (value.drop i, buf ++ value.take i)
      | some k => (value.drop (i + k + 1), buf ++ value.take (i + k + 1))
    else if ((value.get? i).map (fun c => unicodeIsSpace (Char.ofNat (firstByte c)))) = some true
    then (TrimSpace (value.drop (i + 1)), buf ++ value.take i ++ ['\n'])
    else (value, buf)

/-- The loop `for len(value) > 0` of `parseCustomOptions`, run for at most
`fuel` iterations: the final contents of `buf`, or `none` when the loop has
not ended within `fuel` iterations. -/
def parseCustomOptionsLoop : Nat → List Char → List Char → Option (List Char)
  | _, [], buf => some buf
  | 0, _ :: _, _ => none
  | fuel + 1, c :: cs, buf =>
    parseCustomOptionsLoop fuel (parseCustomOptionsStep (c :: cs) buf).1
      (parseCustomOptionsStep (c :: cs) buf).2

/-- The function `parseCustomOptions` (lines 224-259) up to its call of
`opts.Parse`: `some none` when it returns nil without parsing, `some (some
text)` when it hands `text` to `opts.Parse`, and `none` when its loop has not
ended within `fuel` iterations. -/
def parseCustomOptions (fuel : Nat) (optsStr : List Char) : Option (Option (List Char)) :=
  if optsStr = [] then some none
  else
    match parseCustomOptionsLoop fuel (TrimSpace optsStr) [] with
    | none => none
    | some text => some (some text)

/-- The fields of a string with the field `cur` under construction: the
maximal runs of characters that are not white space. -/
def fieldsAux : List Char → List Char → List (List Char)
  | cur, [] => if cur = [] then [] else [cur]
  | cur, c :: cs =>
    if unicodeIsSpace c then
      (if cur = [] then fieldsAux [] cs else cur :: fieldsAux [] cs)
    else fieldsAux (cur ++ [c]) cs

/-- The white-space-separated fields of a string (as `strings.Fields`). -/
def fields (s : List Char) : List (List Char) := fieldsAux [] s

/-! ## The block reads of `Layout` and `ValidateBlockChecksums` -/

/-- The loop of `layoutTwoLevel` (lines 526-558) together with the handles for
which it calls `blockReader.Read` (the sub-index blocks), in order. -/
def layoutTwoLevelLogged (env : Env) (r : Reader) :
    List IndexEntry → List Handle → List HandleWithProperties →
      List Handle × Outcome (Except Err (List Handle × List HandleWithProperties))
  | [], index, data => ([], .ret (.ok (index, data)))
  | e :: rest, index, data =>
    match e.bh with
    | .error err =>
      ([], match errCorruptIndexEntry env err with
        | .panic v => .panic v
        | .ret ce => .ret (.error ce))
    | .ok indexBH =>
      match r.readIndexBlock env indexBH.Handle with
      | .error err => ([indexBH.Handle], .ret (.error err))
      | .ok subIndex =>
        match env.indexInit r.tableFormat subIndex with
        | .error err => ([indexBH.Handle], .ret (.error err))
        | .ok entries =>
          match layoutData env entries data with
          | .panic v => ([indexBH.Handle], .panic v)
          | .ret (.error err) => ([indexBH.Handle], .ret (.error err))
          | .ret (.ok data1) =>
            (indexBH.Handle ::
                (layoutTwoLevelLogged env r rest (index ++ [indexBH.Handle]) data1).1,
              (layoutTwoLevelLogged env r rest (index ++ [indexBH.Handle]) data1).2)

/-- The end of `Layout` (lines 560-572) together with the handles for which it
calls `blockReader.Read` (the value-block index). -/
def layoutValueBlocksLogged (env : Env) (r : Reader) (l : Layout) :
    List Handle × (Option Layout × Option Err) :=
  if r.valueBIH.Handle.Length ≠ 0 then ([r.valueBIH.Handle], layoutValueBlocks env r l)
  else ([], layoutValueBlocks env r l)

/-- The method `Reader.Layout` (lines 473-573) together with the handles for
which it calls `blockReader.Read`, in order: the top-level index block, the
sub-index blocks of a partitioned index, and the value-block index. -/
def Reader.LayoutLogged (env : Env) (r : Reader) :
    List Handle × Outcome (Option Pebble.Layout × Option Err) :=
  match r.err with
  | some e => ([], .ret (none, some e))
  | none =>
    let l0 : Pebble.Layout :=
      { Data := [], RangeDel := r.rangeDelBH, RangeKey := r.rangeKeyBH,
        ValueIndex := r.valueBIH.Handle, Properties := r.propertiesBH,
        MetaIndex := r.metaindexBH, Footer := r.footerBH, Format := r.tableFormat }
    let withFilter : Outcome Pebble.Layout :=
      if r.filterBH.Length > 0 then
        match r.tableFilter with
        | none => .panic nilDereference
        | some tf =>
          .ret { l0 with Filter := [{ Name := "fullfilter." ++ tf.policy.Name,
                                      Handle := r.filterBH }] }
      else .ret l0
    match withFilter with
    | .panic v => ([], .panic v)
    | .ret l =>
      match r.readTopLevelIndexBlock env with
      | .error err => ([r.indexBH], .ret (none, some err))
      | .ok indexH =>
        if r.Properties.IndexPartitions = 0 then
          match env.indexInit r.tableFormat indexH with
          | .error err => ([r.indexBH], .ret (none, some (.wrap err "reading index block")))
          | .ok entries =>
            match layoutData env entries l.Data with
            | .panic v => ([r.indexBH], .panic v)
            | .ret (.error err) => ([r.indexBH], .ret (none, some err))
            | .ret (.ok data) =>
              (r.indexBH :: (layoutValueBlocksLogged env r
                  { l with Index := l.Index ++ [r.indexBH], Data := data }).1,
                .ret (layoutValueBlocksLogged env r
                  { l with Index := l.Index ++ [r.indexBH], Data := data }).2)
        else
          match env.indexInit r.tableFormat indexH with
          | .error err => ([r.indexBH], .ret (none, some (.wrap err "reading index block")))
          | .ok topEntries =>
            match (layoutTwoLevelLogged env r topEntries l.Index l.Data).2 with
            | .panic v =>
              (r.indexBH :: (layoutTwoLevelLogged env r topEntries l.Index l.Data).1, .panic v)
            | .ret (.error err) =>
              (r.indexBH :: (layoutTwoLevelLogged env r topEntries l.Index l.Data).1,
                .ret (none, some err))
            | .ret (.ok (index, data)) =>
              (r.indexBH :: (layoutTwoLevelLogged env r topEntries l.Index l.Data).1
                  ++ (layoutValueBlocksLogged env r
                    { l with TopIndex := r.indexBH, Index := index, Data := data }).1,
                .ret (layoutValueBlocksLogged env r
                  { l with TopIndex := r.indexBH, Index := index, Data := data }).2)

/-- The reading loop of `ValidateBlockChecksums` (lines 639-651) together with
the handles for which it calls the read function, in order. -/
def validateBlocksLogged : List blk → List Handle × Option Err
  | [] => ([], none)
  | b :: rest =>
    if b.bh.Length = 0 then validateBlocksLogged rest
    else
      match b.readFn b.bh with
      | .error err => ([b.bh], some err)
      | .ok _ => (b.bh :: (validateBlocksLogged rest).1, (validateBlocksLogged rest).2)

/-- The method `Reader.ValidateBlockChecksums` (lines 576-652) together with
the handles for which `blockReader.Read` is called during the call, in order:
the reads of `Layout`, then the reads of the scan. -/
def Reader.ValidateBlockChecksumsLogged (env : Env) (r : Reader) :
    List Handle × Outcome (Option Err) :=
  match (r.LayoutLogged env).2 with
  | .panic v => ((r.LayoutLogged env).1, .panic v)
  | .ret (_, some err) => ((r.LayoutLogged env).1, .ret (some err))
  | .ret (none, none) => ((r.LayoutLogged env).1, .panic nilDereference)
  | .ret (some l, none) =>
    ((r.LayoutLogged env).1 ++ (validateBlocksLogged
        ((r.checksumBlocks env l).insertionSort (fun a b => a.bh.Offset ≤ b.bh.Offset))).1,
      .ret (validateBlocksLogged
        ((r.checksumBlocks env l).insertionSort (fun a b => a.bh.Offset ≤ b.bh.Offset))).2)

/-- The handles of the entries of a layout that `ValidateBlockChecksums`
scans, in the order in which it collects them: Data, Index, TopIndex, Filter,
RangeDel, RangeKey, Properties and MetaIndex. -/
def Layout.scannedHandles (l : Layout) : List Handle :=
  l.Data.map (fun d => d.Handle) ++ l.Index ++ [l.TopIndex]
    ++ l.Filter.map (fun bh => bh.Handle) ++ [l.RangeDel] ++ [l.RangeKey]
    ++ [l.Properties] ++ [l.MetaIndex]

/-! ## The `float64` arithmetic of `includeInterpolatedValueBlocksSize`

The closure computes `uint64((float64(d) / float64(DataSize)) *
float64(ValueBlocksSize))`.  The three operands are unsigned 64-bit integers,
so every intermediate value is zero or lies between `2^-64` and `2^128`, well
inside the normal range of `float64`: each operation is the exact result
rounded to 53 significant bits, to nearest, ties to even (IEEE 754). -/

/-- The integer nearest to a rational, ties to even. -/
def roundHalfEven (x : ℚ) : ℤ :=
  if x - ⌊x⌋ < 1 / 2 then ⌊x⌋
  else if 1 / 2 < x - ⌊x⌋ then ⌊x⌋ + 1
  else if ⌊x⌋ % 2 = 0 then ⌊x⌋ else ⌊x⌋ + 1

/-- The `float64` nearest to a non-negative rational in the normal range: the
value is scaled by the power of two that brings it between `2^52` and `2^53`,
rounded to the nearest integer (ties to even), and scaled back. -/
def float64Round (x : ℚ) : ℚ :=
  if x ≤ 0 then 0
  else (roundHalfEven (x / 2 ^ (Int.log 2 x - 52)) : ℚ) * 2 ^ (Int.log 2 x - 52)

/-- The numbers `m * 2^e` with a significand `m` of at most 53 bits: the
values of `float64` (in the normal range). -/
def float64Representable (F : ℚ) : Prop :=
  ∃ (m : ℕ) (e : ℤ), m ≤ 2 ^ 53 ∧ F = m * 2 ^ e

/-- The value of `uint64((float64(d) / float64(ds)) * float64(vbs))` where the
Go specification defines it: `none` when `ds` is 0 (the quotient is NaN or
infinite) and when the product does not fit 64 bits, for then the result of
the conversion depends on the implementation. -/
def float64Interpolate (d ds vbs : Nat) : Option Nat :=
  if ds = 0 then none
  else if float64Round (float64Round (float64Round d / float64Round ds) * float64Round vbs)
      < 2 ^ 64 then
    some ⌊float64Round (float64Round (float64Round d / float64Round ds) * float64Round vbs)⌋.toNat
  else none

/-- The environment computes the interpolation as IEEE 754 and the Go
specification prescribe, wherever they define the result. -/
def Env.float64Conformant (env : Env) : Prop :=
  ∀ d ds vbs n, float64Interpolate d ds vbs = some n → env.interpolate d ds vbs = n

/-! ## Reference and layout conditions for `EstimateDiskUsage` -/

/-- The entry with the least separator greater than or equal to `key` (the
first such entry, if several separators are least), among decoded index
entries. -/
def leastSeparatorGE (c : Comparer) (entries : List (Bytes × HandleWithProperties))
    (key : Bytes) : Option (Bytes × HandleWithProperties) :=
  (entries.filter (fun e => c.Compare e.1 key != Ordering.lt)).foldl
    (fun best e =>
      match best with
      | none => some e
      | some b => if c.Compare e.1 b.1 == Ordering.lt then some e else some b)
    none

/-- The size `d` of the reference for `EstimateDiskUsage` on an unpartitioned
index: `none` when no separator is greater than or equal to `start`; otherwise,
with `startBH` the handle of the least separator greater than or equal to
`start`, the difference `endBH.Offset + endBH.Length + trailer length -
startBH.Offset` when `endBH`, the handle of the least separator greater than or
equal to `end`, exists, and `DataSize - startBH.Offset` when it does not.  The
arithmetic is that of unsigned 64-bit integers. -/
def estimateReferenceDataSize (r : Reader) (c : Comparer)
    (entries : List (Bytes × HandleWithProperties)) (start end_ : Bytes) : Option Nat :=
  match leastSeparatorGE c entries start with
  | none => none
  | some startBH =>
    match leastSeparatorGE c entries end_ with
    | some endBH =>
      some (u64sub (u64add (u64add endBH.2.Handle.Offset endBH.2.Handle.Length) TrailerLen)
        startBH.2.Handle.Offset)
    | none => some (u64sub r.Properties.DataSize startBH.2.Handle.Offset)

/-- The reference for `EstimateDiskUsage` on an unpartitioned index: 0 when no
separator is greater than or equal to `start`, and otherwise `d` plus the
interpolated share of the value blocks. -/
def estimateDiskUsageReference (env : Env) (r : Reader) (c : Comparer)
    (entries : List (Bytes × HandleWithProperties)) (start end_ : Bytes) : Nat :=
  match estimateReferenceDataSize r c entries start end_ with
  | none => 0
  | some d =>
    u64add d (env.interpolate d r.Properties.DataSize r.Properties.ValueBlocksSize)

/-- The data block of `a` ends, trailer included, at or before the offset of
the data block of `b`. -/
def IndexEntry.before (a b : IndexEntry) : Prop :=
  ∀ ha hb, a.bh = .ok ha → b.bh = .ok hb →
    ha.Handle.Offset + ha.Handle.Length + TrailerLen ≤ hb.Handle.Offset

/-- The data blocks of the entries end, trailer included, within the first
`dataSize` bytes. -/
def blocksWithin (dataSize : Nat) (entries : List IndexEntry) : Prop :=
  ∀ e ∈ entries, ∀ h, e.bh = .ok h → h.Handle.Offset + h.Handle.Length + TrailerLen ≤ dataSize

/-- The entries of the sub-index block that an entry of a top-level index
names, when the handle decodes and the block is read and initialised. -/
def Reader.subIndexEntries (env : Env) (r : Reader) (t : IndexEntry) :
    Option (List IndexEntry) :=
  match t.bh with
  | .error _ => none
  | .ok indexBH =>
    match r.readIndexBlock env indexBH.Handle with
    | .error _ => none
    | .ok block =>
      match env.indexInit r.tableFormat block with
      | .error _ => none
      | .ok entries => some entries

/-- The data blocks that the index of the reader names are laid out in
increasing offset order, without overlap, within the first `DataSize` bytes of
the file: in index order for an unpartitioned index; within each sub-index
block and from one sub-index block to the next for a partitioned index. -/
def Reader.dataBlocksLaidOut (env : Env) (r : Reader) : Prop :=
  ∀ indexH top, r.readTopLevelIndexBlock env = .ok indexH →
    env.indexInit r.tableFormat indexH = .ok top →
    (r.Properties.IndexPartitions = 0 →
      top.Pairwise IndexEntry.before ∧ blocksWithin r.Properties.DataSize top) ∧
    (r.Properties.IndexPartitions ≠ 0 →
      (∀ t ∈ top, ∀ sub, r.subIndexEntries env t = some sub →
        sub.Pairwise IndexEntry.before ∧ blocksWithin r.Properties.DataSize sub) ∧
      top.Pairwise (fun t1 t2 => ∀ sub1 sub2, r.subIndexEntries env t1 = some sub1 →
        r.subIndexEntries env t2 = some sub2 → ∀ a ∈ sub1, ∀ b ∈ sub2, a.before b))

/-! ## The reference count of the cache (`internal/cache/refcnt_normal.go`) -/

/-- The value of type `int32` that an integer wraps around to: the result of
`atomic.Int32.Add`, whose addition is that of two's complement. -/
def int32Wrap (x : Int) : Int := (x + 2 ^ 31) % 2 ^ 32 - 2 ^ 31

/-- The type `refcnt` (lines 20-22): the value of its `atomic.Int32`. -/
structure refcnt where
  val : Int := 0
  deriving DecidableEq, Repr

/-- The value that `acquire` and `release` panic with (lines 36 and 52), for
the count after the call. -/
def inconsistentReferenceCount (v : Int) : Err :=
  .new ("pebble: inconsistent reference count: " ++ toString v)

/-- The method `refcnt.init` (lines 25-27); `val` is an `int32`. -/
def refcnt.init (_v : refcnt) (val : Int) : refcnt := { val := val }

/-- The method `refcnt.refs` (lines 29-31). -/
def refcnt.refs (v : refcnt) : Int := v.val

/-- The method `refcnt.acquire` (lines 33-38): the count after the call, and
whether the call returns or panics.  The count is incremented before the
test, so it is incremented also when the call panics. -/
def refcnt.acquire (v : refcnt) : refcnt × Outcome Unit :=
  if int32Wrap (v.val + 1) ≤ 1 then
    ({ val := int32Wrap (v.val + 1) },
      .panic (inconsistentReferenceCount (int32Wrap (v.val + 1))))
  else ({ val := int32Wrap (v.val + 1) }, .ret ())

/-- The method `refcnt.acquireAllowZero` (lines 45-47). -/
def refcnt.acquireAllowZero (v : refcnt) : refcnt × Outcome Unit :=
  ({ val := int32Wrap (v.val + 1) }, .ret ())

/-- The method `refcnt.release` (lines 49-58): the count after the call, and
the boolean returned or the panic. -/
def refcnt.release (v : refcnt) : refcnt × Outcome Bool :=
  if int32Wrap (v.val - 1) < 0 then
    ({ val := int32Wrap (v.val - 1) },
      .panic (inconsistentReferenceCount (int32Wrap (v.val - 1))))
  else if int32Wrap (v.val - 1) = 0 then ({ val := int32Wrap (v.val - 1) }, .ret true)
  else ({ val := int32Wrap (v.val - 1) }, .ret false)

/-- The method `refcnt.value` (lines 60-62). -/
def refcnt.value (v : refcnt) : Int := v.val

/-- The calls of a run of a reference count after `init`. -/
inductive refcntCall where
  | acquire
  | acquireAllowZero
  | release
  deriving DecidableEq, Repr

/-- One call on a reference count: the count after the call, and `true` when
the call returns (`false` when it panics). -/
def refcnt.call (v : refcnt) : refcntCall → refcnt × Bool
  | .acquire =>
    match v.acquire with
    | (v1, .ret _) => (v1, true)
    | (v1, .panic _) => (v1, false)
  | .acquireAllowZero =>
    match v.acquireAllowZero with
    | (v1, .ret _) => (v1, true)
    | (v1, .panic _) => (v1, false)
  | .release =>
    match v.release with
    | (v1, .ret _) => (v1, true)
    | (v1, .panic _) => (v1, false)

/-- A sequential run of calls on a reference count: the count at the end, or
`none` when a call of the run panics. -/
def refcnt.run (v : refcnt) : List refcntCall → Option refcnt
  | [] => some v
  | c :: cs => if (v.call c).2 then (v.call c).1.run cs else none

/-- The number of `acquire` and `acquireAllowZero` calls of a run. -/
def acquireCalls (calls : List refcntCall) : Nat :=
  calls.countP (fun c => c != refcntCall.release)

/-- The number of `release` calls of a run. -/
def releaseCalls (calls : List refcntCall) : Nat :=
  calls.countP (fun c => c == refcntCall.release)

/-! ## Concrete tables, used to exhibit the theorems on inputs -/

/-- The bytewise order of keys. -/
def bytesCompare : Bytes → Bytes → Ordering
  | [], [] => .eq
  | [], _ :: _ => .lt
  | _ :: _, [] => .gt
  | a :: as, b :: bs =>
    if a < b then .lt else if b < a then .gt else bytesCompare as bs

/-- A comparer named `y` that orders keys bytewise. -/
def comparerY : Comparer := { Name := "y", Compare := bytesCompare }

/-- An I/O error of the file. -/
def ioError : Err := .foreign "read: input/output error" false

/-- The environment of a table with the given footer, decoded metaindex and
properties, whose blocks are read by `blocks`; a format is columnar from
version 5 on, every block decodes, and defaults are already in the options. -/
def tableEnv (footer : Footer) (meta : List (String × Handle)) (props : Properties)
    (blocks : Handle → Except Err Bytes) : Env :=
  { invariantsEnabled := false
    readBlock := blocks
    BlockColumnar := fun format => decide (5 ≤ format)
    colblkInitIndexBlockMetadata := fun _ => none
    colblkInitDataBlockMetadata := fun _ _ => none
    colblkInitKeyspanBlockMetadata := fun _ => none
    decodeMetaindex := fun _ => (meta, {}, none)
    propertiesLoad := fun _ _ _ => (props, none)
    indexInit := fun _ _ => .ok []
    valblkDecodeIndex := fun _ _ => .ok []
    rowblkNewFragmentIter := fun _ _ => none
    readFooter := fun _ _ => .ok footer
    ensureDefaults := fun o => o
    quote := fun s => "\"" ++ s ++ "\""
    interpolate := fun d dataSize valueBlocksSize => d * valueBlocksSize / dataSize }

/-- An environment in which every block read fails with an I/O error. -/
def failingReadEnv : Env := tableEnv {} [] {} (fun _ => .error ioError)

/-- An open reader of a row-oriented table of format 4 in file 7, without
range deletions or range keys. -/
def openReader : Reader :=
  { blockReader := { readable := some {}, fileNum := 7 }
    Comparer := some comparerY
    indexBH := { Offset := 0, Length := 10 }
    metaindexBH := { Offset := 15, Length := 0 }
    tableFormat := 4 }

/-- The footer of a row-oriented table of format 4 with an empty metaindex
block. -/
def rowFooter : Footer :=
  { format := 4, indexBH := { Offset := 0, Length := 10 },
    metaindexBH := { Offset := 100, Length := 0 } }

/-- The footer of a columnar table of format 5 with an empty metaindex
block. -/
def columnarFooter : Footer :=
  { format := 5, indexBH := { Offset := 0, Length := 10 },
    metaindexBH := { Offset := 100, Length := 0 } }

/-- Options for file 7 that configure the comparer `y`, the key schema `y`,
no merger and empty registries. -/
def optionsY : ReaderOptions :=
  { Comparer := some comparerY, KeySchemas := [("y", { Name := "y" })], FileNum := 7 }

/-- A metaindex with only a properties block. -/
def metaProperties : List (String × Handle) := [("properties", { Offset := 40, Length := 0 })]

/-- A row-oriented table whose metaindex names both the legacy range-del block
and the current one. -/
def rangeDelV1V2Env : Env :=
  tableEnv rowFooter
    [("rangedel.v1", { Offset := 20, Length := 5 }), ("rangedel.v2", { Offset := 30, Length := 5 })]
    {} (fun _ => .ok [])

/-- A row-oriented table whose metaindex names only the legacy range-del
block. -/
def rangeDelV1Env : Env :=
  tableEnv rowFooter [("rangedel.v1", { Offset := 20, Length := 5 })] {} (fun _ => .ok [])

/-- A row-oriented table written with comparer `y` and merger `nullptr`. -/
def mergerNullptrEnv : Env :=
  tableEnv rowFooter metaProperties { ComparerName := "y", MergerName := "nullptr" }
    (fun _ => .ok [])

/-- A row-oriented table written with comparer `y` and merger `m`. -/
def mergerMEnv : Env :=
  tableEnv rowFooter metaProperties { ComparerName := "y", MergerName := "m" } (fun _ => .ok [])

/-- A columnar table written with comparer `y` and key schema `x`. -/
def keySchemaXEnv : Env :=
  tableEnv columnarFooter metaProperties { ComparerName := "y", KeySchemaName := "x" }
    (fun _ => .ok [])

/-- A columnar table written with comparer `x` and key schema `x`. -/
def comparerXKeySchemaXEnv : Env :=
  tableEnv columnarFooter metaProperties { ComparerName := "x", KeySchemaName := "x" }
    (fun _ => .ok [])

/-- A table whose three-byte metaindex block is read for a handle of another
length. -/
def threeByteBlocksEnv : Env := tableEnv rowFooter [] {} (fun _ => .ok [1, 2, 3])

/-- The environment of a table all of whose blocks can be read: the block at
offset `o` is read as the single byte `o`, an index block decodes to
`index` of its bytes, and the value-block index decodes to `valueBlocks`. -/
def blocksEnv (index : Bytes → List IndexEntry) (valueBlocks : List Handle) : Env :=
  { tableEnv {} [] {} (fun h => .ok [UInt8.ofNat h.Offset]) with
    indexInit := fun _ data => .ok (index data)
    valblkDecodeIndex := fun _ _ => .ok valueBlocks }

/-- The index of a table with one data block at offset 0, whose index block is
at offset 40. -/
def valueTableIndex (data : Bytes) : List IndexEntry :=
  if data = [40] then [{ sep := [107], bh := .ok { Handle := { Offset := 0, Length := 20 } } }]
  else []

/-- A table with one data block, one value block at offset 25, a single-level
index at offset 40 and a value-block index at offset 55. -/
def valueTableEnv : Env := blocksEnv valueTableIndex [{ Offset := 25, Length := 10 }]

/-- An open reader of the table of `valueTableEnv`. -/
def valueTableReader : Reader :=
  { blockReader := { readable := some {}, fileNum := 7 }
    Comparer := some comparerY
    indexBH := { Offset := 40, Length := 10 }
    valueBIH := { Handle := { Offset := 55, Length := 5 } }
    propertiesBH := { Offset := 65, Length := 10 }
    metaindexBH := { Offset := 80, Length := 10 }
    Properties := { NumDataBlocks := 1, DataSize := 25, ValueBlocksSize := 15 }
    tableFormat := 4 }

/-- The index blocks of a table with a two-level index: the top-level index
block at offset 90 names the sub-index blocks at offsets 60 and 75, which name
two data blocks each (keys `a`, `b` and `c`, `d`). -/
def twoLevelIndex (data : Bytes) : List IndexEntry :=
  if data = [90] then
    [{ sep := [98], bh := .ok { Handle := { Offset := 60, Length := 10 } } },
     { sep := [100], bh := .ok { Handle := { Offset := 75, Length := 10 } } }]
  else if data = [60] then
    [{ sep := [97], bh := .ok { Handle := { Offset := 0, Length := 10 } } },
     { sep := [98], bh := .ok { Handle := { Offset := 15, Length := 10 } } }]
  else if data = [75] then
    [{ sep := [99], bh := .ok { Handle := { Offset := 30, Length := 10 } } },
     { sep := [100], bh := .ok { Handle := { Offset := 45, Length := 10 } } }]
  else []

/-- A table with four data blocks and a two-level index. -/
def twoLevelEnv : Env := blocksEnv twoLevelIndex []

/-- An open reader of the table of `twoLevelEnv`. -/
def twoLevelReader : Reader :=
  { blockReader := { readable := some {}, fileNum := 7 }
    Comparer := some comparerY
    indexBH := { Offset := 90, Length := 10 }
    propertiesBH := { Offset := 105, Length := 10 }
    metaindexBH := { Offset := 120, Length := 10 }
    Properties := { IndexType := 2, IndexPartitions := 2, NumDataBlocks := 4, DataSize := 60 }
    tableFormat := 4 }

/-- The layout of the table of `valueTableEnv`. -/
def valueTableLayout : Layout :=
  { Data := [{ Handle := { Offset := 0, Length := 20 } }]
    Index := [{ Offset := 40, Length := 10 }]
    ValueBlock := [{ Offset := 25, Length := 10 }]
    ValueIndex := { Offset := 55, Length := 5 }
    Properties := { Offset := 65, Length := 10 }
    MetaIndex := { Offset := 80, Length := 10 }
    Format := 4 }

/-- The layout of the table of `twoLevelEnv`. -/
def twoLevelLayout : Layout :=
  { Data := [{ Handle := { Offset := 0, Length := 10 } }, { Handle := { Offset := 15, Length := 10 } },
             { Handle := { Offset := 30, Length := 10 } }, { Handle := { Offset := 45, Length := 10 } }]
    Index := [{ Offset := 60, Length := 10 }, { Offset := 75, Length := 10 }]
    TopIndex := { Offset := 90, Length := 10 }
    Properties := { Offset := 105, Length := 10 }
    MetaIndex := { Offset := 120, Length := 10 }
    Format := 4 }

/-- An environment as `blocksEnv` whose interpolation is the `float64`
computation, with the value `2^63` where the Go specification leaves the
conversion to the implementation (the result of the amd64 conversion for NaN
and for values that do not fit). -/
def float64Env (index : Bytes → List IndexEntry) : Env :=
  { blocksEnv index [] with
    interpolate := fun d ds vbs => (float64Interpolate d ds vbs).getD (2 ^ 63) }

/-- An open reader of the table of `valueTableIndex` (one data block at offset
0, index block at offset 40) whose file has no properties block, so that
`DataSize` and `ValueBlocksSize` are 0. -/
def noPropertiesReader : Reader :=
  { blockReader := { readable := some {}, fileNum := 7 }
    Comparer := some comparerY
    indexBH := { Offset := 40, Length := 10 }
    metaindexBH := { Offset := 55, Length := 10 }
    tableFormat := 4 }

/-- The index of a table with one data block of 10 bytes at offset 0, whose
index block is read as the byte 16. -/
def oneBlockIndex (data : Bytes) : List IndexEntry :=
  if data = [16] then [{ sep := [107], bh := .ok { Handle := { Offset := 0, Length := 10 } } }]
  else []

/-- An open reader of the table of `oneBlockIndex`, whose properties record 15
bytes of data blocks and `2^62 + 513` bytes of value blocks, and whose index
block follows them, at offset `2^62 + 528` (read as the byte 16). -/
def hugeValueBlocksReader : Reader :=
  { blockReader := { readable := some {}, fileNum := 7 }
    Comparer := some comparerY
    indexBH := { Offset := 2 ^ 62 + 528, Length := 10 }
    Properties := { NumDataBlocks := 1, DataSize := 15, ValueBlocksSize := 2 ^ 62 + 513 }
    tableFormat := 4 }

/-- The flat index of the table of `twoLevelIndex`: the entries of its two
sub-index blocks, in order, as the single index block at offset 90. -/
def flatIndex (data : Bytes) : List IndexEntry :=
  if data = [90] then
    [{ sep := [97], bh := .ok { Handle := { Offset := 0, Length := 10 } } },
     { sep := [98], bh := .ok { Handle := { Offset := 15, Length := 10 } } },
     { sep := [99], bh := .ok { Handle := { Offset := 30, Length := 10 } } },
     { sep := [100], bh := .ok { Handle := { Offset := 45, Length := 10 } } }]
  else []

/-- An open reader of the four data blocks of `twoLevelReader` with the
unpartitioned index `flatIndex`. -/
def flatReader : Reader :=
  { blockReader := { readable := some {}, fileNum := 7 }
    Comparer := some comparerY
    indexBH := { Offset := 90, Length := 10 }
    propertiesBH := { Offset := 105, Length := 10 }
    metaindexBH := { Offset := 120, Length := 10 }
    Properties := { NumDataBlocks := 4, DataSize := 60 }
    tableFormat := 4 }

/-- A default merger, with the name of the merger that Pebble configures when
the options name none. -/
def defaultMerger : Merger := { Name := "pebble.concatenate" }

/-- An `ensureDefaults` that configures `defaultMerger` when the options
configure no merger, and leaves the other options as they are. -/
def fillDefaultMerger (o : ReaderOptions) : ReaderOptions :=
  match o.Merger with
  | some _ => o
  | none => { o with Merger := some defaultMerger }

/-- A row-oriented table written with comparer `y` and the given merger, opened
by a `NewReader` whose `ensureDefaults` is `fillDefaultMerger`. -/
def defaultsEnv (mergerName : String) : Env :=
  { tableEnv rowFooter metaProperties { ComparerName := "y", MergerName := mergerName }
      (fun _ => .ok []) with
    ensureDefaults := fillDefaultMerger }

/-! ## Lifecycle of the reader -/

theorem Reader.Close_of_open (r : Reader) (hopen : r.err = none)
    (hclose : (r.blockReader.Close).2 = none) :
    (r.Close).2 = none ∧ (r.Close).1.err = some errReaderClosed := by
  simp [Reader.Close, firstError, hopen, hclose]

theorem Reader.Close_of_err (r : Reader) (e : Err) (he : r.err = some e) :
    (r.Close).2 = some e ∧ (r.Close).1.err = some e := by
  simp [Reader.Close, firstError, he]

theorem Reader.Layout_of_err (env : Env) (r : Reader) (e : Err) (he : r.err = some e) :
    r.Layout env = .ret (none, some e) := by
  simp [Reader.Layout, he]

theorem Reader.ValidateBlockChecksums_of_err (env : Env) (r : Reader) (e : Err)
    (he : r.err = some e) : r.ValidateBlockChecksums env = .ret (some e) := by
  simp [Reader.ValidateBlockChecksums, Reader.Layout_of_err env r e he]

theorem Reader.EstimateDiskUsage_of_err (env : Env) (r : Reader) (e : Err) (he : r.err = some e)
    (start end_ : Bytes) : r.EstimateDiskUsage env start end_ = .ret (0, some e) := by
  simp [Reader.EstimateDiskUsage, estimateDiskUsage, he]

theorem Reader.TableFormat_of_err (r : Reader) (e : Err) (he : r.err = some e) :
    r.TableFormat = (TableFormatUnspecified, some e) := by
  simp [Reader.TableFormat, he]

theorem Reader.call_of_err (env : Env) (r : Reader) (e : Err) (he : r.err = some e) (op : Op) :
    ∃ r1, r.call env op = .ret (r1, some e) ∧ r1.err = some e := by
  cases op with
  | Close => exact ⟨_, by simp [Reader.call, (Reader.Close_of_err r e he).1],
      (Reader.Close_of_err r e he).2⟩
  | Layout => exact ⟨r, by simp [Reader.call, Reader.Layout_of_err env r e he], he⟩
  | ValidateBlockChecksums =>
    exact ⟨r, by simp [Reader.call, Reader.ValidateBlockChecksums_of_err env r e he], he⟩
  | EstimateDiskUsage s t =>
    exact ⟨r, by simp [Reader.call, Reader.EstimateDiskUsage_of_err env r e he], he⟩
  | TableFormat => exact ⟨r, by simp [Reader.call, Reader.TableFormat_of_err r e he], he⟩

/-- C1: `Close` on an open reader whose block reader closes without error
returns nil and leaves the reader closed: the recorded error is
`errReaderClosed`, and the next call of `Close`, `Layout`,
`EstimateDiskUsage` and `TableFormat` each returns `errReaderClosed`. -/
theorem Reader.Close_then_reader_closed (env : Env) (r : Reader) (start end_ : Bytes)
    (hopen : r.err = none) (hclose : (r.blockReader.Close).2 = none) :
    (r.Close).2 = none ∧
    (r.Close).1.err = some errReaderClosed ∧
    ((r.Close).1.Close).2 = some errReaderClosed ∧
    (r.Close).1.Layout env = .ret (none, some errReaderClosed) ∧
    (r.Close).1.EstimateDiskUsage env start end_ = .ret (0, some errReaderClosed) ∧
    (r.Close).1.TableFormat = (TableFormatUnspecified, some errReaderClosed) := by
  have h := Reader.Close_of_open r hopen hclose
  exact ⟨h.1, h.2, (Reader.Close_of_err _ _ h.2).1, Reader.Layout_of_err env _ _ h.2,
    Reader.EstimateDiskUsage_of_err env _ _ h.2 start end_, Reader.TableFormat_of_err _ _ h.2⟩

/-- C2: the recorded error of a reader is absorbing: from a reader whose
recorded error is `e`, every sequence of calls of `Close`, `Layout`,
`ValidateBlockChecksums`, `EstimateDiskUsage` and `TableFormat` returns `e`
at each call, never panics, and ends with the recorded error still `e`. -/
theorem Reader.err_absorbing (env : Env) (e : Err) (ops : List Op) :
    ∀ r : Reader, r.err = some e →
      ∃ r1, Reader.calls env r ops = .ret (r1, List.replicate ops.length (some e)) ∧
        r1.err = some e := by
  induction ops with
  | nil => intro r he; exact ⟨r, rfl, he⟩
  | cons op ops ih =>
    intro r he
    obtain ⟨r1, h1, he1⟩ := Reader.call_of_err env r e he op
    obtain ⟨r2, h2, he2⟩ := ih r1 he1
    exact ⟨r2, by simp [Reader.calls, h1, h2, List.replicate_succ], he2⟩

theorem Reader.call_state (env : Env) (r r1 : Reader) (op : Op) (e : Option Err)
    (hop : op = .Layout ∨ op = .ValidateBlockChecksums ∨
      ∃ start end_, op = .EstimateDiskUsage start end_)
    (h : r.call env op = .ret (r1, e)) : r1 = r := by
  rcases hop with rfl | rfl | ⟨s, t, rfl⟩
  · simp only [Reader.call] at h
    split at h
    · exact absurd h (by simp)
    · simp only [Outcome.ret.injEq, Prod.mk.injEq] at h
      exact h.1.symm
  · simp only [Reader.call] at h
    split at h
    · exact absurd h (by simp)
    · simp only [Outcome.ret.injEq, Prod.mk.injEq] at h
      exact h.1.symm
  · simp only [Reader.call] at h
    split at h
    · exact absurd h (by simp)
    · simp only [Outcome.ret.injEq, Prod.mk.injEq] at h
      exact h.1.symm

/-- C4, as stated, fails: on `openReader`, in an environment whose block
reads fail, `Layout`, `ValidateBlockChecksums` and `EstimateDiskUsage` return
the I/O error, the reader is left as it was with a nil recorded error, and
the next `TableFormat` returns format 4 and a nil error. -/
theorem Reader.error_not_latched_counterexample :
    openReader.err = none ∧
    openReader.call failingReadEnv .Layout = .ret (openReader, some ioError) ∧
    openReader.call failingReadEnv .ValidateBlockChecksums = .ret (openReader, some ioError) ∧
    openReader.call failingReadEnv (.EstimateDiskUsage [1] [2])
      = .ret (openReader, some ioError) ∧
    openReader.call failingReadEnv .TableFormat = .ret (openReader, none) ∧
    openReader.TableFormat = (4, none) ∧
    openReader.TableFormat.2 ≠ some ioError := by
  refine ⟨rfl, rfl, rfl, rfl, rfl, rfl, ?_⟩
  decide

/-- C4, amended: an error that `Layout`, `ValidateBlockChecksums` or
`EstimateDiskUsage` returns on an open reader is returned to the caller only:
the call leaves the reader as it was, so the recorded error is still nil, the
next `TableFormat` returns the table format with a nil error, and every later
sequence of calls, whatever the block reads then return, is answered as on
the reader before the failing call. -/
theorem Reader.operation_error_not_latched (env : Env) (r r1 : Reader) (op : Op) (e : Err)
    (hopen : r.err = none)
    (hop : op = .Layout ∨ op = .ValidateBlockChecksums ∨
      ∃ start end_, op = .EstimateDiskUsage start end_)
    (h : r.call env op = .ret (r1, some e)) :
    r1 = r ∧ r1.err = none ∧ r1.TableFormat = (r.tableFormat, none) ∧
    r1.call env .TableFormat = .ret (r1, none) ∧
    ∀ (env2 : Env) (ops : List Op), Reader.calls env2 r1 ops = Reader.calls env2 r ops := by
  have hr : r1 = r := Reader.call_state env r r1 op (some e) hop h
  subst hr
  refine ⟨rfl, hopen, by simp [Reader.TableFormat, hopen], ?_, fun _ _ => rfl⟩
  simp [Reader.call, Reader.TableFormat, hopen]

/-- Witness of C1 on `openReader`. -/
theorem Reader.Close_then_reader_closed_witness :
    openReader.err = none ∧ (openReader.blockReader.Close).2 = none ∧
    (openReader.Close).2 = none ∧
    (openReader.Close).1.err = some errReaderClosed ∧
    ((openReader.Close).1.Close).2 = some errReaderClosed ∧
    (openReader.Close).1.Layout failingReadEnv = .ret (none, some errReaderClosed) ∧
    (openReader.Close).1.EstimateDiskUsage failingReadEnv [1] [2]
      = .ret (0, some errReaderClosed) ∧
    (openReader.Close).1.TableFormat = (TableFormatUnspecified, some errReaderClosed) :=
  ⟨rfl, rfl, Reader.Close_then_reader_closed failingReadEnv openReader [1] [2] rfl rfl⟩

/-- Witness of C2 on the reader that `Close` leaves of `openReader`. -/
theorem Reader.err_absorbing_witness :
    (openReader.Close).1.err = some errReaderClosed ∧
    ∃ r1, Reader.calls failingReadEnv (openReader.Close).1
        [.Close, .Layout, .ValidateBlockChecksums, .EstimateDiskUsage [1] [2], .TableFormat]
        = .ret (r1, List.replicate 5 (some errReaderClosed)) ∧
      r1.err = some errReaderClosed :=
  ⟨rfl, Reader.err_absorbing failingReadEnv errReaderClosed
    [.Close, .Layout, .ValidateBlockChecksums, .EstimateDiskUsage [1] [2], .TableFormat]
    (openReader.Close).1 rfl⟩

/-- Witness of the amended C4 on `openReader`: `Layout` fails while the block
reads fail; the recorded error stays nil, `TableFormat` returns a nil error,
and once the blocks can be read `Layout` on the same reader succeeds. -/
theorem Reader.operation_error_not_latched_witness :
    openReader.err = none ∧
    openReader.call failingReadEnv .Layout = .ret (openReader, some ioError) ∧
    openReader.TableFormat = (openReader.tableFormat, none) ∧
    openReader.call failingReadEnv .TableFormat = .ret (openReader, none) ∧
    Reader.calls (blocksEnv (fun _ => []) []) openReader [.Layout, .TableFormat] =
      .ret (openReader, [none, none]) :=
  have h := Reader.operation_error_not_latched failingReadEnv openReader openReader .Layout
    ioError rfl (Or.inl rfl) rfl
  ⟨rfl, rfl, h.2.2.1, h.2.2.2.1,
    (h.2.2.2.2 (blocksEnv (fun _ => []) []) [.Layout, .TableFormat]).trans rfl⟩

/-! ## Opening a table -/

theorem Reader.readMetaindex_preserves (env : Env) (r : Reader)
    (filters : List (String × FilterPolicy)) (denied : List String) :
    (r.readMetaindex env filters denied).1.blockReader = r.blockReader ∧
    (r.readMetaindex env filters denied).1.err = r.err ∧
    (r.readMetaindex env filters denied).1.tableFormat = r.tableFormat := by
  unfold Reader.readMetaindex
  split
  · exact ⟨rfl, rfl, rfl⟩
  · split
    · exact ⟨rfl, rfl, rfl⟩
    · dsimp only
      split
      · exact ⟨rfl, rfl, rfl⟩
      · split
        · rename_i r2 err hstep
          split at hstep
          · cases hstep
          · split at hstep
            · cases hstep; exact ⟨rfl, rfl, rfl⟩
            · simp only [Prod.mk.injEq] at hstep
              obtain ⟨rfl, -⟩ := hstep
              exact ⟨rfl, rfl, rfl⟩
        · rename_i r2 hstep
          have h2 : r2.blockReader = r.blockReader ∧ r2.err = r.err ∧
              r2.tableFormat = r.tableFormat := by
            split at hstep
            · cases hstep; exact ⟨rfl, rfl, rfl⟩
            · split at hstep
              · cases hstep
              · simp only [Prod.mk.injEq] at hstep
                obtain ⟨rfl, -⟩ := hstep
                exact ⟨rfl, rfl, rfl⟩
          split
          · rename_i r3 err hstep3
            split at hstep3
            · cases hstep3
            · split at hstep3
              · cases hstep3; exact h2
              · cases hstep3
          · rename_i r3 hstep3
            have h3 : r3.blockReader = r.blockReader ∧ r3.err = r.err ∧
                r3.tableFormat = r.tableFormat := by
              split at hstep3
              · cases hstep3; exact h2
              · split at hstep3
                · cases hstep3
                · cases hstep3; exact h2
            split
            · split <;> exact h3
            · split <;> exact h3

theorem Reader.Close_readable (r : Reader) (f : Readable)
    (hf : r.blockReader.readable = some f) :
    (r.Close).1.blockReader.readable = some (f.Close).1 := by
  have hb : (r.blockReader.Close).1.readable = some (f.Close).1 := by
    simp [BlockReader.Close, hf]
  unfold Reader.Close
  dsimp only
  split <;> exact hb

theorem Reader.readMetaindex_rangeDelV1 (env : Env) (r : Reader)
    (filters : List (String × FilterPolicy)) (denied : List String) (data : Bytes) (bh : Handle)
    (hread : r.readMetaindexBlock env = .ok data)
    (hlen : data.length = r.metaindexBH.Length)
    (hdec : (env.decodeMetaindex data).2.2 = none)
    (hprops : ∀ pbh, (env.decodeMetaindex data).1.lookup metaPropertiesName = some pbh →
      ∃ b, r.blockReader.Read env pbh noInitBlockMetadataFn = .ok b ∧
        (env.propertiesLoad r.Properties b denied).2 = none)
    (hv2 : (env.decodeMetaindex data).1.lookup metaRangeDelV2Name = none)
    (hv1 : (env.decodeMetaindex data).1.lookup metaRangeDelV1Name = some bh) :
    (r.readMetaindex env filters denied).2 = some rangeDelV1Error := by
  unfold Reader.readMetaindex
  simp only [hread, hlen, ne_eq, not_true_eq_false, if_false, hdec, hv2, hv1]
  cases hp : (env.decodeMetaindex data).1.lookup metaPropertiesName with
  | none => simp
  | some pbh =>
    obtain ⟨b, hb, hl⟩ := hprops pbh hp
    simp [hb, hl]

theorem NewReader_of_readMetaindex_err (env : Env) (f : Readable) (o : ReaderOptions)
    (footer : Footer) (err : Err)
    (hfooter : env.readFooter f (env.ensureDefaults o).FileNum = .ok footer)
    (hmeta : ((readerOfFooter (env.ensureDefaults o) f footer).readMetaindex env
      (env.ensureDefaults o).Filters (env.ensureDefaults o).DeniedUserProperties).2 = some err) :
    (NewReader env (some f) o).out = .ret (none, some err) ∧
    (NewReader env (some f) o).file = some (f.Close).1 := by
  have hpres := Reader.readMetaindex_preserves env (readerOfFooter (env.ensureDefaults o) f footer)
    (env.ensureDefaults o).Filters (env.ensureDefaults o).DeniedUserProperties
  generalize hres : (readerOfFooter (env.ensureDefaults o) f footer).readMetaindex env
    (env.ensureDefaults o).Filters (env.ensureDefaults o).DeniedUserProperties = res at hmeta hpres
  obtain ⟨r1, e1⟩ := res
  simp only at hmeta hpres
  subst hmeta
  have hf : r1.blockReader.readable = some f := by
    rw [hpres.1]; rfl
  unfold NewReader
  simp only [hfooter, hres]
  constructor
  · rw [(Reader.Close_of_err { r1 with err := some err } err rfl).1]
  · exact Reader.Close_readable { r1 with err := some err } f hf

/-- C5: when the metaindex block is read successfully and the number of bytes
read differs from the length in the metaindex handle, `readMetaindex` returns
the corruption error of the size check and leaves the reader untouched
(nothing is decoded); when the sizes are equal the check raises no error:
`readMetaindex` goes on to decode, returning the decoder's error if there is
one and no error when the decoded metaindex has no properties block and no
lone legacy range-del block. -/
theorem Reader.readMetaindex_size_check (env : Env) (r : Reader)
    (filters : List (String × FilterPolicy)) (denied : List String) (data : Bytes)
    (hread : r.readMetaindexBlock env = .ok data) :
    (data.length ≠ r.metaindexBH.Length →
      r.readMetaindex env filters denied
        = (r, some (metaindexSizeError data.length r.metaindexBH.Length)) ∧
      (metaindexSizeError data.length r.metaindexBH.Length).isCorruption = true) ∧
    (data.length = r.metaindexBH.Length →
      (∀ err, (env.decodeMetaindex data).2.2 = some err →
        (r.readMetaindex env filters denied).2 = some err) ∧
      ((env.decodeMetaindex data).2.2 = none →
        (env.decodeMetaindex data).1.lookup metaPropertiesName = none →
        ((env.decodeMetaindex data).1.lookup metaRangeDelV2Name ≠ none ∨
          (env.decodeMetaindex data).1.lookup metaRangeDelV1Name = none) →
        (r.readMetaindex env filters denied).2 = none)) := by
  refine ⟨fun hne => ⟨?_, rfl⟩, fun hlen => ⟨fun err hdec => ?_, fun hdec hp hrd => ?_⟩⟩
  · unfold Reader.readMetaindex
    simp [hread, hne]
  · unfold Reader.readMetaindex
    simp [hread, hlen, hdec]
  · unfold Reader.readMetaindex
    simp only [hread, hlen, ne_eq, not_true_eq_false, if_false, hdec, hp]
    rcases hrd with h2 | h1
    · cases hv2 : (env.decodeMetaindex data).1.lookup metaRangeDelV2Name with
      | none => exact absurd hv2 h2
      | some bh2 =>
        simp only
        split <;> rfl
    · cases hv2 : (env.decodeMetaindex data).1.lookup metaRangeDelV2Name with
      | none =>
        simp only [h1]
        split <;> rfl
      | some bh2 =>
        simp only
        split <;> rfl

theorem NewReader_of_binds (env : Env) (f : Readable) (o : ReaderOptions) (footer : Footer)
    (r1 r2 r3 : Reader)
    (hfooter : env.readFooter f (env.ensureDefaults o).FileNum = .ok footer)
    (hmeta : (readerOfFooter (env.ensureDefaults o) f footer).readMetaindex env
      (env.ensureDefaults o).Filters (env.ensureDefaults o).DeniedUserProperties = (r1, none))
    (hc : bindComparer r1 (env.ensureDefaults o) = .ret r2)
    (hk : bindKeySchema env (bindMerger r2 (env.ensureDefaults o)) (env.ensureDefaults o)
      = .ret r3) :
    (∀ e, r3.err = some e → (NewReader env (some f) o).out = .ret (none, some e) ∧
      (NewReader env (some f) o).file = (r3.Close).1.blockReader.readable) ∧
    (r3.err = none → (NewReader env (some f) o).out = .ret (some r3, none) ∧
      (NewReader env (some f) o).file = r3.blockReader.readable) := by
  constructor
  · intro e he
    unfold NewReader
    simp only [hfooter, hmeta, hc, hk, he, and_true]
    rw [(Reader.Close_of_err r3 e he).1]
  · intro he
    unfold NewReader
    simp only [hfooter, hmeta, hc, hk, he, and_self]

theorem readMetaindex_ok_facts (env : Env) (f : Readable) (o : ReaderOptions) (footer : Footer)
    (r1 : Reader) (e1 : Option Err)
    (hmeta : (readerOfFooter o f footer).readMetaindex env o.Filters o.DeniedUserProperties
      = (r1, e1)) :
    r1.blockReader.readable = some f ∧ r1.blockReader.FileNum = o.FileNum ∧ r1.err = none ∧
    r1.tableFormat = footer.format := by
  have hpres := Reader.readMetaindex_preserves env (readerOfFooter o f footer) o.Filters
    o.DeniedUserProperties
  rw [hmeta] at hpres
  simp only at hpres
  refine ⟨?_, ?_, ?_, ?_⟩
  · rw [hpres.1]; rfl
  · rw [BlockReader.FileNum, hpres.1]; rfl
  · rw [hpres.2.1]; rfl
  · rw [hpres.2.2]; rfl

theorem bindComparer_accepted (r : Reader) (o : ReaderOptions)
    (h : comparerAccepted r.Properties.ComparerName o) :
    ∃ r2, bindComparer r o = .ret r2 ∧ r2.err = r.err ∧
      r2.blockReader = r.blockReader ∧ r2.tableFormat = r.tableFormat ∧
      r2.Properties = r.Properties := by
  unfold bindComparer
  rcases h with h | ⟨oc, hoc, h⟩
  · exact ⟨{ r with Comparer := o.Comparer }, by simp only [h, if_true], rfl, rfl, rfl, rfl⟩
  · by_cases hname : r.Properties.ComparerName = ""
    · exact ⟨{ r with Comparer := o.Comparer }, by simp only [hname, if_true],
        rfl, rfl, rfl, rfl⟩
    · by_cases heq : oc.Name = r.Properties.ComparerName
      · exact ⟨{ r with Comparer := o.Comparer },
          by simp only [hname, if_false, hoc, heq, if_true], rfl, rfl, rfl, rfl⟩
      · rcases h with h | h
        · exact absurd h heq
        · obtain ⟨c, hc⟩ := Option.isSome_iff_exists.mp h
          exact ⟨{ r with Comparer := some c },
            by simp only [hname, if_false, hoc, heq, hc], rfl, rfl, rfl, rfl⟩

theorem bindMerger_unknown (r : Reader) (o : ReaderOptions)
    (h : mergerUnknown r.Properties.MergerName o) :
    (bindMerger r o).err
      = some (unknownMergerError r.blockReader.FileNum r.Properties.MergerName) ∧
    (bindMerger r o).blockReader = r.blockReader ∧
    (bindMerger r o).tableFormat = r.tableFormat ∧
    (bindMerger r o).Properties = r.Properties := by
  obtain ⟨h1, h2, h3, h4⟩ := h
  unfold bindMerger
  cases hm : o.Merger with
  | none => simp [h1, h2, h4]
  | some m => simp [h1, h2, h4, h3 m hm]

theorem bindMerger_known (r : Reader) (o : ReaderOptions)
    (h : ¬ mergerUnknown r.Properties.MergerName o) : bindMerger r o = r := by
  unfold bindMerger
  by_cases h12 : r.Properties.MergerName ≠ "" ∧ r.Properties.MergerName ≠ "nullptr"
  · rw [if_pos h12]
    cases hm : o.Merger with
    | none =>
      cases hl : o.Mergers.lookup r.Properties.MergerName with
      | none => exact absurd ⟨h12.1, h12.2, by simp [hm], hl⟩ h
      | some _ => simp
    | some m =>
      by_cases hmn : m.Name = r.Properties.MergerName
      · simp [hmn]
      · cases hl : o.Mergers.lookup r.Properties.MergerName with
        | none =>
          refine absurd ⟨h12.1, h12.2, ?_, hl⟩ h
          intro m1 hm1
          rw [hm] at hm1
          cases hm1
          exact hmn
        | some _ => simp [hmn]
  · rw [if_neg h12]

theorem bindKeySchema_accepted (env : Env) (r : Reader) (o : ReaderOptions)
    (h : keySchemaAccepted env r.tableFormat r.Properties.KeySchemaName o) :
    ∃ r3, bindKeySchema env r o = .ret r3 ∧ r3.err = r.err ∧
      r3.blockReader = r.blockReader := by
  unfold bindKeySchema
  by_cases hcol : env.BlockColumnar r.tableFormat = true
  · obtain ⟨ks, hks⟩ := Option.isSome_iff_exists.mp (h hcol)
    exact ⟨{ r with keySchema := some ks }, by simp only [hcol, if_true, hks], rfl, rfl⟩
  · exact ⟨r, by simp only [hcol, Bool.false_eq_true, if_false], rfl, rfl⟩

theorem bindComparer_blockReader (r r2 : Reader) (o : ReaderOptions)
    (h : bindComparer r o = .ret r2) : r2.blockReader = r.blockReader := by
  unfold bindComparer at h
  split at h
  · cases h; rfl
  · split at h
    · cases h
    · split at h
      · cases h; rfl
      · split at h <;> (cases h; rfl)

theorem bindMerger_blockReader (r : Reader) (o : ReaderOptions) :
    (bindMerger r o).blockReader = r.blockReader := by
  unfold bindMerger
  split
  · split
    · rfl
    · split <;> rfl
  · rfl

theorem bindKeySchema_blockReader (env : Env) (r r3 : Reader) (o : ReaderOptions)
    (h : bindKeySchema env r o = .ret r3) : r3.blockReader = r.blockReader := by
  unfold bindKeySchema at h
  split at h
  · split at h
    · cases h; rfl
    · cases h
  · cases h; rfl

/-- Every call of `NewReader` on a file that returns (rather than panics)
returns either a reader and a nil error, or a nil reader and a non-nil error
with the file closed. -/
theorem NewReader_returns_clean (env : Env) (f : Readable) (o : ReaderOptions)
    (res : Option Reader × Option Err) (h : (NewReader env (some f) o).out = .ret res) :
    (∃ r, res = (some r, none)) ∨
    (∃ e, res = (none, some e) ∧ (NewReader env (some f) o).file = some (f.Close).1) := by
  cases hfooter : env.readFooter f (env.ensureDefaults o).FileNum with
  | error err =>
    right
    unfold NewReader at h ⊢
    simp only [hfooter] at h ⊢
    cases hc : (f.Close).2 with
    | none =>
      rw [hc] at h
      simp only [CombineErrors, Outcome.ret.injEq] at h
      exact ⟨err, h.symm, trivial⟩
    | some e2 =>
      rw [hc] at h
      simp only [CombineErrors, Outcome.ret.injEq] at h
      exact ⟨_, h.symm, trivial⟩
  | ok footer =>
    cases hmeta : (readerOfFooter (env.ensureDefaults o) f footer).readMetaindex env
      (env.ensureDefaults o).Filters (env.ensureDefaults o).DeniedUserProperties with
    | mk r1 e1 =>
      cases e1 with
      | some err =>
        have hn := NewReader_of_readMetaindex_err env f o footer err hfooter
          (by rw [hmeta])
        rw [hn.1] at h
        simp only [Outcome.ret.injEq] at h
        exact Or.inr ⟨err, h.symm, hn.2⟩
      | none =>
        obtain ⟨hf, -, -, -⟩ := readMetaindex_ok_facts env f (env.ensureDefaults o) footer r1
          none hmeta
        cases hc : bindComparer r1 (env.ensureDefaults o) with
        | panic v =>
          unfold NewReader at h
          simp only [hfooter, hmeta, hc] at h
          cases h
        | ret r2 =>
          cases hk : bindKeySchema env (bindMerger r2 (env.ensureDefaults o))
            (env.ensureDefaults o) with
          | panic v =>
            unfold NewReader at h
            simp only [hfooter, hmeta, hc, hk] at h
            cases h
          | ret r3 =>
            have hb : r3.blockReader.readable = some f := by
              rw [bindKeySchema_blockReader env _ r3 _ hk, bindMerger_blockReader,
                bindComparer_blockReader r1 r2 _ hc]
              exact hf
            have hn := NewReader_of_binds env f o footer r1 r2 r3 hfooter hmeta hc hk
            cases he : r3.err with
            | none =>
              rw [(hn.2 he).1] at h
              simp only [Outcome.ret.injEq] at h
              exact Or.inl ⟨r3, h.symm⟩
            | some e =>
              have hne := hn.1 e he
              rw [hne.1] at h
              simp only [Outcome.ret.injEq] at h
              refine Or.inr ⟨e, h.symm, ?_⟩
              rw [hne.2]
              exact Reader.Close_readable r3 f hb

/-- Witness of C5 on a three-byte metaindex block read for a handle of
length 0. -/
theorem Reader.readMetaindex_size_check_witness :
    openReader.readMetaindexBlock threeByteBlocksEnv = .ok [1, 2, 3] ∧
    openReader.readMetaindex threeByteBlocksEnv [] []
      = (openReader, some (metaindexSizeError 3 0)) ∧
    (metaindexSizeError 3 0).isCorruption = true :=
  ⟨rfl, ((Reader.readMetaindex_size_check threeByteBlocksEnv openReader [] [] [1, 2, 3] rfl).1
    (by decide))⟩

/-- C6, as stated, fails: the metaindex of `rangeDelV1V2Env` contains the
name `rangedel.v1` (and `rangedel.v2`), yet `readMetaindex` returns no error
and `NewReader` returns a reader. -/
theorem NewReader_legacy_rangeDel_counterexample :
    (rangeDelV1V2Env.decodeMetaindex []).1.lookup metaRangeDelV1Name
      = some { Offset := 20, Length := 5 } ∧
    ((readerOfFooter optionsY {} rowFooter).readMetaindex rangeDelV1V2Env [] []).2 = none ∧
    ∃ r, (NewReader rangeDelV1V2Env (some {}) optionsY).out = .ret (some r, none) :=
  ⟨by decide, rfl, _, rfl⟩

/-- C6, amended: for every decoded metaindex mapping that contains the name
`rangedel.v1` and does not contain `rangedel.v2`, and whose properties block
(if any) is read and loaded, `readMetaindex` returns an error marked as
corruption, and `NewReader` returns that error with no reader and with the
file closed. -/
theorem NewReader_legacy_rangeDel (env : Env) (f : Readable) (o : ReaderOptions)
    (footer : Footer) (data : Bytes) (bh : Handle)
    (hfooter : env.readFooter f (env.ensureDefaults o).FileNum = .ok footer)
    (hread : (readerOfFooter (env.ensureDefaults o) f footer).readMetaindexBlock env = .ok data)
    (hlen : data.length = footer.metaindexBH.Length)
    (hdec : (env.decodeMetaindex data).2.2 = none)
    (hprops : ∀ pbh, (env.decodeMetaindex data).1.lookup metaPropertiesName = some pbh →
      ∃ b, (readerOfFooter (env.ensureDefaults o) f footer).blockReader.Read env pbh
          noInitBlockMetadataFn = .ok b ∧
        (env.propertiesLoad (readerOfFooter (env.ensureDefaults o) f footer).Properties b
          (env.ensureDefaults o).DeniedUserProperties).2 = none)
    (hv2 : (env.decodeMetaindex data).1.lookup metaRangeDelV2Name = none)
    (hv1 : (env.decodeMetaindex data).1.lookup metaRangeDelV1Name = some bh) :
    ((readerOfFooter (env.ensureDefaults o) f footer).readMetaindex env
      (env.ensureDefaults o).Filters (env.ensureDefaults o).DeniedUserProperties).2
        = some rangeDelV1Error ∧
    rangeDelV1Error.isCorruption = true ∧
    (NewReader env (some f) o).out = .ret (none, some rangeDelV1Error) ∧
    (NewReader env (some f) o).file = some (f.Close).1 := by
  have hmeta := Reader.readMetaindex_rangeDelV1 env
    (readerOfFooter (env.ensureDefaults o) f footer) (env.ensureDefaults o).Filters
    (env.ensureDefaults o).DeniedUserProperties data bh hread hlen hdec hprops hv2 hv1
  have hnew := NewReader_of_readMetaindex_err env f o footer rangeDelV1Error hfooter hmeta
  exact ⟨hmeta, rfl, hnew.1, hnew.2⟩

/-- Witness of the amended C6 on a table with only the legacy range-del
block. -/
theorem NewReader_legacy_rangeDel_witness :
    (rangeDelV1Env.decodeMetaindex []).1.lookup metaRangeDelV2Name = none ∧
    (rangeDelV1Env.decodeMetaindex []).1.lookup metaRangeDelV1Name
      = some { Offset := 20, Length := 5 } ∧
    (NewReader rangeDelV1Env (some {}) optionsY).out = .ret (none, some rangeDelV1Error) ∧
    (NewReader rangeDelV1Env (some {}) optionsY).file = some ({} : Readable).Close.1 :=
  have h := NewReader_legacy_rangeDel rangeDelV1Env {} optionsY rowFooter []
    { Offset := 20, Length := 5 } rfl rfl rfl rfl
    (fun _ hp => Option.noConfusion
      ((show (rangeDelV1Env.decodeMetaindex []).1.lookup metaPropertiesName = none
        by decide).symm.trans hp)) (by decide) (by decide)
  ⟨by decide, by decide, h.2.2.1, h.2.2.2⟩

/-- C8, as stated, fails: the table of `defaultsEnv "nullptr"` names the
merger `nullptr`, which is non-empty, is not the name of a configured merger
(the options configure none, and `ensureDefaults` fills in
`pebble.concatenate`) and is not a key of the empty registry, and `NewReader`
returns a reader and no error. -/
theorem NewReader_merger_binding_counterexample :
    ((readerOfFooter (fillDefaultMerger optionsY) {} rowFooter).readMetaindex
      (defaultsEnv "nullptr") [] []).1.Properties.MergerName = "nullptr" ∧
    optionsY.Merger = none ∧
    ((defaultsEnv "nullptr").ensureDefaults optionsY).Merger = some defaultMerger ∧
    defaultMerger.Name ≠ "nullptr" ∧
    ((defaultsEnv "nullptr").ensureDefaults optionsY).Mergers.lookup "nullptr" = none ∧
    ∃ r, (NewReader (defaultsEnv "nullptr") (some {}) optionsY).out = .ret (some r, none) :=
  ⟨rfl, rfl, rfl, by decide, rfl, _, rfl⟩

/-- C8, amended: for a file whose footer, metaindex and comparer (and key
schema, if columnar) are accepted, `NewReader` fails with the unknown merger
error, closing the file, exactly when the merger name of the properties is
non-empty, is not `nullptr`, does not equal the name of the merger of the
options that `ensureDefaults` returns (line 810), and is not a key of the
merger registry of those options; otherwise it returns a reader and a nil
error and leaves the file open.  The options passed by the caller matter only
through `ensureDefaults`: a table that names the merger that `ensureDefaults`
fills in opens also when the caller configures no merger. -/
theorem NewReader_merger_binding (env : Env) (f : Readable) (o : ReaderOptions)
    (footer : Footer) (r1 : Reader)
    (hfooter : env.readFooter f (env.ensureDefaults o).FileNum = .ok footer)
    (hmeta : (readerOfFooter (env.ensureDefaults o) f footer).readMetaindex env
      (env.ensureDefaults o).Filters (env.ensureDefaults o).DeniedUserProperties = (r1, none))
    (hcomp : comparerAccepted r1.Properties.ComparerName (env.ensureDefaults o))
    (hks : keySchemaAccepted env footer.format r1.Properties.KeySchemaName
      (env.ensureDefaults o)) :
    (mergerUnknown r1.Properties.MergerName (env.ensureDefaults o) →
      (NewReader env (some f) o).out = .ret (none, some (unknownMergerError
        (env.ensureDefaults o).FileNum r1.Properties.MergerName)) ∧
      (NewReader env (some f) o).file = some (f.Close).1) ∧
    (¬ mergerUnknown r1.Properties.MergerName (env.ensureDefaults o) →
      ∃ r, (NewReader env (some f) o).out = .ret (some r, none) ∧ r.err = none ∧
        (NewReader env (some f) o).file = some f) := by
  obtain ⟨hf, hnum, herr, hfmt⟩ := readMetaindex_ok_facts env f (env.ensureDefaults o) footer
    r1 none hmeta
  obtain ⟨r2, hc, he2, hb2, hf2, hp2⟩ := bindComparer_accepted r1 (env.ensureDefaults o) hcomp
  constructor
  · intro hm
    obtain ⟨hme, hmb, hmf, hmp⟩ := bindMerger_unknown r2 (env.ensureDefaults o)
      (by rw [hp2]; exact hm)
    obtain ⟨r3, hk, he3, hb3⟩ := bindKeySchema_accepted env
      (bindMerger r2 (env.ensureDefaults o)) (env.ensureDefaults o)
      (by rw [hmp, hmf, hp2, hf2, hfmt]; exact hks)
    have hnum2 : r2.blockReader.FileNum = (env.ensureDefaults o).FileNum := by
      rw [hb2]; exact hnum
    rw [hnum2, hp2] at hme
    have h := (NewReader_of_binds env f o footer r1 r2 r3 hfooter hmeta hc hk).1 _
      (he3.trans hme)
    refine ⟨h.1, ?_⟩
    rw [h.2]
    exact Reader.Close_readable r3 f (by rw [hb3, hmb, hb2]; exact hf)
  · intro hm
    have hb : bindMerger r2 (env.ensureDefaults o) = r2 :=
      bindMerger_known r2 (env.ensureDefaults o) (by rw [hp2]; exact hm)
    obtain ⟨r3, hk, he3, hb3⟩ := bindKeySchema_accepted env r2 (env.ensureDefaults o)
      (by rw [hp2, hf2, hfmt]; exact hks)
    rw [← hb] at hk
    have he : r3.err = none := by rw [he3, he2]; exact herr
    have h := (NewReader_of_binds env f o footer r1 r2 r3 hfooter hmeta hc hk).2 he
    refine ⟨r3, h.1, he, ?_⟩
    rw [h.2, hb3, hb2]
    exact hf

/-- Witness of the amended C8, opened with options that configure no merger
and an `ensureDefaults` that fills in `pebble.concatenate`: a table written
with merger `m` fails with the unknown merger error and the file is closed; a
table written with merger `pebble.concatenate` opens. -/
theorem NewReader_merger_binding_witness :
    optionsY.Merger = none ∧
    comparerAccepted "y" (fillDefaultMerger optionsY) ∧
    mergerUnknown "m" (fillDefaultMerger optionsY) ∧
    (NewReader (defaultsEnv "m") (some {}) optionsY).out
      = .ret (none, some (unknownMergerError 7 "m")) ∧
    (NewReader (defaultsEnv "m") (some {}) optionsY).file = some ({} : Readable).Close.1 ∧
    ¬ mergerUnknown "pebble.concatenate" (fillDefaultMerger optionsY) ∧
    (∃ r, (NewReader (defaultsEnv "pebble.concatenate") (some {}) optionsY).out
        = .ret (some r, none) ∧ r.err = none ∧
      (NewReader (defaultsEnv "pebble.concatenate") (some {}) optionsY).file = some {}) :=
  have hc : comparerAccepted "y" (fillDefaultMerger optionsY) :=
    Or.inr ⟨comparerY, rfl, Or.inl rfl⟩
  have hm : mergerUnknown "m" (fillDefaultMerger optionsY) :=
    ⟨by decide, by decide,
      fun m h => by
        have hd : defaultMerger = m := Option.some.inj h
        rw [← hd]
        decide,
      rfl⟩
  have hk : ¬ mergerUnknown "pebble.concatenate" (fillDefaultMerger optionsY) :=
    fun hu => hu.2.2.1 defaultMerger rfl rfl
  have h := (NewReader_merger_binding (defaultsEnv "m") {} optionsY rowFooter
    ((readerOfFooter (fillDefaultMerger optionsY) {} rowFooter).readMetaindex
      (defaultsEnv "m") [] []).1
    rfl rfl hc (fun hcol => absurd hcol (by decide))).1 hm
  have h2 := (NewReader_merger_binding (defaultsEnv "pebble.concatenate") {} optionsY rowFooter
    ((readerOfFooter (fillDefaultMerger optionsY) {} rowFooter).readMetaindex
      (defaultsEnv "pebble.concatenate") [] []).1
    rfl rfl hc (fun hcol => absurd hcol (by decide))).2 hk
  ⟨rfl, hc, hm, h.1, h.2, hk, h2⟩

/-- C9, evaluated on a columnar table whose key schema `x` is not among the
configured key schemas (only `y` is): `NewReader` does not return an error;
it panics with the unknown key schema error as the panic value, and the file
has not been closed. -/
theorem NewReader_unknown_key_schema_panics :
    optionsY.KeySchemas.lookup "x" = none ∧
    keySchemaXEnv.BlockColumnar columnarFooter.format = true ∧
    (NewReader keySchemaXEnv (some {}) optionsY).out = .panic
      (.new "pebble/table: 7: unknown key schema \"x\"; known key schemas: [\"y\"]") ∧
    (NewReader keySchemaXEnv (some {}) optionsY).file = some { closeErr := none, closeCalls := 0 } :=
  ⟨by decide, rfl, rfl, rfl⟩

/-- C10, evaluated on a columnar table whose comparer `x` and key schema `x`
are both unknown to the options: `NewReader` returns neither a reader nor an
error; it panics, and the file has not been closed. -/
theorem NewReader_failure_leaves_file_open :
    ((readerOfFooter optionsY {} columnarFooter).readMetaindex comparerXKeySchemaXEnv [] []
      ).1.Properties.ComparerName = "x" ∧
    optionsY.Comparers.lookup "x" = none ∧
    (NewReader comparerXKeySchemaXEnv (some {}) optionsY).out = .panic
      (.new "pebble/table: 7: unknown key schema \"x\"; known key schemas: [\"y\"]") ∧
    (NewReader comparerXKeySchemaXEnv (some {}) optionsY).file
      = some { closeErr := none, closeCalls := 0 } ∧
    (match (NewReader comparerXKeySchemaXEnv (some {}) optionsY).file with
      | some file => file.closed
      | none => false) = false :=
  ⟨rfl, rfl, rfl, rfl, rfl⟩

/-! ## Keyspan iterators, the obsolete-key filter -/

theorem Reader.NewRawRangeDelIterLogged_result (env : Env) (r : Reader) (transforms : Nat) :
    (r.NewRawRangeDelIterLogged env transforms).2 = r.NewRawRangeDelIter env transforms := by
  unfold Reader.NewRawRangeDelIterLogged Reader.NewRawRangeDelIter
  split <;> rfl

theorem Reader.NewRawRangeKeyIterLogged_result (env : Env) (r : Reader) (transforms : Nat) :
    (r.NewRawRangeKeyIterLogged env transforms).2 = r.NewRawRangeKeyIter env transforms := by
  unfold Reader.NewRawRangeKeyIterLogged Reader.NewRawRangeKeyIter
  split <;> rfl

/-- C11: a missing keyspan block yields a nil iterator and no error: for
every reader whose range-key handle has length 0, `NewRawRangeKeyIter` returns
a nil iterator and a nil error and issues no block read, and likewise
`NewRawRangeDelIter` whenever the range-del handle has length 0. -/
theorem Reader.NewRawRangeIter_missing_block (env : Env) (r : Reader) (transforms : Nat) :
    (r.rangeKeyBH.Length = 0 →
      r.NewRawRangeKeyIter env transforms = .ret (none, none) ∧
      r.NewRawRangeKeyIterLogged env transforms = ([], .ret (none, none))) ∧
    (r.rangeDelBH.Length = 0 →
      r.NewRawRangeDelIter env transforms = .ret (none, none) ∧
      r.NewRawRangeDelIterLogged env transforms = ([], .ret (none, none))) := by
  constructor
  · intro h
    simp [Reader.NewRawRangeKeyIter, Reader.NewRawRangeKeyIterLogged, h]
  · intro h
    simp [Reader.NewRawRangeDelIter, Reader.NewRawRangeDelIterLogged, h]

/-- Witness of C11 on `openReader`, which has neither block. -/
theorem Reader.NewRawRangeIter_missing_block_witness :
    openReader.rangeKeyBH.Length = 0 ∧ openReader.rangeDelBH.Length = 0 ∧
    openReader.NewRawRangeKeyIterLogged failingReadEnv 0 = ([], .ret (none, none)) ∧
    openReader.NewRawRangeDelIterLogged failingReadEnv 0 = ([], .ret (none, none)) :=
  have h := Reader.NewRawRangeIter_missing_block failingReadEnv openReader 0
  ⟨rfl, rfl, (h.1 rfl).2, (h.2 rfl).2⟩

/-- C12: `TryAddBlockPropertyFilterForHideObsoletePoints` returns hide = true
if and only if the table format is at least Pebble v4 and the snapshot
sequence number is strictly greater than the largest sequence number of the
file; when hide is true the returned filters are the input filters, in order,
followed by exactly one obsolete-key filter, and when hide is false they are
the input filters. -/
theorem Reader.TryAddBlockPropertyFilterForHideObsoletePoints_spec
    (TableFormatPebblev4 : Pebble.TableFormat) (r : Reader) (snapshot fileLargestSeqNum : Nat)
    (filters : List BlockPropertyFilter) :
    ((r.TryAddBlockPropertyFilterForHideObsoletePoints TableFormatPebblev4 snapshot
        fileLargestSeqNum filters).1 = true ↔
      TableFormatPebblev4 ≤ r.tableFormat ∧ fileLargestSeqNum < snapshot) ∧
    (r.TryAddBlockPropertyFilterForHideObsoletePoints TableFormatPebblev4 snapshot
        fileLargestSeqNum filters).2 =
      (if (r.TryAddBlockPropertyFilterForHideObsoletePoints TableFormatPebblev4 snapshot
          fileLargestSeqNum filters).1 = true
        then filters ++ [BlockPropertyFilter.obsoleteKeyBlockPropertyFilter]
        else filters) := by
  unfold Reader.TryAddBlockPropertyFilterForHideObsoletePoints
  by_cases h : TableFormatPebblev4 ≤ r.tableFormat ∧ fileLargestSeqNum < snapshot
  · simp [h.1, h.2]
  · have h2 : (decide (r.tableFormat ≥ TableFormatPebblev4) &&
        decide (snapshot > fileLargestSeqNum)) = false := by
      simpa [Bool.and_eq_false_iff, not_and_or] using h
    simp [h2, h]

/-! ## The replay tool -/

theorem overwriteValueMerger.calls_spec (cs : List MergeCall) :
    ∀ o : overwriteValueMerger,
      (o.calls cs).1.value = lastMergeNewer o.value cs ∧
      (o.calls cs).2 = List.replicate cs.length none ∧
      (o.calls (onlyMergeNewer cs)).1 = (o.calls cs).1 := by
  induction cs with
  | nil => intro o; exact ⟨rfl, rfl, rfl⟩
  | cons c cs ih =>
    intro o
    cases c with
    | MergeNewer value =>
      obtain ⟨h1, h2, h3⟩ := ih (o.MergeNewer value).1
      refine ⟨?_, ?_, ?_⟩
      · simpa [overwriteValueMerger.calls, overwriteValueMerger.call, lastMergeNewer,
          overwriteValueMerger.MergeNewer] using h1
      · simpa [overwriteValueMerger.calls, overwriteValueMerger.call, List.replicate_succ,
          overwriteValueMerger.MergeNewer] using h2
      · simpa [overwriteValueMerger.calls, overwriteValueMerger.call, onlyMergeNewer] using h3
    | MergeOlder value =>
      obtain ⟨h1, h2, h3⟩ := ih o
      refine ⟨?_, ?_, ?_⟩
      · simpa [overwriteValueMerger.calls, overwriteValueMerger.call, lastMergeNewer,
          overwriteValueMerger.MergeOlder] using h1
      · simpa [overwriteValueMerger.calls, overwriteValueMerger.call, List.replicate_succ,
          overwriteValueMerger.MergeOlder] using h2
      · simpa [overwriteValueMerger.calls, overwriteValueMerger.call, onlyMergeNewer,
          overwriteValueMerger.MergeOlder] using h3

/-- C18: the merger that `makeMerger` substitutes for
`cockroach_merge_operator` is newest-wins: after `Merge(key, v0)`, for every
sequence of `MergeNewer` and `MergeOlder` calls, `Finish` returns the operand
of the last `MergeNewer` call, or `v0` if there was none; dropping the
`MergeOlder` calls does not change the result, and `Merge`, every call of the
sequence and `Finish` return a nil error. -/
theorem makeMerger_newest_wins (env : Env) (defaultMergerName : String) (key v0 : Bytes)
    (cs : List MergeCall) (includesBase : Bool)
    (hname : defaultMergerName ≠ "cockroach_merge_operator") :
    makeMerger env defaultMergerName "cockroach_merge_operator"
      = (some (.overwrite "cockroach_merge_operator"), none) ∧
    (overwriteMerge key v0).2 = none ∧
    (((overwriteMerge key v0).1.calls cs).1.Finish includesBase)
      = (lastMergeNewer v0 cs, none) ∧
    ((overwriteMerge key v0).1.calls cs).2 = List.replicate cs.length none ∧
    (((overwriteMerge key v0).1.calls (onlyMergeNewer cs)).1.Finish includesBase)
      = (((overwriteMerge key v0).1.calls cs).1.Finish includesBase) := by
  obtain ⟨h1, h2, h3⟩ := overwriteValueMerger.calls_spec cs (overwriteMerge key v0).1
  refine ⟨?_, rfl, ?_, h2, ?_⟩
  · simp [makeMerger, Ne.symm hname]
  · simp only [overwriteValueMerger.Finish, h1]
    simp [overwriteMerge]
  · rw [h3]

/-- Witness of C18: an older operand after two newer ones leaves the last
newer operand. -/
theorem makeMerger_newest_wins_witness :
    ("pebble.concatenate" : String) ≠ "cockroach_merge_operator" ∧
    (((overwriteMerge [1] [10]).1.calls
        [.MergeNewer [20], .MergeNewer [30], .MergeOlder [5]]).1.Finish true)
      = (lastMergeNewer [10] [.MergeNewer [20], .MergeNewer [30], .MergeOlder [5]], none) ∧
    lastMergeNewer [10] [.MergeNewer [20], .MergeNewer [30], .MergeOlder [5]] = [30] :=
  ⟨by decide,
    (makeMerger_newest_wins failingReadEnv "pebble.concatenate" [1] [10]
      [.MergeNewer [20], .MergeNewer [30], .MergeOlder [5]] true (by decide)).2.2.1,
    by decide⟩

theorem IndexFunc_none (f : Char → Bool) (s : List Char) (h : IndexFunc f s = none) :
    ∀ c ∈ s, f c = false := by
  induction s with
  | nil => intro c hc; cases hc
  | cons a s ih =>
    unfold IndexFunc at h
    by_cases ha : f a = true
    · simp [ha] at h
    · simp only [ha, Bool.false_eq_true, if_false, Option.map_eq_none'] at h
      intro c hc
      rcases List.mem_cons.mp hc with rfl | hc
      · simpa using ha
      · exact ih h c hc

theorem IndexFunc_some (f : Char → Bool) (s : List Char) :
    ∀ i, IndexFunc f s = some i →
      ∃ c rest, s = s.take i ++ c :: rest ∧ f c = true ∧ (∀ x ∈ s.take i, f x = false) ∧
        s.get? i = some c ∧ s.drop (i + 1) = rest ∧ (s.take i).length = i := by
  induction s with
  | nil => intro i h; cases h
  | cons a s ih =>
    intro i h
    unfold IndexFunc at h
    by_cases ha : f a = true
    · simp only [ha, if_true, Option.some.injEq] at h
      subst h
      exact ⟨a, s, by simp, ha, by simp, by simp, by simp, by simp⟩
    · simp only [ha, Bool.false_eq_true, if_false, Option.map_eq_some'] at h
      obtain ⟨j, hj, rfl⟩ := h
      obtain ⟨c, rest, h1, h2, h3, h4, h5, h6⟩ := ih j hj
      refine ⟨c, rest, ?_, h2, ?_, ?_, ?_, ?_⟩
      · simp only [List.take_succ_cons, List.cons_append, List.cons.injEq, true_and]
        exact h1
      · intro x hx
        simp only [List.take_succ_cons, List.mem_cons] at hx
        rcases hx with rfl | hx
        · simpa using ha
        · exact h3 x hx
      · simpa using h4
      · simpa using h5
      · simp [h6]

theorem fieldsAux_append_nonspace (w : List Char) (hw : ∀ c ∈ w, unicodeIsSpace c = false) :
    ∀ cur rest, fieldsAux cur (w ++ rest) = fieldsAux (cur ++ w) rest := by
  induction w with
  | nil => intro cur rest; simp
  | cons a w ih =>
    intro cur rest
    have ha : unicodeIsSpace a = false := hw a (List.mem_cons_self a w)
    have hw2 : ∀ c ∈ w, unicodeIsSpace c = false :=
      fun c hc => hw c (List.mem_cons_of_mem a hc)
    simp only [List.cons_append, fieldsAux, ha, Bool.false_eq_true, if_false, List.append_eq]
    rw [ih hw2]
    simp

theorem fieldsAux_spaces (ws : List Char) (hws : ∀ c ∈ ws, unicodeIsSpace c = true) :
    ∀ rest, fieldsAux [] (ws ++ rest) = fieldsAux [] rest := by
  induction ws with
  | nil => intro rest; rfl
  | cons a ws ih =>
    intro rest
    have ha : unicodeIsSpace a = true := hws a (List.mem_cons_self a ws)
    simp only [List.cons_append, fieldsAux, ha, if_true]
    exact ih (fun c hc => hws c (List.mem_cons_of_mem a hc)) rest

theorem fieldsAux_trailing_spaces (ws : List Char) (hws : ∀ c ∈ ws, unicodeIsSpace c = true)
    (l : List Char) : ∀ cur, fieldsAux cur (l ++ ws) = fieldsAux cur l := by
  induction l with
  | nil =>
    intro cur
    cases ws with
    | nil => rfl
    | cons a ws =>
      have ha : unicodeIsSpace a = true := hws a (List.mem_cons_self a ws)
      have h0 : fieldsAux [] ws = [] := by
        have := fieldsAux_spaces ws (fun c hc => hws c (List.mem_cons_of_mem a hc)) []
        simpa [fieldsAux] using this
      simp only [List.nil_append, fieldsAux, ha, if_true, h0]
  | cons a l ih =>
    intro cur
    simp only [List.cons_append, fieldsAux, List.append_eq, ih]

theorem fieldsAux_ne_nil (l : List Char) :
    ∀ cur, (cur ≠ [] ∨ ∃ c ∈ l, unicodeIsSpace c = false) → fieldsAux cur l ≠ [] := by
  induction l with
  | nil =>
    intro cur h
    rcases h with h | ⟨c, hc, -⟩
    · simp [fieldsAux, h]
    · cases hc
  | cons a l ih =>
    intro cur h
    unfold fieldsAux
    by_cases ha : unicodeIsSpace a = true
    · simp only [ha, if_true]
      by_cases hcur : cur = []
      · simp only [hcur, if_true]
        apply ih
        right
        rcases h with h | ⟨c, hc, hcs⟩
        · exact absurd hcur h
        · rcases List.mem_cons.mp hc with rfl | hc
          · rw [ha] at hcs; cases hcs
          · exact ⟨c, hc, hcs⟩
      · simp [hcur]
    · simp only [ha, Bool.false_eq_true, if_false]
      apply ih
      left
      simp

theorem head_dropWhile_space (l : List Char) :
    ∀ c ∈ (l.dropWhile unicodeIsSpace).head?, unicodeIsSpace c = false := by
  induction l with
  | nil => intro c hc; simp at hc
  | cons a l ih =>
    intro c hc
    by_cases ha : unicodeIsSpace a = true
    · rw [List.dropWhile_cons_of_pos ha] at hc
      exact ih c hc
    · rw [List.dropWhile_cons_of_neg ha] at hc
      simp only [List.head?_cons, Option.mem_def, Option.some.injEq] at hc
      subst hc
      simpa using ha

theorem TrimSpace_decomp (l : List Char) :
    ∃ pre post, l = pre ++ (TrimSpace l ++ post) ∧ (∀ c ∈ pre, unicodeIsSpace c = true) ∧
      (∀ c ∈ post, unicodeIsSpace c = true) ∧
      l.dropWhile unicodeIsSpace = TrimSpace l ++ post := by
  have h1 : l = l.takeWhile unicodeIsSpace ++ l.dropWhile unicodeIsSpace :=
    (List.takeWhile_append_dropWhile unicodeIsSpace l).symm
  have h3 : l.dropWhile unicodeIsSpace = TrimSpace l
      ++ ((l.dropWhile unicodeIsSpace).reverse.takeWhile unicodeIsSpace).reverse := by
    unfold TrimSpace
    rw [← List.reverse_append, List.takeWhile_append_dropWhile, List.reverse_reverse]
  refine ⟨l.takeWhile unicodeIsSpace,
    ((l.dropWhile unicodeIsSpace).reverse.takeWhile unicodeIsSpace).reverse, ?_, ?_, ?_, h3⟩
  · rw [← h3]; exact h1
  · intro c hc; exact List.mem_takeWhile_imp hc
  · intro c hc; exact List.mem_takeWhile_imp (List.mem_reverse.mp hc)

theorem fields_TrimSpace (l : List Char) : fields (TrimSpace l) = fields l := by
  obtain ⟨pre, post, h, hpre, hpost, -⟩ := TrimSpace_decomp l
  conv_rhs => rw [h]
  unfold fields
  rw [fieldsAux_spaces pre hpre, fieldsAux_trailing_spaces post hpost]

theorem TrimSpace_length_le (l : List Char) : (TrimSpace l).length ≤ l.length := by
  obtain ⟨pre, post, h, -, -, -⟩ := TrimSpace_decomp l
  have := congrArg List.length h
  simp only [List.length_append] at this
  omega

theorem TrimSpace_mem (l : List Char) (c : Char) (hc : c ∈ TrimSpace l) : c ∈ l := by
  obtain ⟨pre, post, h, -, -, -⟩ := TrimSpace_decomp l
  rw [h]
  simp [hc]

theorem TrimSpace_head (l : List Char) :
    ∀ c ∈ (TrimSpace l).head?, unicodeIsSpace c = false := by
  obtain ⟨pre, post, -, -, -, h⟩ := TrimSpace_decomp l
  intro c hc
  have hd := head_dropWhile_space l c
  rw [h] at hd
  cases ht : TrimSpace l with
  | nil => rw [ht] at hc; simp at hc
  | cons a t =>
    rw [ht] at hc hd
    exact hd (by simpa using hc)

theorem TrimSpace_getLast (l : List Char) :
    ∀ c ∈ (TrimSpace l).getLast?, unicodeIsSpace c = false := by
  intro c hc
  have h := head_dropWhile_space (l.dropWhile unicodeIsSpace).reverse c
  apply h
  simpa [TrimSpace, List.getLast?_reverse] using hc

theorem parseCustomOptionsLoop_nil (fuel : Nat) (buf : List Char) :
    parseCustomOptionsLoop fuel [] buf = some buf := by
  cases fuel <;> rfl

theorem intercalate_cons_of_ne_nil (sep w : List Char) (fs : List (List Char)) (h : fs ≠ []) :
    List.intercalate sep (w :: fs) = w ++ sep ++ List.intercalate sep fs := by
  cases fs with
  | nil => exact absurd rfl h
  | cons f fs => simp [List.intercalate, List.intersperse]

theorem firstByte_ascii (c : Char) (h : c.toNat < 128) : firstByte c = c.toNat := by
  simp [firstByte, h]

theorem Char.eq_of_toNat_eq (c d : Char) (h : c.toNat = d.toNat) : c = d := by
  have := congrArg Char.ofNat h
  simpa using this

theorem parseCustomOptionsStep_ascii_none (v buf : List Char)
    (hidx : IndexFunc (fun r => r == '[' || unicodeIsSpace r) v = none) :
    parseCustomOptionsStep v buf = ([], buf ++ v) := by
  unfold parseCustomOptionsStep
  simp [hidx]

theorem parseCustomOptionsStep_ascii_some (v buf : List Char) (i : Nat)
    (hv : ∀ c ∈ v, c.toNat < 128 ∧ c ≠ '[')
    (hidx : IndexFunc (fun r => r == '[' || unicodeIsSpace r) v = some i) :
    ∃ c rest, v = v.take i ++ c :: rest ∧ unicodeIsSpace c = true ∧
      (∀ x ∈ v.take i, unicodeIsSpace x = false) ∧ (v.take i).length = i ∧
      parseCustomOptionsStep v buf = (TrimSpace rest, buf ++ v.take i ++ ['\n']) := by
  obtain ⟨c, rest, h1, h2, h3, h4, h5, h6⟩ := IndexFunc_some _ v i hidx
  have hcv : c ∈ v := by rw [h1]; simp
  obtain ⟨hascii, hbr⟩ := hv c hcv
  have hsp : unicodeIsSpace c = true := by
    simp only [Bool.or_eq_true, beq_iff_eq] at h2
    rcases h2 with h2 | h2
    · exact absurd h2 hbr
    · exact h2
  refine ⟨c, rest, h1, hsp, ?_, h6, ?_⟩
  · intro x hx
    have := h3 x hx
    simp only [Bool.or_eq_false_iff] at this
    exact this.2
  · unfold parseCustomOptionsStep
    have hne : ¬ (c.toNat = '['.toNat) := fun h => hbr (Char.eq_of_toNat_eq c '[' h)
    simp only [hidx, h4, Option.map_some', firstByte_ascii c hascii, Option.some.injEq, hne,
      if_false, Char.ofNat_toNat, hsp, if_true, h5]

theorem parseCustomOptionsLoop_fields (fuel : Nat) :
    ∀ v buf : List Char, v.length < fuel → (∀ c ∈ v, c.toNat < 128 ∧ c ≠ '[') →
      (∀ c ∈ v.head?, unicodeIsSpace c = false) →
      (∀ c ∈ v.getLast?, unicodeIsSpace c = false) →
      parseCustomOptionsLoop fuel v buf = some (buf ++ List.intercalate ['\n'] (fields v)) := by
  induction fuel with
  | zero => intro v buf h; exact absurd h (Nat.not_lt_zero _)
  | succ fuel ih =>
    intro v buf hlen hv hhead hlast
    cases v with
    | nil => simp [parseCustomOptionsLoop, fields, fieldsAux, List.intercalate]
    | cons a t =>
      have hloop : parseCustomOptionsLoop (fuel + 1) (a :: t) buf
          = parseCustomOptionsLoop fuel (parseCustomOptionsStep (a :: t) buf).1
              (parseCustomOptionsStep (a :: t) buf).2 := rfl
      rw [hloop]
      have ha : unicodeIsSpace a = false := hhead a (by simp)
      cases hidx : IndexFunc (fun r => r == '[' || unicodeIsSpace r) (a :: t) with
      | none =>
        rw [parseCustomOptionsStep_ascii_none _ _ hidx, parseCustomOptionsLoop_nil]
        have hns : ∀ c ∈ a :: t, unicodeIsSpace c = false := by
          intro c hc
          have := IndexFunc_none _ _ hidx c hc
          simp only [Bool.or_eq_false_iff] at this
          exact this.2
        have hf : fields (a :: t) = [a :: t] := by
          unfold fields
          have := fieldsAux_append_nonspace (a :: t) hns [] []
          simp only [List.append_nil, List.nil_append] at this
          rw [this]
          simp [fieldsAux]
        rw [hf]
        simp [List.intercalate]
      | some i =>
        obtain ⟨c, rest, h1, hsp, hw, hwl, hstep⟩ :=
          parseCustomOptionsStep_ascii_some (a :: t) buf i hv hidx
        rw [hstep]
        -- the field before the white space is not empty
        have hw0 : (a :: t).take i ≠ [] := by
          intro h0
          rw [h0] at h1
          simp only [List.nil_append, List.cons.injEq] at h1
          rw [← h1.1, ha] at hsp
          cases hsp
        -- a character that is not white space follows the white space
        have hrest : ∃ x ∈ rest, unicodeIsSpace x = false := by
          cases hr : rest.getLast? with
          | none =>
            have hnil : rest = [] := List.getLast?_eq_none_iff.mp hr
            have : (a :: t).getLast? = some c := by rw [h1, hnil]; simp
            have := hlast c (by rw [this]; rfl)
            rw [this] at hsp
            cases hsp
          | some x =>
            have hx : x ∈ rest := List.mem_of_getLast?_eq_some hr
            have hne : rest ≠ [] := List.ne_nil_of_mem hx
            have : (a :: t).getLast? = some x := by
              rw [h1, List.getLast?_append_of_ne_nil _ (by simp)]
              cases rest with
              | nil => exact absurd rfl hne
              | cons b r => rw [List.getLast?_cons_cons]; exact hr
            exact ⟨x, hx, hlast x (by rw [this]; rfl)⟩
        have hfields : fields (a :: t) = (a :: t).take i :: fields rest := by
          unfold fields
          conv_lhs => rw [h1]
          rw [fieldsAux_append_nonspace _ hw]
          simp only [List.nil_append, fieldsAux, hsp, if_true, hw0, if_false]
        have hne : fields rest ≠ [] := fieldsAux_ne_nil rest [] (Or.inr hrest)
        have hlen2 : (TrimSpace rest).length < fuel := by
          have h2 := TrimSpace_length_le rest
          have h3 := congrArg List.length h1
          simp only [List.length_append, List.length_cons] at h3
          simp only [List.length_cons] at hlen
          omega
        rw [ih (TrimSpace rest) _ hlen2
          (fun x hx => hv x (by rw [h1]; simp [TrimSpace_mem rest x hx]))
          (TrimSpace_head rest) (TrimSpace_getLast rest)]
        rw [fields_TrimSpace, hfields, intercalate_cons_of_ne_nil _ _ _ hne]
        simp

/-- C19: for every non-empty string of ASCII characters that contains no `[`,
`parseCustomOptions` ends (within one iteration per character) and hands to
`Options.Parse` exactly the white-space-separated fields of the input joined
by single newline characters; for the empty string it returns nil without
parsing anything. -/
theorem parseCustomOptions_fields (fuel : Nat) (optsStr : List Char) :
    parseCustomOptions fuel [] = some none ∧
    (optsStr ≠ [] → (∀ c ∈ optsStr, c.toNat < 128 ∧ c ≠ '[') → optsStr.length < fuel →
      parseCustomOptions fuel optsStr
        = some (some (List.intercalate ['\n'] (fields optsStr)))) := by
  refine ⟨rfl, fun hne hascii hfuel => ?_⟩
  unfold parseCustomOptions
  rw [if_neg hne, parseCustomOptionsLoop_fields fuel (TrimSpace optsStr) []
    (lt_of_le_of_lt (TrimSpace_length_le optsStr) hfuel)
    (fun c hc => hascii c (TrimSpace_mem optsStr c hc))
    (TrimSpace_head optsStr) (TrimSpace_getLast optsStr), fields_TrimSpace]
  simp

/-- Witness of C19 on the options ` a  b<tab>c `. -/
theorem parseCustomOptions_fields_witness :
    fields [' ', 'a', ' ', ' ', 'b', '\t', 'c', ' '] = [['a'], ['b'], ['c']] ∧
    parseCustomOptions 9 [' ', 'a', ' ', ' ', 'b', '\t', 'c', ' ']
      = some (some (List.intercalate ['\n'] (fields [' ', 'a', ' ', ' ', 'b', '\t', 'c', ' ']))) ∧
    List.intercalate ['\n'] (fields [' ', 'a', ' ', ' ', 'b', '\t', 'c', ' '])
      = ['a', '\n', 'b', '\n', 'c'] :=
  ⟨by decide,
    (parseCustomOptions_fields 9 [' ', 'a', ' ', ' ', 'b', '\t', 'c', ' ']).2 (by decide)
      (by decide) (by decide),
    by decide⟩

theorem parseCustomOptionsLoop_stuck (v : List Char) (hv : v ≠ [])
    (hstep : ∀ buf, parseCustomOptionsStep v buf = (v, buf)) :
    ∀ fuel buf, parseCustomOptionsLoop fuel v buf = none := by
  intro fuel
  induction fuel with
  | zero =>
    intro buf
    cases v with
    | nil => exact absurd rfl hv
    | cons a t => rfl
  | succ fuel ih =>
    intro buf
    cases v with
    | nil => exact absurd rfl hv
    | cons a t =>
      show parseCustomOptionsLoop fuel (parseCustomOptionsStep (a :: t) buf).1
        (parseCustomOptionsStep (a :: t) buf).2 = none
      rw [hstep buf]
      exact ih buf

/-- C20, evaluated on the options `[` (an opening bracket that is never
closed) and on `a`, no-break space, `b` (multi-byte white space): an
iteration of the loop leaves the remaining text and the buffer as they were,
so the loop of `parseCustomOptions` does not end within any number of
iterations. -/
theorem parseCustomOptions_does_not_terminate (fuel : Nat) :
    parseCustomOptionsStep ['['] [] = (['['], []) ∧
    parseCustomOptions fuel ['['] = none ∧
    parseCustomOptionsStep ['a', Char.ofNat 0xA0, 'b'] [] = (['a', Char.ofNat 0xA0, 'b'], []) ∧
    parseCustomOptions fuel ['a', Char.ofNat 0xA0, 'b'] = none := by
  have h1 : ∀ buf, parseCustomOptionsStep ['['] buf = (['['], buf) := by
    intro buf
    simp [parseCustomOptionsStep, IndexFunc, firstByte]
  have h2 : ∀ buf, parseCustomOptionsStep ['a', Char.ofNat 0xA0, 'b'] buf
      = (['a', Char.ofNat 0xA0, 'b'], buf) := by
    intro buf
    have hidx : IndexFunc (fun r => r == '[' || unicodeIsSpace r) ['a', Char.ofNat 0xA0, 'b']
        = some 1 := by decide
    have hb : (['a', Char.ofNat 0xA0, 'b'].get? 1).map firstByte = some 0xC2 := by decide
    have hs : (['a', Char.ofNat 0xA0, 'b'].get? 1).map
        (fun c => unicodeIsSpace (Char.ofNat (firstByte c))) = some false := by decide
    unfold parseCustomOptionsStep
    rw [hidx]
    simp only [hb, hs]
    simp
  have t1 : TrimSpace ['['] = ['['] := by decide
  have t2 : TrimSpace ['a', Char.ofNat 0xA0, 'b'] = ['a', Char.ofNat 0xA0, 'b'] := by decide
  refine ⟨h1 [], ?_, h2 [], ?_⟩
  · unfold parseCustomOptions
    rw [if_neg (by decide), t1, parseCustomOptionsLoop_stuck ['['] (by decide) h1]
  · unfold parseCustomOptions
    rw [if_neg (by decide), t2,
      parseCustomOptionsLoop_stuck ['a', Char.ofNat 0xA0, 'b'] (by decide) h2]

/-! ## Layout and checksum validation -/

theorem layoutTwoLevelLogged_result (env : Env) (r : Reader) (top : List IndexEntry) :
    ∀ index data, (layoutTwoLevelLogged env r top index data).2
      = layoutTwoLevel env r top index data := by
  induction top with
  | nil => intro index data; rfl
  | cons e rest ih =>
    intro index data
    unfold layoutTwoLevelLogged layoutTwoLevel
    split
    · rfl
    · split
      · rfl
      · split
        · rfl
        · split
          · rfl
          · rfl
          · exact ih _ _

theorem layoutValueBlocksLogged_result (env : Env) (r : Reader) (l : Layout) :
    (layoutValueBlocksLogged env r l).2 = layoutValueBlocks env r l := by
  unfold layoutValueBlocksLogged
  split <;> rfl

theorem validateBlocksLogged_result (bs : List blk) :
    (validateBlocksLogged bs).2 = validateBlocks bs := by
  induction bs with
  | nil => rfl
  | cons b rest ih =>
    unfold validateBlocksLogged validateBlocks
    split
    · exact ih
    · split
      · rfl
      · exact ih

theorem Reader.LayoutLogged_result (env : Env) (r : Reader) :
    (r.LayoutLogged env).2 = r.Layout env := by
  unfold Reader.LayoutLogged Reader.Layout
  split
  · rfl
  · dsimp only
    split
    · rfl
    · split
      · rfl
      · split
        · split
          · rfl
          · split
            · rfl
            · rfl
            · simp only [layoutValueBlocksLogged_result]
        · split
          · rfl
          · simp only [layoutTwoLevelLogged_result]
            split
            · rfl
            · rfl
            · simp only [layoutValueBlocksLogged_result]

theorem Reader.ValidateBlockChecksumsLogged_result (env : Env) (r : Reader) :
    (r.ValidateBlockChecksumsLogged env).2 = r.ValidateBlockChecksums env := by
  unfold Reader.ValidateBlockChecksumsLogged Reader.ValidateBlockChecksums
  rw [Reader.LayoutLogged_result env r]
  split
  · rfl
  · rfl
  · rfl
  · simp only [validateBlocksLogged_result]

theorem validateBlocksLogged_all_ok (bs : List blk)
    (h : ∀ b ∈ bs, b.bh.Length ≠ 0 → ∃ d, b.readFn b.bh = .ok d) :
    validateBlocksLogged bs
      = (((bs.map (fun b => b.bh)).filter (fun h => decide (h.Length ≠ 0))), none) := by
  induction bs with
  | nil => rfl
  | cons b rest ih =>
    have ih2 := ih (fun b2 hb2 => h b2 (List.mem_cons_of_mem b hb2))
    unfold validateBlocksLogged
    by_cases hz : b.bh.Length = 0
    · simp [hz, ih2]
    · obtain ⟨d, hd⟩ := h b (List.mem_cons_self b rest) hz
      simp [hz, hd, ih2]

theorem Reader.checksumBlocks_handles (env : Env) (r : Reader) (l : Pebble.Layout) :
    (r.checksumBlocks env l).map (fun b => b.bh) = l.scannedHandles := by
  simp [Reader.checksumBlocks, Layout.scannedHandles, Function.comp_def]

theorem insertionSort_blocks (bs : List blk) :
    ((bs.insertionSort (fun a b => a.bh.Offset ≤ b.bh.Offset)).map (fun b => b.bh)).Perm
      (bs.map (fun b => b.bh)) ∧
    ((bs.insertionSort (fun a b => a.bh.Offset ≤ b.bh.Offset)).map (fun b => b.bh)).Sorted
      (fun a b => a.Offset ≤ b.Offset) := by
  haveI : IsTotal blk (fun a b => a.bh.Offset ≤ b.bh.Offset) :=
    ⟨fun a b => Nat.le_total _ _⟩
  haveI : IsTrans blk (fun a b => a.bh.Offset ≤ b.bh.Offset) :=
    ⟨fun a b c hab hbc => Nat.le_trans hab hbc⟩
  constructor
  · exact (List.perm_insertionSort _ bs).map _
  · have hs := List.sorted_insertionSort (fun a b : blk => a.bh.Offset ≤ b.bh.Offset) bs
    exact List.pairwise_map.mpr hs

theorem layoutValueBlocks_some (env : Env) (r : Reader) (l0 l : Layout)
    (h : layoutValueBlocks env r l0 = (some l, none)) :
    l.Data = l0.Data ∧ l.Index = l0.Index ∧ l.TopIndex = l0.TopIndex ∧
    l.scannedHandles = l0.scannedHandles := by
  unfold layoutValueBlocks at h
  split at h
  · split at h
    · cases h
    · split at h
      · cases h
      · simp only [Prod.mk.injEq, Option.some.injEq, and_true] at h
        subst h
        exact ⟨rfl, rfl, rfl, rfl⟩
  · simp only [Prod.mk.injEq, Option.some.injEq, and_true] at h
    subst h
    exact ⟨rfl, rfl, rfl, rfl⟩

theorem Reader.LayoutLogged_some (env : Env) (r : Reader) (llog : List Handle)
    (l : Pebble.Layout)
    (h : r.LayoutLogged env = (llog, .ret (some l, none))) :
    (∃ rest, llog = r.indexBH :: rest) ∧
    (r.Properties.IndexPartitions = 0 → l.Index = [r.indexBH] ∧ l.TopIndex = {}) ∧
    (r.Properties.IndexPartitions ≠ 0 → l.TopIndex = r.indexBH) := by
  unfold Reader.LayoutLogged at h
  split at h
  · simp at h
  · dsimp only at h
    split at h
    · simp at h
    · rename_i l1 hl1
      have hl1i : l1.Index = [] ∧ l1.TopIndex = {} := by
        split at hl1
        · split at hl1
          · cases hl1
          · cases hl1; exact ⟨rfl, rfl⟩
        · cases hl1; exact ⟨rfl, rfl⟩
      split at h
      · simp at h
      · split at h
        · rename_i hpart
          split at h
          · simp at h
          · split at h
            · simp at h
            · simp at h
            · simp only [Prod.mk.injEq, Outcome.ret.injEq] at h
              obtain ⟨hlog, hres⟩ := h
              rw [layoutValueBlocksLogged_result] at hres
              obtain ⟨-, hi, ht, -⟩ := layoutValueBlocks_some env r _ l hres
              refine ⟨⟨_, hlog.symm⟩, fun _ => ⟨?_, ?_⟩, fun hne => absurd hpart hne⟩
              · rw [hi, hl1i.1]; rfl
              · rw [ht, hl1i.2]
        · rename_i hpart
          split at h
          · simp at h
          · split at h
            · simp at h
            · simp at h
            · simp only [Prod.mk.injEq, Outcome.ret.injEq] at h
              obtain ⟨hlog, hres⟩ := h
              rw [layoutValueBlocksLogged_result] at hres
              obtain ⟨-, -, ht, -⟩ := layoutValueBlocks_some env r _ l hres
              refine ⟨⟨_, by rw [← hlog]; rfl⟩, fun h0 => absurd h0 hpart, fun _ => ?_⟩
              rw [ht]

theorem layoutData_ok (env : Env) (entries : List IndexEntry) :
    ∀ data data1, layoutData env entries data = .ret (.ok data1) →
      ∃ hs, entries.map (fun e => e.bh) = hs.map Except.ok ∧ data1 = data ++ hs := by
  induction entries with
  | nil =>
    intro data data1 h
    simp only [layoutData, Outcome.ret.injEq, Except.ok.injEq] at h
    exact ⟨[], rfl, by simp [h]⟩
  | cons e rest ih =>
    intro data data1 h
    unfold layoutData at h
    split at h
    · split at h <;> simp at h
    · rename_i dataBH hbh
      obtain ⟨hs, h1, h2⟩ := ih _ _ h
      exact ⟨dataBH :: hs, by simp [hbh, h1], by simp [h2]⟩

theorem layoutTwoLevel_ok (env : Env) (r : Reader) (top : List IndexEntry) :
    ∀ index data index1 data1,
      layoutTwoLevel env r top index data = .ret (.ok (index1, data1)) →
      ∃ (subHandles : List HandleWithProperties) (subs : List (List HandleWithProperties)),
        top.map (fun e => e.bh) = subHandles.map Except.ok ∧
        index1 = index ++ subHandles.map (fun h => h.Handle) ∧
        List.Forall₂ (fun (sh : HandleWithProperties) (ds : List HandleWithProperties) =>
          ∃ b es, r.readIndexBlock env sh.Handle = .ok b ∧
            env.indexInit r.tableFormat b = .ok es ∧
            es.map (fun e => e.bh) = ds.map Except.ok) subHandles subs ∧
        data1 = data ++ subs.flatten := by
  induction top with
  | nil =>
    intro index data index1 data1 h
    simp only [layoutTwoLevel, Outcome.ret.injEq, Except.ok.injEq, Prod.mk.injEq] at h
    exact ⟨[], [], rfl, by simp [h.1], List.Forall₂.nil, by simp [h.2]⟩
  | cons e rest ih =>
    intro index data index1 data1 h
    unfold layoutTwoLevel at h
    split at h
    · split at h <;> simp at h
    · rename_i indexBH hbh
      split at h
      · simp at h
      · rename_i subIndex hread
        split at h
        · simp at h
        · rename_i entries hinit
          split at h
          · simp at h
          · simp at h
          · rename_i data2 hdata
            obtain ⟨hs, hs1, hs2⟩ := layoutData_ok env entries data data2 hdata
            obtain ⟨subHandles, subs, h1, h2, h3, h4⟩ := ih _ _ _ _ h
            refine ⟨indexBH :: subHandles, hs :: subs, by simp [hbh, h1], by simp [h2],
              List.Forall₂.cons ⟨subIndex, entries, hread, hinit, hs1⟩ h3, ?_⟩
            simp [h4, hs2]

/-- C15: a layout that `Layout` returns follows the index shape chosen by
`Properties.IndexPartitions`.  When it is 0, `Index` is the single top-level
index handle, `TopIndex` is the zero handle and `Data` is the list of handles
of the entries of the top-level index block, in iteration order.  When it is
greater than 0, `TopIndex` is the top-level index handle, `Index` is the list
of the sub-index handles of the entries of the top-level block, in order, and
`Data` is the concatenation, in that order, of the handle lists of the
sub-index blocks. -/
theorem Reader.Layout_index_shape (env : Env) (r : Reader) (l : Pebble.Layout)
    (h : r.Layout env = .ret (some l, none)) :
    (r.Properties.IndexPartitions = 0 →
      l.Index = [r.indexBH] ∧ l.TopIndex = {} ∧
      ∃ indexH entries, r.readTopLevelIndexBlock env = .ok indexH ∧
        env.indexInit r.tableFormat indexH = .ok entries ∧
        entries.map (fun e => e.bh) = l.Data.map Except.ok) ∧
    (r.Properties.IndexPartitions ≠ 0 →
      l.TopIndex = r.indexBH ∧
      ∃ (indexH : Bytes) (topEntries : List IndexEntry)
          (subHandles : List HandleWithProperties) (subs : List (List HandleWithProperties)),
        r.readTopLevelIndexBlock env = .ok indexH ∧
        env.indexInit r.tableFormat indexH = .ok topEntries ∧
        topEntries.map (fun e => e.bh) = subHandles.map Except.ok ∧
        l.Index = subHandles.map (fun h => h.Handle) ∧
        List.Forall₂ (fun (sh : HandleWithProperties) (ds : List HandleWithProperties) =>
          ∃ b es, r.readIndexBlock env sh.Handle = .ok b ∧
            env.indexInit r.tableFormat b = .ok es ∧
            es.map (fun e => e.bh) = ds.map Except.ok) subHandles subs ∧
        l.Data = subs.flatten) := by
  unfold Reader.Layout at h
  split at h
  · simp at h
  · dsimp only at h
    split at h
    · simp at h
    · rename_i l1 hl1
      have hl1i : l1.Index = [] ∧ l1.TopIndex = {} ∧ l1.Data = [] := by
        split at hl1
        · split at hl1
          · cases hl1
          · cases hl1; exact ⟨rfl, rfl, rfl⟩
        · cases hl1; exact ⟨rfl, rfl, rfl⟩
      split at h
      · simp at h
      · rename_i indexH hread
        split at h
        · rename_i hpart
          split at h
          · simp at h
          · rename_i entries hinit
            split at h
            · simp at h
            · simp at h
            · rename_i data hdata
              simp only [Outcome.ret.injEq] at h
              obtain ⟨hd, hi, ht, -⟩ := layoutValueBlocks_some env r _ l h
              obtain ⟨hs, hs1, hs2⟩ := layoutData_ok env entries _ _ hdata
              refine ⟨fun _ => ⟨?_, ?_, indexH, entries, hread, hinit, ?_⟩,
                fun hne => absurd hpart hne⟩
              · rw [hi, hl1i.1]; rfl
              · rw [ht, hl1i.2.1]
              · rw [hd, hs1]
                simp only
                rw [hs2, hl1i.2.2, List.nil_append]
        · rename_i hpart
          split at h
          · simp at h
          · rename_i topEntries hinit
            split at h
            · simp at h
            · simp at h
            · rename_i index data htwo
              simp only [Outcome.ret.injEq] at h
              obtain ⟨hd, hi, ht, -⟩ := layoutValueBlocks_some env r _ l h
              obtain ⟨subHandles, subs, h1, h2, h3, h4⟩ :=
                layoutTwoLevel_ok env r topEntries _ _ _ _ htwo
              refine ⟨fun h0 => absurd h0 hpart, fun _ => ⟨ht, indexH, topEntries, subHandles,
                subs, hread, hinit, h1, ?_, h3, ?_⟩⟩
              · rw [hi]
                simp only
                rw [h2, hl1i.1, List.nil_append]
              · rw [hd]
                simp only
                rw [h4, hl1i.2.2, List.nil_append]

/-- Witness of C15 on the table with a two-level index. -/
theorem Reader.Layout_index_shape_witness :
    twoLevelReader.Layout twoLevelEnv = .ret (some twoLevelLayout, none) ∧
    twoLevelReader.Properties.IndexPartitions ≠ 0 ∧
    twoLevelLayout.TopIndex = twoLevelReader.indexBH ∧
    twoLevelLayout.Index = [{ Offset := 60, Length := 10 }, { Offset := 75, Length := 10 }] :=
  ⟨by decide, by decide,
    ((Reader.Layout_index_shape twoLevelEnv twoLevelReader twoLevelLayout (by decide)).2
      (by decide)).1,
    rfl⟩

theorem blocksEnv_reads_ok (index : Bytes → List IndexEntry) (valueBlocks : List Handle)
    (r : Reader) (l : Pebble.Layout) (hfmt : r.tableFormat < 5) :
    ∀ b ∈ r.checksumBlocks (blocksEnv index valueBlocks) l, b.bh.Length ≠ 0 →
      ∃ d, b.readFn b.bh = .ok d := by
  intro b hb _
  have hcol : (blocksEnv index valueBlocks).BlockColumnar r.tableFormat = false := by
    simp only [blocksEnv, tableEnv, decide_eq_false_iff_not, not_le]
    exact hfmt
  simp only [Reader.checksumBlocks, List.mem_append, List.mem_map, List.mem_singleton] at hb
  rcases hb with ((((((⟨d, -, rfl⟩ | ⟨h, -, rfl⟩) | rfl) | ⟨f, -, rfl⟩) | rfl) | rfl) | rfl) | rfl
  all_goals
    simp only [Reader.readDataBlock, Reader.readIndexBlock, Reader.readFilterBlock,
      Reader.readRangeDelBlock, Reader.readRangeKeyBlock, BlockReader.Read,
      Reader.initDataBlockMetadata, Reader.initIndexBlockMetadata,
      Reader.initKeyspanBlockMetadata, noInitBlockMetadataFn, hcol]
    exact ⟨_, rfl⟩

/-- C13, as stated, fails: on the table of `valueTableEnv` no read fails and
`ValidateBlockChecksums` returns nil, but `blockReader.Read` is called for the
top-level index block (offset 40) twice, once by `Layout` and once by the
scan, and the reads of the call are not in non-decreasing order of offset. -/
theorem Reader.ValidateBlockChecksums_reads_counterexample :
    valueTableReader.ValidateBlockChecksumsLogged valueTableEnv =
      ([{ Offset := 40, Length := 10 }, { Offset := 55, Length := 5 },
        { Offset := 0, Length := 20 }, { Offset := 40, Length := 10 },
        { Offset := 65, Length := 10 }, { Offset := 80, Length := 10 }], .ret none) ∧
    valueTableReader.indexBH = { Offset := 40, Length := 10 } ∧
    (valueTableReader.ValidateBlockChecksumsLogged valueTableEnv).1.count
      valueTableReader.indexBH = 2 ∧
    ¬ (valueTableReader.ValidateBlockChecksumsLogged valueTableEnv).1.Sorted
      (fun a b => a.Offset ≤ b.Offset) := by
  decide

/-- C13, amended: `ValidateBlockChecksums` first computes the layout, for
which `Layout` reads the top-level index block (first) and possibly further
blocks.  When that succeeds and no read of the scan fails, the scan issues
exactly one read per non-zero-length handle among the Data, Index, TopIndex,
Filter, RangeDel, RangeKey, Properties and MetaIndex entries of the layout and
no other read, in non-decreasing order of offset, and the call returns nil.
The top-level index handle is among the scanned entries once, as the only
`Index` entry of a single-level index (whose `TopIndex` is the zero handle)
and as `TopIndex` of a two-level index. -/
theorem Reader.ValidateBlockChecksums_reads (env : Env) (r : Reader) (llog : List Handle)
    (l : Pebble.Layout)
    (hlay : r.LayoutLogged env = (llog, .ret (some l, none)))
    (hreads : ∀ b ∈ r.checksumBlocks env l, b.bh.Length ≠ 0 → ∃ d, b.readFn b.bh = .ok d) :
    ∃ scan, r.ValidateBlockChecksumsLogged env = (llog ++ scan, .ret none) ∧
      scan.Perm (l.scannedHandles.filter (fun h => decide (h.Length ≠ 0))) ∧
      scan.Sorted (fun a b => a.Offset ≤ b.Offset) ∧
      (∃ rest, llog = r.indexBH :: rest) ∧
      (r.Properties.IndexPartitions = 0 → l.Index = [r.indexBH] ∧ l.TopIndex = {}) ∧
      (r.Properties.IndexPartitions ≠ 0 → l.TopIndex = r.indexBH) := by
  obtain ⟨hhead, hsingle, htwo⟩ := Reader.LayoutLogged_some env r llog l hlay
  obtain ⟨hperm, hsorted⟩ := insertionSort_blocks (r.checksumBlocks env l)
  have hreads2 : ∀ b ∈ (r.checksumBlocks env l).insertionSort
      (fun a b => a.bh.Offset ≤ b.bh.Offset), b.bh.Length ≠ 0 → ∃ d, b.readFn b.bh = .ok d :=
    fun b hb => hreads b ((List.perm_insertionSort _ _).subset hb)
  have hscan := validateBlocksLogged_all_ok _ hreads2
  refine ⟨List.filter (fun h => decide (h.Length ≠ 0)) (List.map (fun b => b.bh)
    (List.insertionSort (fun a b => a.bh.Offset ≤ b.bh.Offset) (r.checksumBlocks env l))),
    ?_, ?_, ?_, hhead, hsingle, htwo⟩
  · unfold Reader.ValidateBlockChecksumsLogged
    rw [hlay]
    simp only [hscan]
  · rw [← Reader.checksumBlocks_handles env r l]
    exact hperm.filter _
  · exact hsorted.filter _

/-- Witness of the amended C13 on the table of `valueTableEnv`. -/
theorem Reader.ValidateBlockChecksums_reads_witness :
    valueTableReader.LayoutLogged valueTableEnv
      = ([{ Offset := 40, Length := 10 }, { Offset := 55, Length := 5 }],
          .ret (some valueTableLayout, none)) ∧
    ∃ scan, valueTableReader.ValidateBlockChecksumsLogged valueTableEnv
        = ([{ Offset := 40, Length := 10 }, { Offset := 55, Length := 5 }] ++ scan, .ret none) ∧
      scan.Perm (valueTableLayout.scannedHandles.filter (fun h => decide (h.Length ≠ 0))) ∧
      scan.Sorted (fun a b => a.Offset ≤ b.Offset) :=
  have h := Reader.ValidateBlockChecksums_reads valueTableEnv valueTableReader
    [{ Offset := 40, Length := 10 }, { Offset := 55, Length := 5 }] valueTableLayout
    (by decide)
    (blocksEnv_reads_ok valueTableIndex [{ Offset := 25, Length := 10 }] valueTableReader
      valueTableLayout (by decide))
  ⟨by decide, h.choose, h.choose_spec.1, h.choose_spec.2.1, h.choose_spec.2.2.1⟩

/-- C14, evaluated on the table of `valueTableEnv`, whose layout records the
value block at offset 25: `ValidateBlockChecksums` returns nil, and the value
block is not among the blocks it has read (the value-block index, at offset
55, is read by `Layout` only). -/
theorem Reader.ValidateBlockChecksums_skips_value_blocks :
    valueTableReader.Layout valueTableEnv = .ret (some valueTableLayout, none) ∧
    valueTableLayout.ValueBlock = [{ Offset := 25, Length := 10 }] ∧
    valueTableReader.ValidateBlockChecksums valueTableEnv = .ret none ∧
    (valueTableReader.ValidateBlockChecksumsLogged valueTableEnv).2 = .ret none ∧
    ({ Offset := 25, Length := 10 } : Handle)
      ∉ (valueTableReader.ValidateBlockChecksumsLogged valueTableEnv).1 ∧
    ({ Offset := 55, Length := 5 } : Handle) ∈ (valueTableReader.LayoutLogged valueTableEnv).1 ∧
    ({ Offset := 55, Length := 5 } : Handle) ∉ valueTableLayout.scannedHandles := by
  decide

/-! ## The `float64` interpolation -/

theorem roundHalfEven_nearest (x : ℚ) (k : ℤ) : |(roundHalfEven x : ℚ) - x| ≤ |(k : ℚ) - x| := by
  have h1 : (⌊x⌋ : ℚ) ≤ x := Int.floor_le x
  have h2 : x < ⌊x⌋ + 1 := Int.lt_floor_add_one x
  rcases le_or_lt k ⌊x⌋ with hk | hk
  · have hk' : (k : ℚ) ≤ ⌊x⌋ := by exact_mod_cast hk
    unfold roundHalfEven
    split_ifs with a b c
    · rw [abs_le, abs_of_nonpos (by linarith)]; constructor <;> linarith
    · push_cast; rw [abs_le, abs_of_nonpos (by linarith)]; constructor <;> linarith
    · rw [abs_le, abs_of_nonpos (by linarith)]; constructor <;> linarith
    · push_cast; rw [abs_le, abs_of_nonpos (by linarith)]; constructor <;> linarith
  · have hk' : (⌊x⌋ : ℚ) + 1 ≤ k := by exact_mod_cast hk
    unfold roundHalfEven
    split_ifs with a b c
    · rw [abs_le, abs_of_nonneg (by linarith)]; constructor <;> linarith
    · push_cast; rw [abs_le, abs_of_nonneg (by linarith)]; constructor <;> linarith
    · rw [abs_le, abs_of_nonneg (by linarith)]; constructor <;> linarith
    · push_cast; rw [abs_le, abs_of_nonneg (by linarith)]; constructor <;> linarith


theorem float64Round_of_pos (x : ℚ) (hx : 0 < x) :
    float64Round x
      = (roundHalfEven (x / 2 ^ (Int.log 2 x - 52)) : ℚ) * 2 ^ (Int.log 2 x - 52) := by
  unfold float64Round
  rw [if_neg (not_le.mpr hx)]

theorem float64Round_grid (x : ℚ) (hx : 0 < x) (K : ℤ) :
    |float64Round x - x| ≤ |(K : ℚ) * 2 ^ (Int.log 2 x - 52) - x| := by
  rw [float64Round_of_pos x hx]
  have hu : (0 : ℚ) < 2 ^ (Int.log 2 x - 52) := zpow_pos (by norm_num) _
  have h := roundHalfEven_nearest (x / 2 ^ (Int.log 2 x - 52)) K
  have e1 : ∀ M : ℚ, M * 2 ^ (Int.log 2 x - 52) - x
      = (M - x / 2 ^ (Int.log 2 x - 52)) * 2 ^ (Int.log 2 x - 52) := by
    intro M
    field_simp
  rw [e1, e1, abs_mul, abs_mul, abs_of_pos hu]
  exact mul_le_mul_of_nonneg_right h hu.le

theorem float64Round_nearest (x : ℚ) (hx : 0 < x) (F : ℚ) (hF : float64Representable F) :
    |float64Round x - x| ≤ |F - x| := by
  obtain ⟨m, e, hm, rfl⟩ := hF
  have hk1 : (2 : ℚ) ^ Int.log 2 x ≤ x := by
    have := Int.zpow_log_le_self (b := 2) (by norm_num) hx
    simpa using this
  rcases le_or_lt (Int.log 2 x - 52) e with he | he
  · -- the candidate is on the grid of `x`
    obtain ⟨n, hn⟩ := Int.eq_ofNat_of_zero_le (sub_nonneg.mpr he)
    have hK : (m : ℚ) * 2 ^ e = ((m * 2 ^ n : ℕ) : ℤ) * 2 ^ (Int.log 2 x - 52) := by
      have he2 : e = (n : ℤ) + (Int.log 2 x - 52) := by omega
      rw [he2, zpow_add₀ (by norm_num : (2 : ℚ) ≠ 0), zpow_natCast]
      push_cast
      ring
    rw [hK]
    exact float64Round_grid x hx _
  · -- the candidate is below the least number of the grid at this exponent
    have h52 : (2 : ℚ) ^ Int.log 2 x = ((2 ^ 52 : ℕ) : ℤ) * 2 ^ (Int.log 2 x - 52) := by
      have : Int.log 2 x = ((52 : ℕ) : ℤ) + (Int.log 2 x - 52) := by omega
      conv_lhs => rw [this, zpow_add₀ (by norm_num : (2 : ℚ) ≠ 0), zpow_natCast]
      push_cast
      ring
    have hg := float64Round_grid x hx ((2 ^ 52 : ℕ) : ℤ)
    rw [← h52] at hg
    have hFle : (m : ℚ) * 2 ^ e ≤ 2 ^ Int.log 2 x := by
      have h1 : (m : ℚ) ≤ 2 ^ (53 : ℤ) := by
        have h0 : (m : ℚ) ≤ (2 : ℚ) ^ (53 : ℕ) := by exact_mod_cast hm
        rw [show (53 : ℤ) = ((53 : ℕ) : ℤ) by rfl, zpow_natCast]
        exact h0
      have hpos : (0 : ℚ) < 2 ^ e := zpow_pos (by norm_num) _
      calc (m : ℚ) * 2 ^ e ≤ 2 ^ (53 : ℤ) * 2 ^ e := mul_le_mul_of_nonneg_right h1 hpos.le
        _ = 2 ^ (53 + e) := by rw [zpow_add₀ (by norm_num : (2 : ℚ) ≠ 0)]
        _ ≤ 2 ^ Int.log 2 x := zpow_le_zpow_right₀ (by norm_num) (by omega)
    calc |float64Round x - x| ≤ |2 ^ Int.log 2 x - x| := hg
      _ = x - 2 ^ Int.log 2 x := by rw [abs_of_nonpos (by linarith)]; ring
      _ ≤ x - (m : ℚ) * 2 ^ e := by linarith
      _ = |(m : ℚ) * 2 ^ e - x| := by rw [abs_of_nonpos (by linarith)]; ring

theorem float64Round_le_of_le (x F : ℚ) (hF : float64Representable F) (h : x ≤ F) :
    float64Round x ≤ F := by
  rcases le_or_lt x 0 with hx | hx
  · unfold float64Round
    rw [if_pos hx]
    obtain ⟨m, e, -, rfl⟩ := hF
    have : (0 : ℚ) < 2 ^ e := zpow_pos (by norm_num) _
    positivity
  · have hn := float64Round_nearest x hx F hF
    by_contra hlt
    push_neg at hlt
    rw [abs_of_nonneg (by linarith), abs_of_nonneg (by linarith)] at hn
    linarith

theorem float64Round_ge_of_ge (x F : ℚ) (hx : 0 < x) (hF : float64Representable F) (h : F ≤ x) :
    F ≤ float64Round x := by
  have hn := float64Round_nearest x hx F hF
  by_contra hlt
  push_neg at hlt
  rw [abs_of_nonpos (by linarith), abs_of_nonpos (by linarith)] at hn
  linarith

theorem float64Representable_natCast (n : ℕ) (h : n ≤ 2 ^ 53) : float64Representable (n : ℚ) :=
  ⟨n, 0, h, by simp⟩

theorem float64Round_natCast (n : ℕ) (h : n ≤ 2 ^ 53) : float64Round (n : ℚ) = n :=
  le_antisymm (float64Round_le_of_le _ _ (float64Representable_natCast n h) le_rfl)
    (by
      rcases Nat.eq_zero_or_pos n with rfl | hpos
      · simp [float64Round]
      · exact float64Round_ge_of_ge _ _ (by exact_mod_cast hpos)
          (float64Representable_natCast n h) le_rfl)

theorem float64Round_nonneg (x : ℚ) : 0 ≤ float64Round x := by
  rcases le_or_lt x 0 with hx | hx
  · unfold float64Round; rw [if_pos hx]
  · have := float64Round_ge_of_ge x 0 hx ⟨0, 0, by norm_num, by simp⟩ hx.le
    exact this

theorem roundHalfEven_bounds (x : ℚ) : ⌊x⌋ ≤ roundHalfEven x ∧ roundHalfEven x ≤ ⌊x⌋ + 1 := by
  unfold roundHalfEven
  split_ifs <;> constructor <;> omega

theorem float64Round_representable (x : ℚ) : float64Representable (float64Round x) := by
  rcases le_or_lt x 0 with hx | hx
  · unfold float64Round
    rw [if_pos hx]
    exact ⟨0, 0, by norm_num, by simp⟩
  · rw [float64Round_of_pos x hx]
    have hu : (0 : ℚ) < 2 ^ (Int.log 2 x - 52) := zpow_pos (by norm_num) _
    have hk1 : (2 : ℚ) ^ Int.log 2 x ≤ x := by
      have := Int.zpow_log_le_self (b := 2) (by norm_num) hx
      simpa using this
    have hk2 : x < (2 : ℚ) ^ (Int.log 2 x + 1) := by
      have := Int.lt_zpow_succ_log_self (b := 2) (by norm_num) x
      simpa using this
    -- the scaled value lies between 2^52 and 2^53
    have e52 : (2 : ℚ) ^ Int.log 2 x = 2 ^ (52 : ℕ) * 2 ^ (Int.log 2 x - 52) := by
      have : Int.log 2 x = ((52 : ℕ) : ℤ) + (Int.log 2 x - 52) := by omega
      conv_lhs => rw [this, zpow_add₀ (by norm_num : (2 : ℚ) ≠ 0), zpow_natCast]
    have e53 : (2 : ℚ) ^ (Int.log 2 x + 1) = 2 ^ (53 : ℕ) * 2 ^ (Int.log 2 x - 52) := by
      have : Int.log 2 x + 1 = ((53 : ℕ) : ℤ) + (Int.log 2 x - 52) := by omega
      conv_lhs => rw [this, zpow_add₀ (by norm_num : (2 : ℚ) ≠ 0), zpow_natCast]
    have hlo : (2 : ℚ) ^ (52 : ℕ) ≤ x / 2 ^ (Int.log 2 x - 52) := by
      rw [le_div_iff₀ hu, ← e52]; exact hk1
    have hhi : x / 2 ^ (Int.log 2 x - 52) < (2 : ℚ) ^ (53 : ℕ) := by
      rw [div_lt_iff₀ hu, ← e53]; exact hk2
    obtain ⟨hb1, hb2⟩ := roundHalfEven_bounds (x / 2 ^ (Int.log 2 x - 52))
    have hf1 : (2 ^ 52 : ℤ) ≤ ⌊x / 2 ^ (Int.log 2 x - 52)⌋ := by
      apply Int.le_floor.mpr
      push_cast
      exact hlo
    have hf2 : ⌊x / 2 ^ (Int.log 2 x - 52)⌋ < (2 ^ 53 : ℤ) := by
      apply Int.floor_lt.mpr
      push_cast
      exact hhi
    obtain ⟨M, hM⟩ := Int.eq_ofNat_of_zero_le
      (show (0 : ℤ) ≤ roundHalfEven (x / 2 ^ (Int.log 2 x - 52)) by omega)
    refine ⟨M, Int.log 2 x - 52, ?_, ?_⟩
    · have : (M : ℤ) ≤ 2 ^ 53 := by omega
      exact_mod_cast this
    · rw [hM]
      push_cast
      rfl

theorem float64Round_mono (x y : ℚ) (h : x ≤ y) : float64Round x ≤ float64Round y := by
  rcases le_or_lt x 0 with hx | hx
  · have : float64Round x = 0 := by unfold float64Round; rw [if_pos hx]
    rw [this]
    exact float64Round_nonneg y
  · have hy : 0 < y := lt_of_lt_of_le hx h
    have h1 := float64Round_nearest x hx _ (float64Round_representable y)
    have h2 := float64Round_nearest y hy _ (float64Round_representable x)
    by_contra hlt
    push_neg at hlt
    -- float64Round y < float64Round x
    have hxa : float64Round y < x := by
      by_contra hle
      push_neg at hle
      rw [abs_of_nonneg (by linarith), abs_of_nonneg (by linarith)] at h1
      linarith
    have hyb : y < float64Round x := by
      by_contra hle
      push_neg at hle
      rw [abs_of_nonpos (by linarith), abs_of_nonpos (by linarith)] at h2
      linarith
    rw [abs_of_nonneg (by linarith), abs_of_nonpos (by linarith)] at h1
    rw [abs_of_nonpos (by linarith), abs_of_nonneg (by linarith)] at h2
    have hxy : x = y := by linarith
    subst hxy
    exact lt_irrefl _ hlt

theorem float64Round_of_representable (F : ℚ) (hF : float64Representable F) :
    float64Round F = F := by
  rcases le_or_lt F 0 with hx | hx
  · obtain ⟨m, e, -, rfl⟩ := hF
    have hpos : (0 : ℚ) < 2 ^ e := zpow_pos (by norm_num) _
    have : (0 : ℚ) ≤ (m : ℚ) * 2 ^ e := by positivity
    have h0 : (m : ℚ) * 2 ^ e = 0 := le_antisymm hx this
    rw [h0]
    simp [float64Round]
  · exact le_antisymm (float64Round_le_of_le F F hF le_rfl)
      (float64Round_ge_of_ge F F hx hF le_rfl)

theorem float64Interpolate_zero (d ds : ℕ) (hds : ds ≠ 0) :
    float64Interpolate d ds 0 = some 0 := by
  have h0 : float64Round ((0 : ℕ) : ℚ) = 0 := by simp [float64Round]
  unfold float64Interpolate
  rw [if_neg hds, h0, mul_zero]
  have h1 : float64Round 0 = 0 := by simp [float64Round]
  rw [h1]
  simp

theorem float64Interpolate_le (d ds vbs : ℕ) (hds : ds ≠ 0) (hd : d ≤ ds)
    (hvbs : vbs ≤ 2 ^ 53) :
    ∃ n, float64Interpolate d ds vbs = some n ∧ n ≤ vbs := by
  have hc : float64Round (vbs : ℚ) = vbs := float64Round_natCast vbs hvbs
  have hab : float64Round (d : ℚ) ≤ float64Round (ds : ℚ) :=
    float64Round_mono _ _ (by exact_mod_cast hd)
  have hone : float64Representable 1 := ⟨1, 0, by norm_num, by simp⟩
  have hb : (1 : ℚ) ≤ float64Round (ds : ℚ) :=
    float64Round_ge_of_ge _ _ (by exact_mod_cast Nat.pos_of_ne_zero hds) hone
      (by exact_mod_cast Nat.one_le_iff_ne_zero.mpr hds)
  have hq : float64Round (float64Round (d : ℚ) / float64Round (ds : ℚ)) ≤ 1 :=
    float64Round_le_of_le _ _ hone (by rw [div_le_one (by linarith)]; exact hab)
  have hq0 : 0 ≤ float64Round (float64Round (d : ℚ) / float64Round (ds : ℚ)) :=
    float64Round_nonneg _
  have hp : float64Round (float64Round (float64Round (d : ℚ) / float64Round (ds : ℚ))
      * float64Round (vbs : ℚ)) ≤ vbs := by
    rw [hc]
    apply float64Round_le_of_le _ _ (float64Representable_natCast vbs hvbs)
    have : (0 : ℚ) ≤ vbs := by positivity
    nlinarith
  have hp0 := float64Round_nonneg (float64Round (float64Round (d : ℚ) / float64Round (ds : ℚ))
      * float64Round (vbs : ℚ))
  have hlt : float64Round (float64Round (float64Round (d : ℚ) / float64Round (ds : ℚ))
      * float64Round (vbs : ℚ)) < 2 ^ 64 := by
    have : (vbs : ℚ) ≤ 2 ^ 53 := by exact_mod_cast hvbs
    have : (2 : ℚ) ^ 53 < 2 ^ 64 := by norm_num
    linarith
  refine ⟨_, by unfold float64Interpolate; rw [if_neg hds, if_pos hlt], ?_⟩
  have hfl : ⌊float64Round (float64Round (float64Round (d : ℚ) / float64Round (ds : ℚ))
      * float64Round (vbs : ℚ))⌋ ≤ (vbs : ℤ) := by
    have := Int.floor_le_floor hp
    simpa using this
  omega


theorem float64Round_example :
    float64Round ((2 ^ 62 + 513 : ℕ) : ℚ) = ((2 ^ 62 + 1024 : ℕ) : ℚ) := by
  have hlog : Int.log 2 (((2 ^ 62 + 513 : ℕ) : ℚ)) = 62 := by
    rw [Int.log_natCast]
    have : Nat.log 2 (2 ^ 62 + 513) = 62 := by
      rw [Nat.log_eq_iff (Or.inl (by norm_num))]
      norm_num
    rw [this]
    rfl
  have hfloor : ⌊(((2 ^ 62 + 513 : ℕ) : ℚ)) / 2 ^ ((62 : ℤ) - 52)⌋ = 2 ^ 52 := by
    rw [Int.floor_eq_iff]
    norm_num
  unfold float64Round
  rw [if_neg (by norm_num), hlog]
  unfold roundHalfEven
  rw [hfloor]
  norm_num

theorem float64Interpolate_example :
    float64Interpolate 15 15 (2 ^ 62 + 513) = some (2 ^ 62 + 1024) := by
  have h15 : float64Round ((15 : ℕ) : ℚ) = ((15 : ℕ) : ℚ) := float64Round_natCast 15 (by norm_num)
  have h1 : float64Round 1 = 1 :=
    float64Round_of_representable 1 ⟨1, 0, by norm_num, by simp⟩
  have hrep : float64Round (((2 ^ 62 + 1024 : ℕ) : ℚ)) = ((2 ^ 62 + 1024 : ℕ) : ℚ) :=
    float64Round_of_representable _ ⟨2 ^ 52 + 1, 10, by norm_num, by norm_num⟩
  unfold float64Interpolate
  rw [if_neg (by norm_num), h15, div_self (by norm_num), h1, float64Round_example, one_mul, hrep]
  rw [if_pos (by norm_num)]
  rw [Int.floor_natCast]
  simp

/-! ## `EstimateDiskUsage` on an unpartitioned index -/

theorem u64sub_lt (a b : Nat) : u64sub a b < 2 ^ 64 :=
  Nat.mod_lt _ (by norm_num)

theorem u64add_zero (d : Nat) (h : d < 2 ^ 64) : u64add d 0 = d := by
  unfold u64add
  rw [Nat.add_zero, Nat.mod_eq_of_lt h]

theorem u64add_le (a b : Nat) : u64add a b ≤ a + b :=
  Nat.mod_le _ _

theorem u64add_of_lt (a b : Nat) (h : a + b < 2 ^ 64) : u64add a b = a + b :=
  Nat.mod_eq_of_lt h

theorem u64sub_of_le (a b : Nat) (hb : b ≤ a) (ha : a < 2 ^ 64) : u64sub a b = a - b := by
  unfold u64sub
  rw [Nat.mod_eq_of_lt ha, Nat.mod_eq_of_lt (lt_of_le_of_lt hb ha)]
  have h1 : a + 2 ^ 64 - b = (a - b) + 2 ^ 64 := by omega
  rw [h1, Nat.add_mod_right, Nat.mod_eq_of_lt (lt_of_le_of_lt (Nat.sub_le a b) ha)]

theorem foldl_least_first (c : Comparer) (xs : List (Bytes × HandleWithProperties))
    (x : Bytes × HandleWithProperties) (h : ∀ e ∈ xs, c.Compare e.1 x.1 ≠ Ordering.lt) :
    xs.foldl
      (fun best e =>
        match best with
        | none => some e
        | some b => if c.Compare e.1 b.1 == Ordering.lt then some e else some b)
      (some x) = some x := by
  induction xs with
  | nil => rfl
  | cons y ys ih =>
    have hne := h y (List.mem_cons_self _ _)
    have hy : (c.Compare y.1 x.1 == Ordering.lt) = false := by
      cases hcmp : c.Compare y.1 x.1 with
      | lt => exact absurd hcmp hne
      | eq => rfl
      | gt => rfl
    simp only [List.foldl_cons, hy, Bool.false_eq_true, if_false]
    exact ih (fun e he => h e (List.mem_cons_of_mem _ he))

theorem head?_filter_eq_find? {α : Type} (p : α → Bool) (l : List α) :
    (l.filter p).head? = l.find? p := by
  induction l with
  | nil => rfl
  | cons x xs ih =>
    cases hp : p x with
    | true => simp only [List.filter_cons, hp, if_true, List.head?_cons, List.find?_cons]
    | false =>
      simp only [List.filter_cons, hp, Bool.false_eq_true, if_false, List.find?_cons]
      exact ih

/-- On separators in non-decreasing order, the entry with the least separator
greater than or equal to the key is the first entry whose separator is. -/
theorem leastSeparatorGE_eq_find (c : Comparer) (l : List (Bytes × HandleWithProperties))
    (key : Bytes) (hs : l.Pairwise (fun a b => c.Compare b.1 a.1 ≠ Ordering.lt)) :
    leastSeparatorGE c l key = l.find? (fun e => c.Compare e.1 key != Ordering.lt) := by
  unfold leastSeparatorGE
  have hf := hs.filter (fun e => c.Compare e.1 key != Ordering.lt)
  rw [← head?_filter_eq_find?]
  generalize l.filter (fun e => c.Compare e.1 key != Ordering.lt) = m at hf
  cases m with
  | nil => rfl
  | cons x xs =>
    rw [List.pairwise_cons] at hf
    simp only [List.foldl_cons, List.head?_cons]
    exact foldl_least_first c xs x hf.1

theorem indexSeekGE_decoded (c : Comparer) (decoded : List (Bytes × HandleWithProperties))
    (key : Bytes) :
    indexSeekGE c (decoded.map (fun p => ({ sep := p.1, bh := .ok p.2 } : IndexEntry))) key =
      (decoded.find? (fun e => c.Compare e.1 key != Ordering.lt)).map
        (fun p => ({ sep := p.1, bh := .ok p.2 } : IndexEntry)) := by
  unfold indexSeekGE
  rw [List.find?_map]
  rfl

theorem float64Env_conformant (index : Bytes → List IndexEntry) :
    (float64Env index).float64Conformant := by
  intro d ds vbs n h
  simp only [float64Env, h, Option.getD_some]

/-- C16, counterexample: a table without properties block opens with `DataSize`
and `ValueBlocksSize` 0.  Its single-level index has one separator, which is
greater than both keys, so `d` is 25 and `ValueBlocksSize` is 0; the quotient
`float64(25) / float64(0)` is infinite, its product with 0 is NaN, and where
the conversion of NaN to `uint64` gives `2^63` (as on amd64) the estimate is
`25 + 2^63`, not `d`. -/
theorem Reader.EstimateDiskUsage_reference_counterexample :
    noPropertiesReader.err = none ∧
    noPropertiesReader.Properties.IndexPartitions = 0 ∧
    noPropertiesReader.Properties.ValueBlocksSize = 0 ∧
    (float64Env valueTableIndex).indexInit noPropertiesReader.tableFormat [40] =
      .ok [{ sep := [107], bh := .ok { Handle := { Offset := 0, Length := 20 } } }] ∧
    estimateReferenceDataSize noPropertiesReader comparerY
      [([107], { Handle := { Offset := 0, Length := 20 } })] [97] [98] = some 25 ∧
    noPropertiesReader.EstimateDiskUsage (float64Env valueTableIndex) [97] [98] =
      .ret (25 + 2 ^ 63, none) ∧
    25 + 2 ^ 63 ≠ 25 :=
  ⟨rfl, rfl, rfl, rfl, rfl, rfl, by decide⟩

/-- C16, amended: on an open reader with an unpartitioned index whose entries
decode, with separators in non-decreasing order, `EstimateDiskUsage` returns the
reference: 0 when no separator is greater than or equal to `start`, and
otherwise `d` plus the interpolated share, where the share is the `float64`
computation wherever that is defined; when `ValueBlocksSize` is 0 and
`DataSize` is not, the result is exactly `d`. -/
theorem Reader.EstimateDiskUsage_reference (env : Env) (r : Reader) (c : Pebble.Comparer)
    (indexH : Bytes) (decoded : List (Bytes × HandleWithProperties)) (start end_ : Bytes)
    (herr : r.err = none) (hpart : r.Properties.IndexPartitions = 0)
    (hread : r.readTopLevelIndexBlock env = .ok indexH)
    (hinit : env.indexInit r.tableFormat indexH =
      .ok (decoded.map (fun p => ({ sep := p.1, bh := .ok p.2 } : IndexEntry))))
    (hc : r.Comparer = some c)
    (hsorted : decoded.Pairwise (fun a b => c.Compare b.1 a.1 ≠ Ordering.lt))
    (hconf : env.float64Conformant) :
    r.EstimateDiskUsage env start end_ =
        .ret (estimateDiskUsageReference env r c decoded start end_, none) ∧
      (∀ d share, estimateReferenceDataSize r c decoded start end_ = some d →
        float64Interpolate d r.Properties.DataSize r.Properties.ValueBlocksSize = some share →
        estimateDiskUsageReference env r c decoded start end_ = u64add d share) ∧
      (∀ d, estimateReferenceDataSize r c decoded start end_ = some d →
        r.Properties.ValueBlocksSize = 0 → r.Properties.DataSize ≠ 0 →
        estimateDiskUsageReference env r c decoded start end_ = d) := by
  have hS := leastSeparatorGE_eq_find c decoded start hsorted
  have hE := leastSeparatorGE_eq_find c decoded end_ hsorted
  refine ⟨?_, ?_, ?_⟩
  · have hedu : r.EstimateDiskUsage env start end_ =
        estimateFromIters env r c
          (decoded.map (fun p => ({ sep := p.1, bh := .ok p.2 } : IndexEntry)))
          (some (decoded.map (fun p => ({ sep := p.1, bh := .ok p.2 } : IndexEntry))))
          start end_ := by
      unfold Reader.EstimateDiskUsage estimateDiskUsage
      simp only [herr, hread, hpart, hinit, hc, if_true, ite_self]
    rw [hedu]
    unfold estimateFromIters estimateDiskUsageReference estimateReferenceDataSize
    simp only [indexSeekGE_decoded, hS, hE]
    cases decoded.find? (fun e => c.Compare e.1 start != Ordering.lt) with
    | none => rfl
    | some s =>
      cases decoded.find? (fun e => c.Compare e.1 end_ != Ordering.lt) with
      | none => rfl
      | some e => rfl
  · intro d share hd hshare
    unfold estimateDiskUsageReference
    rw [hd]
    simp only [hconf _ _ _ _ hshare]
  · intro d hd hvbs hds
    have hlt : d < 2 ^ 64 := by
      unfold estimateReferenceDataSize at hd
      split at hd
      · exact Option.noConfusion hd
      · split at hd
        · rw [← Option.some.inj hd]
          exact u64sub_lt _ _
        · rw [← Option.some.inj hd]
          exact u64sub_lt _ _
    unfold estimateDiskUsageReference
    rw [hd]
    simp only [hvbs, hconf _ _ _ _ (float64Interpolate_zero d _ hds)]
    exact u64add_zero d hlt

/-- C16, witness of the amended claim: the table with one data block of 20
bytes at offset 0, 25 bytes of data blocks and 15 bytes of value blocks, for
keys before its separator. -/
theorem Reader.EstimateDiskUsage_reference_witness :
    valueTableReader.EstimateDiskUsage (float64Env valueTableIndex) [97] [98] =
        .ret (estimateDiskUsageReference (float64Env valueTableIndex) valueTableReader comparerY
          [([107], { Handle := { Offset := 0, Length := 20 } })] [97] [98], none) ∧
      (∀ d share, estimateReferenceDataSize valueTableReader comparerY
          [([107], { Handle := { Offset := 0, Length := 20 } })] [97] [98] = some d →
        float64Interpolate d valueTableReader.Properties.DataSize
          valueTableReader.Properties.ValueBlocksSize = some share →
        estimateDiskUsageReference (float64Env valueTableIndex) valueTableReader comparerY
          [([107], { Handle := { Offset := 0, Length := 20 } })] [97] [98] = u64add d share) ∧
      (∀ d, estimateReferenceDataSize valueTableReader comparerY
          [([107], { Handle := { Offset := 0, Length := 20 } })] [97] [98] = some d →
        valueTableReader.Properties.ValueBlocksSize = 0 →
        valueTableReader.Properties.DataSize ≠ 0 →
        estimateDiskUsageReference (float64Env valueTableIndex) valueTableReader comparerY
          [([107], { Handle := { Offset := 0, Length := 20 } })] [97] [98] = d) :=
  Reader.EstimateDiskUsage_reference (float64Env valueTableIndex) valueTableReader comparerY
    [40] [([107], { Handle := { Offset := 0, Length := 20 } })] [97] [98]
    rfl rfl rfl rfl rfl (List.pairwise_singleton _ _) (float64Env_conformant _)

/-! ## `EstimateDiskUsage` and the size of the file -/

theorem ordering_bne_lt (o : Ordering) : (o != Ordering.lt) = true ↔ o ≠ Ordering.lt := by
  cases o <;> decide

theorem find?_order {α : Type} (R : α → α → Prop) (pS pE : α → Bool)
    (h : ∀ x, pE x = true → pS x = true) :
    ∀ (l : List α) (s e : α), l.Pairwise R → l.find? pS = some s → l.find? pE = some e →
      e = s ∨ R s e := by
  intro l
  induction l with
  | nil =>
    intro s e _ hs
    exact Option.noConfusion hs
  | cons x xs ih =>
    intro s e hpw hs he
    rw [List.pairwise_cons] at hpw
    cases hpS : pS x with
    | true =>
      simp only [List.find?_cons, hpS] at hs
      have hsx : x = s := Option.some.inj hs
      cases hpE : pE x with
      | true =>
        simp only [List.find?_cons, hpE] at he
        left
        rw [← hsx, ← Option.some.inj he]
      | false =>
        simp only [List.find?_cons, hpE] at he
        right
        rw [← hsx]
        exact hpw.1 e (List.mem_of_find?_eq_some he)
    | false =>
      have hpE : pE x = false := by
        cases hq : pE x with
        | false => rfl
        | true =>
          rw [h x hq] at hpS
          exact Bool.noConfusion hpS
      simp only [List.find?_cons, hpS] at hs
      simp only [List.find?_cons, hpE] at he
      exact ih s e hpw.2 hs he

theorem includeInterpolatedValueBlocksSize_le (env : Env) (r : Reader) (d fileSize : Nat)
    (hconf : env.float64Conformant) (hd : d ≤ r.Properties.DataSize)
    (hds : r.Properties.DataSize ≠ 0) (hvbs : r.Properties.ValueBlocksSize ≤ 2 ^ 53)
    (hsize : r.Properties.DataSize + r.Properties.ValueBlocksSize ≤ fileSize) :
    includeInterpolatedValueBlocksSize env r d ≤ fileSize := by
  obtain ⟨n, hn, hle⟩ :=
    float64Interpolate_le d r.Properties.DataSize r.Properties.ValueBlocksSize hds hd hvbs
  unfold includeInterpolatedValueBlocksSize
  rw [hconf _ _ _ _ hn]
  have := u64add_le d n
  omega

theorem estimateDiskUsage_returns (env : Env) (r : Reader) (c : Comparer) (start end_ : Bytes)
    (hc : r.Comparer = some c) (hinv : env.invariantsEnabled = false) :
    ∃ n e, estimateDiskUsage env r start end_ = .ret (n, e) := by
  unfold estimateDiskUsage estimateFromIters
  simp only [hc, errCorruptIndexEntry, hinv, Bool.false_eq_true, if_false]
  repeat' split
  all_goals exact ⟨_, _, rfl⟩

theorem estimate_bound (env : Env) (r : Reader) (fileSize startOffset endLimit : Nat)
    (hconf : env.float64Conformant) (hvbs : r.Properties.ValueBlocksSize ≤ 2 ^ 53)
    (hsize : r.Properties.DataSize + r.Properties.ValueBlocksSize ≤ fileSize)
    (h1 : startOffset ≤ endLimit) (h2 : endLimit ≤ r.Properties.DataSize)
    (h0 : r.Properties.DataSize ≠ 0) :
    includeInterpolatedValueBlocksSize env r (endLimit - startOffset) ≤ fileSize ∧
      (includeInterpolatedValueBlocksSize env r (endLimit - startOffset) = 0 ∨
        ∃ s l, s ≤ l ∧ l ≤ r.Properties.DataSize ∧
          includeInterpolatedValueBlocksSize env r (endLimit - startOffset) =
            includeInterpolatedValueBlocksSize env r (l - s)) :=
  ⟨includeInterpolatedValueBlocksSize_le env r _ fileSize hconf
      (le_trans (Nat.sub_le _ _) h2) h0 hvbs hsize,
    Or.inr ⟨startOffset, endLimit, h1, h2, rfl⟩⟩

theorem estimateFromIters_le (env : Env) (r : Reader) (c : Comparer)
    (S : List IndexEntry) (Eopt : Option (List IndexEntry)) (start end_ : Bytes)
    (fileSize n : Nat) (e : Option Err)
    (hconf : env.float64Conformant) (hds : r.Properties.DataSize < 2 ^ 64)
    (hvbs : r.Properties.ValueBlocksSize ≤ 2 ^ 53)
    (hsize : r.Properties.DataSize + r.Properties.ValueBlocksSize ≤ fileSize)
    (hsub : ∀ x : IndexEntry, c.Compare x.sep end_ ≠ Ordering.lt →
      c.Compare x.sep start ≠ Ordering.lt)
    (hS : blocksWithin r.Properties.DataSize S)
    (hE : ∀ E, Eopt = some E → blocksWithin r.Properties.DataSize E ∧
      ((E = S ∧ S.Pairwise IndexEntry.before) ∨ ∀ a ∈ S, ∀ b ∈ E, a.before b))
    (hres : estimateFromIters env r c S Eopt start end_ = .ret (n, e)) :
    n ≤ fileSize ∧
      (n = 0 ∨ ∃ s l, s ≤ l ∧ l ≤ r.Properties.DataSize ∧
        n = includeInterpolatedValueBlocksSize env r (l - s)) := by
  have hzero : (0 : Nat) ≤ fileSize ∧
      ((0 : Nat) = 0 ∨ ∃ s l, s ≤ l ∧ l ≤ r.Properties.DataSize ∧
        (0 : Nat) = includeInterpolatedValueBlocksSize env r (l - s)) :=
    ⟨Nat.zero_le _, Or.inl rfl⟩
  unfold estimateFromIters at hres
  cases hs : indexSeekGE c S start with
  | none =>
    simp only [hs, Outcome.ret.injEq, Prod.mk.injEq] at hres
    obtain ⟨rfl, -⟩ := hres
    exact hzero
  | some s =>
    simp only [hs] at hres
    cases hsb : s.bh with
    | error err =>
      simp only [hsb] at hres
      split at hres
      · exact Outcome.noConfusion hres
      · simp only [Outcome.ret.injEq, Prod.mk.injEq] at hres
        obtain ⟨rfl, -⟩ := hres
        exact hzero
    | ok startBH =>
      simp only [hsb] at hres
      have hsmem : s ∈ S := List.mem_of_find?_eq_some hs
      have hsw := hS s hsmem startBH hsb
      have h0 : r.Properties.DataSize ≠ 0 := by
        unfold TrailerLen at hsw
        omega
      have htail : includeInterpolatedValueBlocksSize env r
            (u64sub r.Properties.DataSize startBH.Handle.Offset) ≤ fileSize ∧
          (includeInterpolatedValueBlocksSize env r
              (u64sub r.Properties.DataSize startBH.Handle.Offset) = 0 ∨
            ∃ s l, s ≤ l ∧ l ≤ r.Properties.DataSize ∧
              includeInterpolatedValueBlocksSize env r
                (u64sub r.Properties.DataSize startBH.Handle.Offset) =
                includeInterpolatedValueBlocksSize env r (l - s)) := by
        rw [u64sub_of_le _ _ (by omega) hds]
        exact estimate_bound env r fileSize _ _ hconf hvbs hsize (by omega) (le_refl _) h0
      cases Eopt with
      | none =>
        simp only [Outcome.ret.injEq, Prod.mk.injEq] at hres
        obtain ⟨rfl, -⟩ := hres
        exact htail
      | some E =>
        simp only at hres
        obtain ⟨hEw, hrel⟩ := hE E rfl
        cases he : indexSeekGE c E end_ with
        | none =>
          simp only [he, Outcome.ret.injEq, Prod.mk.injEq] at hres
          obtain ⟨rfl, -⟩ := hres
          exact htail
        | some ee =>
          simp only [he] at hres
          cases heb : ee.bh with
          | error err =>
            simp only [heb] at hres
            split at hres
            · exact Outcome.noConfusion hres
            · simp only [Outcome.ret.injEq, Prod.mk.injEq] at hres
              obtain ⟨rfl, -⟩ := hres
              exact hzero
          | ok endBH =>
            simp only [heb, Outcome.ret.injEq, Prod.mk.injEq] at hres
            obtain ⟨rfl, -⟩ := hres
            have hemem : ee ∈ E := List.mem_of_find?_eq_some he
            have hew := hEw ee hemem endBH heb
            have horder : startBH.Handle.Offset ≤
                endBH.Handle.Offset + endBH.Handle.Length + TrailerLen := by
              rcases hrel with ⟨hES, hpw⟩ | hcross
              · subst hES
                have hp : ∀ x : IndexEntry,
                    (fun e : IndexEntry => c.Compare e.sep end_ != Ordering.lt) x = true →
                    (fun e : IndexEntry => c.Compare e.sep start != Ordering.lt) x = true := by
                  intro x hx
                  exact (ordering_bne_lt _).mpr (hsub x ((ordering_bne_lt _).mp hx))
                rcases find?_order IndexEntry.before _ _ hp E s ee hpw hs he with heq | hbef
                · rw [heq, hsb] at heb
                  have := Except.ok.inj heb
                  rw [← this]
                  omega
                · have := hbef startBH endBH hsb heb
                  omega
              · have := hcross s hsmem ee hemem startBH endBH hsb heb
                omega
            have e1 : u64add endBH.Handle.Offset endBH.Handle.Length =
                endBH.Handle.Offset + endBH.Handle.Length :=
              u64add_of_lt _ _ (by omega)
            have e2 : u64add (endBH.Handle.Offset + endBH.Handle.Length) TrailerLen =
                endBH.Handle.Offset + endBH.Handle.Length + TrailerLen :=
              u64add_of_lt _ _ (by omega)
            rw [e1, e2, u64sub_of_le _ _ horder (by omega)]
            exact estimate_bound env r fileSize _ _ hconf hvbs hsize horder hew h0

/-- The bytewise order is transitive. -/
theorem bytesCompare_trans : ∀ (a b k : Bytes), bytesCompare a b ≠ Ordering.lt →
    bytesCompare b k ≠ Ordering.lt → bytesCompare a k ≠ Ordering.lt
  | [], [], _ => fun _ h => h
  | [], _ :: _, _ => fun h _ => absurd rfl h
  | _ :: _, [], [] => fun _ _ => by
    show Ordering.gt ≠ Ordering.lt
    decide
  | _ :: _, [], _ :: _ => fun _ h => absurd rfl h
  | _ :: _, _ :: _, [] => fun _ _ => by
    show Ordering.gt ≠ Ordering.lt
    decide
  | x :: xs, y :: ys, z :: zs => fun h1 h2 => by
    have ih := bytesCompare_trans xs ys zs
    simp only [bytesCompare] at h1 h2 ⊢
    by_cases hxy : x < y
    · rw [if_pos hxy] at h1
      exact absurd rfl h1
    · rw [if_neg hxy] at h1
      by_cases hyz : y < z
      · rw [if_pos hyz] at h2
        exact absurd rfl h2
      · rw [if_neg hyz] at h2
        have hxy1 : ¬ x.toNat < y.toNat := hxy
        have hyz1 : ¬ y.toNat < z.toNat := hyz
        have hxz : ¬ x < z := by
          intro h
          have h3 : x.toNat < z.toNat := h
          omega
        rw [if_neg hxz]
        by_cases hzx : z < x
        · rw [if_pos hzx]
          decide
        · rw [if_neg hzx]
          have hzx1 : ¬ z.toNat < x.toNat := hzx
          have hyx : ¬ y < x := by
            intro h
            have h3 : y.toNat < x.toNat := h
            omega
          have hzy : ¬ z < y := by
            intro h
            have h3 : z.toNat < y.toNat := h
            omega
          rw [if_neg hyx] at h1
          rw [if_neg hzy] at h2
          exact ih h1 h2

/-- A single-level index of one entry whose data block ends within `DataSize`
is laid out. -/
theorem Reader.dataBlocksLaidOut_single (env : Env) (r : Reader) (indexH0 : Bytes)
    (e0 : IndexEntry) (h0 : HandleWithProperties) (hpart : r.Properties.IndexPartitions = 0)
    (hread : r.readTopLevelIndexBlock env = .ok indexH0)
    (hinit : env.indexInit r.tableFormat indexH0 = .ok [e0]) (hbh : e0.bh = .ok h0)
    (hw : h0.Handle.Offset + h0.Handle.Length + TrailerLen ≤ r.Properties.DataSize) :
    r.dataBlocksLaidOut env := by
  intro indexH top hread1 hinit1
  rw [hread] at hread1
  cases hread1
  rw [hinit] at hinit1
  cases hinit1
  refine ⟨fun _ => ⟨List.pairwise_singleton _ _, ?_⟩, fun h => absurd hpart h⟩
  intro e he h hh
  rw [List.mem_singleton] at he
  subst he
  rw [hbh] at hh
  cases hh
  exact hw

/-- C17, counterexample: a table with one data block of 10 bytes at offset 0,
`DataSize` 15 and `ValueBlocksSize` `2^62 + 513`, in a file of `2^62 + 628`
bytes; the keys `a` and `b` are in order and covered by the block.  The
estimate is `15 + 2^62 + 1024`, above the size of the file, because
`float64(ValueBlocksSize)` is `ValueBlocksSize` rounded to 53 significant
bits, which is `2^62 + 1024`. -/
theorem Reader.EstimateDiskUsage_le_file_size_counterexample :
    hugeValueBlocksReader.dataBlocksLaidOut (float64Env oneBlockIndex) ∧
    hugeValueBlocksReader.Properties.DataSize +
      hugeValueBlocksReader.Properties.ValueBlocksSize ≤ 2 ^ 62 + 628 ∧
    comparerY.Compare [98] [97] ≠ Ordering.lt ∧
    hugeValueBlocksReader.EstimateDiskUsage (float64Env oneBlockIndex) [97] [98] =
      .ret (2 ^ 62 + 1039, none) ∧
    ¬ (2 ^ 62 + 1039 ≤ 2 ^ 62 + 628) := by
  refine ⟨?_, by decide, by decide, ?_, by decide⟩
  · exact Reader.dataBlocksLaidOut_single (float64Env oneBlockIndex) hugeValueBlocksReader [16]
      { sep := [107], bh := .ok { Handle := { Offset := 0, Length := 10 } } }
      { Handle := { Offset := 0, Length := 10 } } rfl rfl rfl rfl (by decide)
  · have h : hugeValueBlocksReader.EstimateDiskUsage (float64Env oneBlockIndex) [97] [98] =
        .ret (u64add 15 ((float64Interpolate 15 15 (2 ^ 62 + 513)).getD (2 ^ 63)), none) := rfl
    rw [h, float64Interpolate_example]
    rfl

/-- C17, amended: for a reader whose data blocks are laid out in increasing
offset order, without overlap, within the first `DataSize` bytes, with
`DataSize + ValueBlocksSize` at most the size of the file and `ValueBlocksSize`
at most `2^53`, in an environment whose `float64` arithmetic is that of
IEEE 754, and for keys `start ≤ end` of a transitive comparer:
`EstimateDiskUsage` returns (unless a corrupt index entry panics in a build
with invariants), the estimate is at most the size of the file, and it is 0 or
the interpolation of a difference `endLimit - startOffset` that does not
underflow, with `endLimit` at most `DataSize`. -/
theorem Reader.EstimateDiskUsage_le_file_size (env : Env) (r : Reader) (c : Pebble.Comparer)
    (start end_ : Bytes) (fileSize : Nat)
    (hconf : env.float64Conformant) (hc : r.Comparer = some c)
    (htrans : ∀ a b k, c.Compare a b ≠ Ordering.lt → c.Compare b k ≠ Ordering.lt →
      c.Compare a k ≠ Ordering.lt)
    (hse : c.Compare end_ start ≠ Ordering.lt)
    (hlaid : r.dataBlocksLaidOut env)
    (hds : r.Properties.DataSize < 2 ^ 64)
    (hvbs : r.Properties.ValueBlocksSize ≤ 2 ^ 53)
    (hsize : r.Properties.DataSize + r.Properties.ValueBlocksSize ≤ fileSize) :
    (env.invariantsEnabled = false →
        ∃ n e, r.EstimateDiskUsage env start end_ = .ret (n, e)) ∧
      ∀ n e, r.EstimateDiskUsage env start end_ = .ret (n, e) →
        n ≤ fileSize ∧
          (n = 0 ∨ ∃ startOffset endLimit, startOffset ≤ endLimit ∧
            endLimit ≤ r.Properties.DataSize ∧
            n = includeInterpolatedValueBlocksSize env r (endLimit - startOffset)) := by
  have hedu : r.EstimateDiskUsage env start end_ = estimateDiskUsage env r start end_ := by
    unfold Reader.EstimateDiskUsage
    simp only [ite_self]
  rw [hedu]
  refine ⟨fun hinv => estimateDiskUsage_returns env r c start end_ hc hinv, ?_⟩
  intro n e hres
  have hsub : ∀ x : IndexEntry, c.Compare x.sep end_ ≠ Ordering.lt →
      c.Compare x.sep start ≠ Ordering.lt := fun x hx => htrans _ _ _ hx hse
  have hp : ∀ x : IndexEntry,
      (fun e : IndexEntry => c.Compare e.sep end_ != Ordering.lt) x = true →
      (fun e : IndexEntry => c.Compare e.sep start != Ordering.lt) x = true := by
    intro x hx
    exact (ordering_bne_lt _).mpr (hsub x ((ordering_bne_lt _).mp hx))
  have hzero : (0 : Nat) ≤ fileSize ∧
      ((0 : Nat) = 0 ∨ ∃ s l, s ≤ l ∧ l ≤ r.Properties.DataSize ∧
        (0 : Nat) = includeInterpolatedValueBlocksSize env r (l - s)) :=
    ⟨Nat.zero_le _, Or.inl rfl⟩
  unfold estimateDiskUsage at hres
  cases herr : r.err with
  | some e0 =>
    simp only [herr, Outcome.ret.injEq, Prod.mk.injEq] at hres
    obtain ⟨rfl, -⟩ := hres
    exact hzero
  | none =>
    simp only [herr] at hres
    cases hread : r.readTopLevelIndexBlock env with
    | error err =>
      simp only [hread, Outcome.ret.injEq, Prod.mk.injEq] at hres
      obtain ⟨rfl, -⟩ := hres
      exact hzero
    | ok indexH =>
      simp only [hread] at hres
      cases hinit : env.indexInit r.tableFormat indexH with
      | error err =>
        simp only [hinit, ite_self, Outcome.ret.injEq, Prod.mk.injEq] at hres
        obtain ⟨rfl, -⟩ := hres
        exact hzero
      | ok top =>
        simp only [hinit, hc] at hres
        obtain ⟨hl0, hl1⟩ := hlaid indexH top hread hinit
        by_cases hpart : r.Properties.IndexPartitions = 0
        · rw [if_pos hpart] at hres
          obtain ⟨hpw, hw⟩ := hl0 hpart
          refine estimateFromIters_le env r c top (some top) start end_ fileSize n e hconf hds
            hvbs hsize hsub hw ?_ hres
          intro E hE
          cases hE
          exact ⟨hw, Or.inl ⟨rfl, hpw⟩⟩
        · rw [if_neg hpart] at hres
          obtain ⟨hsubs, hcross⟩ := hl1 hpart
          cases hsT : indexSeekGE c top start with
          | none =>
            simp only [hsT, Outcome.ret.injEq, Prod.mk.injEq] at hres
            obtain ⟨rfl, -⟩ := hres
            exact hzero
          | some sT =>
            simp only [hsT] at hres
            cases hsTb : sT.bh with
            | error err =>
              simp only [hsTb] at hres
              split at hres
              · exact Outcome.noConfusion hres
              · simp only [Outcome.ret.injEq, Prod.mk.injEq] at hres
                obtain ⟨rfl, -⟩ := hres
                exact hzero
            | ok startIndexBH =>
              simp only [hsTb] at hres
              cases hrb : r.readIndexBlock env startIndexBH.Handle with
              | error err =>
                simp only [hrb, Outcome.ret.injEq, Prod.mk.injEq] at hres
                obtain ⟨rfl, -⟩ := hres
                exact hzero
              | ok blk =>
                simp only [hrb] at hres
                cases hiS : env.indexInit r.tableFormat blk with
                | error err =>
                  simp only [hiS, Outcome.ret.injEq, Prod.mk.injEq] at hres
                  obtain ⟨rfl, -⟩ := hres
                  exact hzero
                | ok S =>
                  simp only [hiS] at hres
                  have hsubS : r.subIndexEntries env sT = some S := by
                    unfold Reader.subIndexEntries
                    simp only [hsTb, hrb, hiS]
                  have hSmem : sT ∈ top := List.mem_of_find?_eq_some hsT
                  obtain ⟨hSpw, hSw⟩ := hsubs sT hSmem S hsubS
                  cases heT : indexSeekGE c top end_ with
                  | none =>
                    simp only [heT] at hres
                    exact estimateFromIters_le env r c S none start end_ fileSize n e hconf hds
                      hvbs hsize hsub hSw (fun E hE => Option.noConfusion hE) hres
                  | some eT =>
                    simp only [heT] at hres
                    cases heTb : eT.bh with
                    | error err =>
                      simp only [heTb] at hres
                      split at hres
                      · exact Outcome.noConfusion hres
                      · simp only [Outcome.ret.injEq, Prod.mk.injEq] at hres
                        obtain ⟨rfl, -⟩ := hres
                        exact hzero
                    | ok endIndexBH =>
                      simp only [heTb] at hres
                      cases hrbE : r.readIndexBlock env endIndexBH.Handle with
                      | error err =>
                        simp only [hrbE, Outcome.ret.injEq, Prod.mk.injEq] at hres
                        obtain ⟨rfl, -⟩ := hres
                        exact hzero
                      | ok blkE =>
                        simp only [hrbE] at hres
                        cases hiE : env.indexInit r.tableFormat blkE with
                        | error err =>
                          simp only [hiE, Outcome.ret.injEq, Prod.mk.injEq] at hres
                          obtain ⟨rfl, -⟩ := hres
                          exact hzero
                        | ok E =>
                          simp only [hiE] at hres
                          have hsubE : r.subIndexEntries env eT = some E := by
                            unfold Reader.subIndexEntries
                            simp only [heTb, hrbE, hiE]
                          have hEmem : eT ∈ top := List.mem_of_find?_eq_some heT
                          obtain ⟨-, hEw⟩ := hsubs eT hEmem E hsubE
                          have hrel : (E = S ∧ S.Pairwise IndexEntry.before) ∨
                              ∀ a ∈ S, ∀ b ∈ E, a.before b := by
                            rcases find?_order _ _ _ hp top sT eT hcross hsT heT with heq | hbef
                            · left
                              rw [heq, hsubS] at hsubE
                              exact ⟨(Option.some.inj hsubE).symm, hSpw⟩
                            · right
                              exact hbef S E hsubS hsubE
                          refine estimateFromIters_le env r c S (some E) start end_ fileSize n e
                            hconf hds hvbs hsize hsub hSw ?_ hres
                          intro E1 hE1
                          cases hE1
                          exact ⟨hEw, hrel⟩

theorem IndexEntry.before_of_ok (a b : IndexEntry) (ha hb : HandleWithProperties)
    (h1 : a.bh = .ok ha) (h2 : b.bh = .ok hb)
    (h : ha.Handle.Offset + ha.Handle.Length + TrailerLen ≤ hb.Handle.Offset) : a.before b := by
  intro ha1 hb1 h3 h4
  rw [h1] at h3
  rw [h2] at h4
  cases h3
  cases h4
  exact h

theorem blocksWithin_pair (dataSize : Nat) (a b : IndexEntry) (ha hb : HandleWithProperties)
    (h1 : a.bh = .ok ha) (h2 : b.bh = .ok hb)
    (hwa : ha.Handle.Offset + ha.Handle.Length + TrailerLen ≤ dataSize)
    (hwb : hb.Handle.Offset + hb.Handle.Length + TrailerLen ≤ dataSize) :
    blocksWithin dataSize [a, b] := by
  intro e he h hh
  simp only [List.mem_cons, List.mem_singleton, List.not_mem_nil, or_false] at he
  rcases he with rfl | rfl
  · rw [h1] at hh
    cases hh
    exact hwa
  · rw [h2] at hh
    cases hh
    exact hwb

/-- The four data blocks of the table with a two-level index are laid out. -/
theorem twoLevelReader_dataBlocksLaidOut :
    twoLevelReader.dataBlocksLaidOut (float64Env twoLevelIndex) := by
  intro indexH top hread hinit
  have h1 : twoLevelReader.readTopLevelIndexBlock (float64Env twoLevelIndex) = .ok [90] := rfl
  rw [h1] at hread
  cases hread
  have h2 : (float64Env twoLevelIndex).indexInit twoLevelReader.tableFormat [90] =
      .ok [{ sep := [98], bh := .ok { Handle := { Offset := 60, Length := 10 } } },
           { sep := [100], bh := .ok { Handle := { Offset := 75, Length := 10 } } }] := rfl
  rw [h2] at hinit
  cases hinit
  have hs1 : twoLevelReader.subIndexEntries (float64Env twoLevelIndex)
      { sep := [98], bh := .ok { Handle := { Offset := 60, Length := 10 } } } =
      some [{ sep := [97], bh := .ok { Handle := { Offset := 0, Length := 10 } } },
            { sep := [98], bh := .ok { Handle := { Offset := 15, Length := 10 } } }] := rfl
  have hs2 : twoLevelReader.subIndexEntries (float64Env twoLevelIndex)
      { sep := [100], bh := .ok { Handle := { Offset := 75, Length := 10 } } } =
      some [{ sep := [99], bh := .ok { Handle := { Offset := 30, Length := 10 } } },
            { sep := [100], bh := .ok { Handle := { Offset := 45, Length := 10 } } }] := rfl
  refine ⟨fun h => absurd h (by decide), fun _ => ⟨?_, ?_⟩⟩
  · intro t ht sub hsub
    simp only [List.mem_cons, List.mem_singleton, List.not_mem_nil, or_false] at ht
    rcases ht with rfl | rfl
    · rw [hs1] at hsub
      cases hsub
      refine ⟨List.pairwise_pair.mpr ?_, ?_⟩
      · exact IndexEntry.before_of_ok _ _ _ _ rfl rfl (by decide)
      · exact blocksWithin_pair _ _ _ _ _ rfl rfl (by decide) (by decide)
    · rw [hs2] at hsub
      cases hsub
      refine ⟨List.pairwise_pair.mpr ?_, ?_⟩
      · exact IndexEntry.before_of_ok _ _ _ _ rfl rfl (by decide)
      · exact blocksWithin_pair _ _ _ _ _ rfl rfl (by decide) (by decide)
  · refine List.pairwise_pair.mpr ?_
    intro sub1 sub2 hsub1 hsub2 a ha b hb
    rw [hs1] at hsub1
    rw [hs2] at hsub2
    cases hsub1
    cases hsub2
    simp only [List.mem_cons, List.mem_singleton, List.not_mem_nil, or_false] at ha hb
    rcases ha with rfl | rfl <;> rcases hb with rfl | rfl <;>
      exact IndexEntry.before_of_ok _ _ _ _ rfl rfl (by decide)

/-- C17, witness of the amended claim: the table with a two-level index over
four data blocks of 10 bytes and 60 bytes of data blocks, in a file of 200
bytes, for the keys `a` (of the first sub-index block) and `d` (of the
second). -/
theorem Reader.EstimateDiskUsage_le_file_size_witness :
    ((float64Env twoLevelIndex).invariantsEnabled = false →
        ∃ n e, twoLevelReader.EstimateDiskUsage (float64Env twoLevelIndex) [97] [100] =
          .ret (n, e)) ∧
      ∀ n e, twoLevelReader.EstimateDiskUsage (float64Env twoLevelIndex) [97] [100] =
          .ret (n, e) →
        n ≤ 200 ∧
          (n = 0 ∨ ∃ startOffset endLimit, startOffset ≤ endLimit ∧
            endLimit ≤ twoLevelReader.Properties.DataSize ∧
            n = includeInterpolatedValueBlocksSize (float64Env twoLevelIndex) twoLevelReader
              (endLimit - startOffset)) :=
  Reader.EstimateDiskUsage_le_file_size (float64Env twoLevelIndex) twoLevelReader comparerY
    [97] [100] 200 (float64Env_conformant _) rfl bytesCompare_trans (by decide)
    twoLevelReader_dataBlocksLaidOut (by decide) (by decide) (by decide)

/-! ## The reference count of the cache -/

theorem int32Wrap_of_range (x : Int) (h1 : -2 ^ 31 ≤ x) (h2 : x < 2 ^ 31) : int32Wrap x = x := by
  unfold int32Wrap
  omega

theorem refcnt.call_acquire (v : refcnt) (h1 : 0 ≤ v.val) (h2 : v.val + 1 < 2 ^ 31) :
    v.call .acquire = ({ val := v.val + 1 }, decide (1 ≤ v.val)) := by
  have hw := int32Wrap_of_range (v.val + 1) (by omega) h2
  simp only [refcnt.call, refcnt.acquire, hw]
  by_cases h : v.val + 1 ≤ 1
  · rw [if_pos h]
    have : ¬ 1 ≤ v.val := by omega
    simp only [this, decide_False]
  · rw [if_neg h]
    have : 1 ≤ v.val := by omega
    simp only [this, decide_True]

theorem refcnt.call_acquireAllowZero (v : refcnt) (h1 : 0 ≤ v.val) (h2 : v.val + 1 < 2 ^ 31) :
    v.call .acquireAllowZero = ({ val := v.val + 1 }, true) := by
  have hw := int32Wrap_of_range (v.val + 1) (by omega) h2
  simp only [refcnt.call, refcnt.acquireAllowZero, hw]

theorem refcnt.call_release (v : refcnt) (h1 : 0 ≤ v.val) (h2 : v.val < 2 ^ 31) :
    v.call .release = ({ val := v.val - 1 }, decide (1 ≤ v.val)) := by
  have hw := int32Wrap_of_range (v.val - 1) (by omega) (by omega)
  simp only [refcnt.call, refcnt.release, hw]
  by_cases h : v.val - 1 < 0
  · rw [if_pos h]
    have : ¬ 1 ≤ v.val := by omega
    simp only [this, decide_False]
  · rw [if_neg h]
    have : 1 ≤ v.val := by omega
    simp only [this, decide_True]
    by_cases h0 : v.val - 1 = 0
    · rw [if_pos h0]
    · rw [if_neg h0]

theorem acquireCalls_cons (c : refcntCall) (cs : List refcntCall) :
    acquireCalls (c :: cs) = acquireCalls cs + (if c = refcntCall.release then 0 else 1) := by
  cases c <;> simp [acquireCalls]

theorem releaseCalls_cons (c : refcntCall) (cs : List refcntCall) :
    releaseCalls (c :: cs) = releaseCalls cs + (if c = refcntCall.release then 1 else 0) := by
  cases c <;> simp [releaseCalls]

/-- In a run without panic in which the running count stays within `int32`,
the count is the initial count plus the acquisitions minus the releases, and
is not negative. -/
theorem refcnt.run_invariant : ∀ (calls : List refcntCall) (v0 v : refcnt), 0 ≤ v0.val →
    (∀ k, v0.val + acquireCalls (calls.take k) - releaseCalls (calls.take k) ≤ 2 ^ 31 - 1) →
    v0.run calls = some v →
    v.val = v0.val + acquireCalls calls - releaseCalls calls ∧ 0 ≤ v.val
  | [], v0, v, h0, _, hrun => by
    simp only [refcnt.run, Option.some.injEq] at hrun
    subst hrun
    simp only [acquireCalls, releaseCalls, List.countP_nil, Nat.cast_zero, add_zero, sub_zero]
    exact ⟨trivial, h0⟩
  | c :: cs, v0, v, h0, hb, hrun => by
    have ih := refcnt.run_invariant cs
    have hb0 := hb 0
    have hb1 := hb 1
    simp only [List.take_zero, acquireCalls, releaseCalls, List.countP_nil, Nat.cast_zero,
      add_zero, sub_zero] at hb0
    have hbs : ∀ k, v0.val + acquireCalls (c :: cs.take k) - releaseCalls (c :: cs.take k)
        ≤ 2 ^ 31 - 1 := by
      intro k
      have := hb (k + 1)
      rw [List.take_succ_cons] at this
      exact this
    have hone := hbs 0
    simp only [List.take_zero] at hone
    cases c with
    | acquire =>
      simp only [acquireCalls_cons, releaseCalls_cons, reduceCtorEq, if_false, Nat.cast_add,
        Nat.cast_one, Nat.cast_zero, add_zero] at hbs hone ⊢
      simp only [acquireCalls, releaseCalls, List.countP_nil, Nat.cast_zero, add_zero,
        zero_add, sub_zero] at hone
      rw [refcnt.run, refcnt.call_acquire v0 h0 (by omega)] at hrun
      split at hrun
      · have := ih { val := v0.val + 1 } v (by simp only; omega)
          (by intro k; have := hbs k; simp only; omega) hrun
        simp only at this
        omega
      · exact Option.noConfusion hrun
    | acquireAllowZero =>
      simp only [acquireCalls_cons, releaseCalls_cons, reduceCtorEq, if_false, Nat.cast_add,
        Nat.cast_one, Nat.cast_zero, add_zero] at hbs hone ⊢
      simp only [acquireCalls, releaseCalls, List.countP_nil, Nat.cast_zero, add_zero,
        zero_add, sub_zero] at hone
      rw [refcnt.run, refcnt.call_acquireAllowZero v0 h0 (by omega)] at hrun
      simp only [if_true] at hrun
      have := ih { val := v0.val + 1 } v (by simp only; omega)
        (by intro k; have := hbs k; simp only; omega) hrun
      simp only at this
      omega
    | release =>
      simp only [acquireCalls_cons, releaseCalls_cons, if_true, Nat.cast_add,
        Nat.cast_one, Nat.cast_zero, add_zero] at hbs ⊢
      rw [refcnt.run, refcnt.call_release v0 h0 (by omega)] at hrun
      split at hrun
      · rename_i hpos
        have hpos1 : 1 ≤ v0.val := of_decide_eq_true hpos
        have := ih { val := v0.val - 1 } v (by simp only; omega)
          (by intro k; have := hbs k; simp only; omega) hrun
        simp only at this
        omega
      · exact Option.noConfusion hrun

/-- C22, counterexample: after `init(2^31 - 1)` the call `acquireAllowZero`
does not panic and leaves the count at `-2^31`, which is negative and is not
the initial count plus one; and `acquire` panics on the count `2^31 - 1`,
which is positive. -/
theorem refcnt.run_count_counterexample :
    (1 : Int) ≤ 2 ^ 31 - 1 ∧
    (refcnt.init {} (2 ^ 31 - 1)).run [refcntCall.acquireAllowZero] = some { val := -2 ^ 31 } ∧
    ¬ ((0 : Int) ≤ -2 ^ 31) ∧
    (-2 ^ 31 : Int) ≠ (2 ^ 31 - 1) + acquireCalls [refcntCall.acquireAllowZero]
      - releaseCalls [refcntCall.acquireAllowZero] ∧
    (refcnt.init {} (2 ^ 31 - 1)).run [] = some { val := 2 ^ 31 - 1 } ∧
    (refcnt.acquire { val := 2 ^ 31 - 1 }).2 = .panic (inconsistentReferenceCount (-2 ^ 31)) := by
  refine ⟨by decide, by decide, by decide, by decide, by decide, ?_⟩
  decide

/-- C22, amended: in every sequential run that starts with `init(n)`, `n ≥ 1`,
in which no call panics and in which the running count (`n` plus the
acquisitions minus the releases so far) never exceeds `2^31 - 1`, the count
equals `n` plus the number of `acquire` and `acquireAllowZero` calls minus the
number of `release` calls and is not negative; at that point `release`
decrements the count, returns true exactly when it brings the count to 0 and
panics exactly when the count becomes negative, `acquire` panics exactly when
the count is at most 0 or is `2^31 - 1` (where the increment wraps around),
and `acquireAllowZero` does not panic. -/
theorem refcnt.run_count (n : Int) (calls : List refcntCall) (v : refcnt) (hn : 1 ≤ n)
    (hb : ∀ k, n + acquireCalls (calls.take k) - releaseCalls (calls.take k) ≤ 2 ^ 31 - 1)
    (hrun : (refcnt.init {} n).run calls = some v) :
    v.val = n + acquireCalls calls - releaseCalls calls ∧ 0 ≤ v.val ∧
      v.release.1.val = v.val - 1 ∧
      (v.release.2 = .ret true ↔ v.val - 1 = 0) ∧
      ((∃ p, v.release.2 = .panic p) ↔ v.val - 1 < 0) ∧
      ((∃ p, v.acquire.2 = .panic p) ↔ v.val ≤ 0 ∨ v.val = 2 ^ 31 - 1) ∧
      (v.val < 2 ^ 31 - 1 → ((∃ p, v.acquire.2 = .panic p) ↔ v.val ≤ 0)) ∧
      v.acquireAllowZero.2 = .ret () := by
  obtain ⟨h1, h2⟩ := refcnt.run_invariant calls (refcnt.init {} n) v
    (by simp only [refcnt.init]; omega) (by simp only [refcnt.init]; exact hb) hrun
  simp only [refcnt.init] at h1
  have hle : v.val ≤ 2 ^ 31 - 1 := by
    have := hb calls.length
    rw [List.take_length] at this
    omega
  have hwr := int32Wrap_of_range (v.val - 1) (by omega) (by omega)
  have hacq : (∃ p, v.acquire.2 = .panic p) ↔ v.val ≤ 0 ∨ v.val = 2 ^ 31 - 1 := by
    unfold refcnt.acquire
    by_cases hmax : v.val = 2 ^ 31 - 1
    · have hw : int32Wrap (v.val + 1) = -2 ^ 31 := by
        rw [hmax]
        decide
      rw [hw, if_pos (by decide)]
      exact ⟨fun _ => Or.inr hmax, fun _ => ⟨_, rfl⟩⟩
    · have hwa := int32Wrap_of_range (v.val + 1) (by omega) (by omega)
      rw [hwa]
      by_cases hle1 : v.val + 1 ≤ 1
      · rw [if_pos hle1]
        exact ⟨fun _ => Or.inl (by omega), fun _ => ⟨_, rfl⟩⟩
      · rw [if_neg hle1]
        constructor
        · rintro ⟨p, hp⟩
          exact Outcome.noConfusion hp
        · intro h
          rcases h with h | h
          · omega
          · exact absurd h hmax
  refine ⟨h1, h2, ?_, ?_, ?_, hacq, ?_, rfl⟩
  · unfold refcnt.release
    rw [hwr]
    split
    · rfl
    · split <;> rfl
  · unfold refcnt.release
    rw [hwr]
    by_cases hneg : v.val - 1 < 0
    · rw [if_pos hneg]
      constructor
      · intro h
        exact Outcome.noConfusion h
      · intro h
        omega
    · rw [if_neg hneg]
      by_cases hz : v.val - 1 = 0
      · rw [if_pos hz]
        exact ⟨fun _ => hz, fun _ => rfl⟩
      · rw [if_neg hz]
        constructor
        · intro h
          simp only [Outcome.ret.injEq, Bool.false_eq_true] at h
        · intro h
          exact absurd h hz
  · unfold refcnt.release
    rw [hwr]
    by_cases hneg : v.val - 1 < 0
    · rw [if_pos hneg]
      exact ⟨fun _ => hneg, fun _ => ⟨_, rfl⟩⟩
    · rw [if_neg hneg]
      constructor
      · rintro ⟨p, hp⟩
        split at hp <;> exact Outcome.noConfusion hp
      · intro h
        exact absurd h hneg
  · intro hlt
    rw [hacq]
    constructor
    · intro h
      rcases h with h | h
      · exact h
      · omega
    · intro h
      exact Or.inl h

/-- C22, witness of the amended claim: after `init(1)`, the run `acquire`,
`release`, `release`, which ends with the count 0. -/
theorem refcnt.run_count_witness :
    (refcnt.mk 0).val = 1 + acquireCalls [refcntCall.acquire, refcntCall.release,
        refcntCall.release]
        - releaseCalls [refcntCall.acquire, refcntCall.release, refcntCall.release] ∧
      0 ≤ (refcnt.mk 0).val ∧
      (refcnt.mk 0).release.1.val = (refcnt.mk 0).val - 1 ∧
      ((refcnt.mk 0).release.2 = .ret true ↔ (refcnt.mk 0).val - 1 = 0) ∧
      ((∃ p, (refcnt.mk 0).release.2 = .panic p) ↔ (refcnt.mk 0).val - 1 < 0) ∧
      ((∃ p, (refcnt.mk 0).acquire.2 = .panic p) ↔
        (refcnt.mk 0).val ≤ 0 ∨ (refcnt.mk 0).val = 2 ^ 31 - 1) ∧
      ((refcnt.mk 0).val < 2 ^ 31 - 1 →
        ((∃ p, (refcnt.mk 0).acquire.2 = .panic p) ↔ (refcnt.mk 0).val ≤ 0)) ∧
      (refcnt.mk 0).acquireAllowZero.2 = .ret () :=
  refcnt.run_count 1 [refcntCall.acquire, refcntCall.release, refcntCall.release]
    (refcnt.mk 0) (by decide)
    (fun k =>
      match k with
      | 0 => by decide
      | 1 => by decide
      | 2 => by decide
      | _ + 3 => by
        simp only [List.take_succ_cons, List.take_nil]
        decide)
    (by decide)

/-! ## `EstimateDiskUsage` on a two-level index and on the flat index -/

theorem ordering_bne_lt_false (o : Ordering) : (o != Ordering.lt) = false ↔ o = Ordering.lt := by
  cases o <;> decide

/-- In a list in strictly increasing order, every element is the last one or
is below it. -/
theorem pairwise_getLast? {α : Type} (R : α → α → Prop) (l : List α) (a : α)
    (hpw : l.Pairwise R) (hlast : l.getLast? = some a) : ∀ x ∈ l, x = a ∨ R x a := by
  have hl := List.dropLast_append_getLast? a (by rw [hlast]; exact rfl)
  rw [← hl] at hpw
  rw [List.pairwise_append] at hpw
  intro x hx
  rw [← hl, List.mem_append, List.mem_singleton] at hx
  rcases hx with hx | hx
  · exact Or.inr (hpw.2.2 x hx a (List.mem_singleton_self a))
  · exact Or.inl hx

/-- The two seeks of a two-level index find the entry that one seek finds in
the concatenation of the sub-index blocks. -/
theorem indexSeekGE_two_level (c : Comparer)
    (htrans : ∀ a b k, c.Compare a b = Ordering.lt → c.Compare b k = Ordering.lt →
      c.Compare a k = Ordering.lt)
    (key : Bytes) (R : IndexEntry → List IndexEntry → Prop) :
    ∀ (top : List IndexEntry) (subs : List (List IndexEntry)),
      List.Forall₂ (fun t sub => R t sub ∧ ∃ l, sub.getLast? = some l ∧ t.sep = l.sep)
        top subs →
      subs.flatten.Pairwise (fun a b => c.Compare a.sep b.sep = Ordering.lt) →
      (indexSeekGE c top key = none → indexSeekGE c subs.flatten key = none) ∧
      (∀ t, indexSeekGE c top key = some t →
        ∃ sub s, R t sub ∧ indexSeekGE c sub key = some s ∧
          indexSeekGE c subs.flatten key = some s) := by
  intro top subs h
  induction h with
  | nil =>
    intro _
    exact ⟨fun _ => rfl, fun t ht => Option.noConfusion ht⟩
  | @cons t sub top1 subs1 hts _ ih =>
    intro hpw
    obtain ⟨hR, l, hlast, hsep⟩ := hts
    rw [List.flatten_cons, List.pairwise_append] at hpw
    obtain ⟨hsubpw, hrestpw, -⟩ := hpw
    obtain ⟨ih1, ih2⟩ := ih hrestpw
    have hlmem : l ∈ sub := List.mem_of_mem_getLast? (by rw [hlast]; exact rfl)
    unfold indexSeekGE at ih1 ih2 ⊢
    rw [List.flatten_cons, List.find?_append, List.find?_cons]
    cases hp : (c.Compare t.sep key != Ordering.lt) with
    | true =>
      have hpl : (c.Compare l.sep key != Ordering.lt) = true := by
        rw [← hsep]
        exact hp
      have hsome : (sub.find? (fun e => c.Compare e.sep key != Ordering.lt)).isSome = true :=
        List.find?_isSome.mpr ⟨l, hlmem, hpl⟩
      obtain ⟨s, hs⟩ := Option.isSome_iff_exists.mp hsome
      refine ⟨fun h0 => Option.noConfusion h0, ?_⟩
      intro t1 ht1
      simp only [Option.some.injEq] at ht1
      subst ht1
      exact ⟨sub, s, hR, hs, by rw [hs]; rfl⟩
    | false =>
      have hlt : c.Compare l.sep key = Ordering.lt := by
        rw [← hsep]
        exact (ordering_bne_lt_false _).mp hp
      have hnone : sub.find? (fun e => c.Compare e.sep key != Ordering.lt) = none := by
        rw [List.find?_eq_none]
        intro x hx
        have hxlt : c.Compare x.sep key = Ordering.lt := by
          rcases pairwise_getLast? _ sub l hsubpw hlast x hx with heq | hbelow
          · rw [heq]
            exact hlt
          · exact htrans _ _ _ hbelow hlt
        rw [hxlt]
        decide
      rw [hnone, Option.none_or]
      exact ⟨ih1, ih2⟩

theorem Reader.subIndexEntries_some (env : Env) (r : Reader) (t : IndexEntry)
    (sub : List IndexEntry) (h : r.subIndexEntries env t = some sub) :
    ∃ bh blk, t.bh = .ok bh ∧ r.readIndexBlock env bh.Handle = .ok blk ∧
      env.indexInit r.tableFormat blk = .ok sub := by
  unfold Reader.subIndexEntries at h
  split at h
  · exact Option.noConfusion h
  · rename_i bh hbh
    split at h
    · exact Option.noConfusion h
    · rename_i blk hblk
      split at h
      · exact Option.noConfusion h
      · rename_i entries hentries
        simp only [Option.some.injEq] at h
        subst h
        exact ⟨bh, blk, hbh, hblk, hentries⟩

/-- The end of `estimateDiskUsage` depends on the index iterators only through
the entries that the two seeks find. -/
theorem estimateFromIters_eq_of_seek (env env1 : Env) (r r1 : Reader) (c : Comparer)
    (S S1 : List IndexEntry) (Eopt E1opt : Option (List IndexEntry)) (start end_ : Bytes)
    (hds : r1.Properties.DataSize = r.Properties.DataSize)
    (hvbs : r1.Properties.ValueBlocksSize = r.Properties.ValueBlocksSize)
    (hint : env1.interpolate = env.interpolate)
    (hinv : env1.invariantsEnabled = env.invariantsEnabled)
    (hs : indexSeekGE c S start = indexSeekGE c S1 start)
    (he : Eopt.bind (fun E => indexSeekGE c E end_) =
      E1opt.bind (fun E => indexSeekGE c E end_)) :
    estimateFromIters env r c S Eopt start end_ =
      estimateFromIters env1 r1 c S1 E1opt start end_ := by
  unfold estimateFromIters includeInterpolatedValueBlocksSize errCorruptIndexEntry
  rw [hs, hds, hvbs, hint, hinv]
  cases indexSeekGE c S1 start with
  | none => rfl
  | some s =>
    simp only
    cases s.bh with
    | error err => rfl
    | ok startBH =>
      simp only
      cases Eopt with
      | none =>
        cases E1opt with
        | none => rfl
        | some E1 =>
          simp only [Option.none_bind, Option.some_bind] at he
          simp only [← he]
      | some E =>
        cases E1opt with
        | none =>
          simp only [Option.none_bind, Option.some_bind] at he
          simp only [he]
        | some E1 =>
          simp only [Option.some_bind] at he
          simp only [he]

/-- The bytewise order is a strict order: "below" is transitive. -/
theorem bytesCompare_lt_trans : ∀ (a b k : Bytes), bytesCompare a b = Ordering.lt →
    bytesCompare b k = Ordering.lt → bytesCompare a k = Ordering.lt
  | [], [], _ => fun h _ => Ordering.noConfusion h
  | [], _ :: _, [] => fun _ h => Ordering.noConfusion h
  | [], _ :: _, _ :: _ => fun _ _ => rfl
  | _ :: _, [], _ => fun h _ => Ordering.noConfusion h
  | _ :: _, _ :: _, [] => fun _ h => Ordering.noConfusion h
  | x :: xs, y :: ys, z :: zs => fun h1 h2 => by
    have ih := bytesCompare_lt_trans xs ys zs
    simp only [bytesCompare] at h1 h2 ⊢
    by_cases hxy : x < y
    · have hxy1 : x.toNat < y.toNat := hxy
      by_cases hyz : y < z
      · have hyz1 : y.toNat < z.toNat := hyz
        have hxz : x < z := show x.toNat < z.toNat by omega
        rw [if_pos hxz]
      · rw [if_neg hyz] at h2
        by_cases hzy : z < y
        · rw [if_pos hzy] at h2
          exact Ordering.noConfusion h2
        · have hyz1 : ¬ y.toNat < z.toNat := hyz
          have hzy1 : ¬ z.toNat < y.toNat := hzy
          have hxz : x < z := show x.toNat < z.toNat by omega
          rw [if_pos hxz]
    · rw [if_neg hxy] at h1
      by_cases hyx : y < x
      · rw [if_pos hyx] at h1
        exact Ordering.noConfusion h1
      · rw [if_neg hyx] at h1
        have hxy1 : ¬ x.toNat < y.toNat := hxy
        have hyx1 : ¬ y.toNat < x.toNat := hyx
        by_cases hyz : y < z
        · have hyz1 : y.toNat < z.toNat := hyz
          have hxz : x < z := show x.toNat < z.toNat by omega
          rw [if_pos hxz]
        · rw [if_neg hyz] at h2
          by_cases hzy : z < y
          · rw [if_pos hzy] at h2
            exact Ordering.noConfusion h2
          · rw [if_neg hzy] at h2
            have hyz1 : ¬ y.toNat < z.toNat := hyz
            have hzy1 : ¬ z.toNat < y.toNat := hzy
            have hxz : ¬ x < z := by
              intro h
              have h3 : x.toNat < z.toNat := h
              omega
            have hzx : ¬ z < x := by
              intro h
              have h3 : z.toNat < x.toNat := h
              omega
            rw [if_neg hxz, if_neg hzx]
            exact ih h1 h2

/-- C21: for a two-level index whose top-level entries decode and whose
sub-index blocks are read, in which the separators of the concatenated
sub-index blocks are strictly increasing (for a comparer whose order is
transitive) and each top-level separator equals the last separator of its
sub-index block, `EstimateDiskUsage` returns what it returns on a reader with
the same properties whose unpartitioned index is the concatenation of the
sub-index blocks. -/
theorem Reader.EstimateDiskUsage_two_level_flat (env env1 : Env) (r r1 : Reader)
    (c : Pebble.Comparer) (indexH indexH1 : Bytes) (top : List IndexEntry)
    (subs : List (List IndexEntry)) (start end_ : Bytes)
    (herr : r.err = none) (hpart : r.Properties.IndexPartitions ≠ 0)
    (hread : r.readTopLevelIndexBlock env = .ok indexH)
    (hinit : env.indexInit r.tableFormat indexH = .ok top)
    (hc : r.Comparer = some c)
    (hsubs : List.Forall₂ (fun t sub => r.subIndexEntries env t = some sub ∧
      ∃ l, sub.getLast? = some l ∧ t.sep = l.sep) top subs)
    (hsorted : subs.flatten.Pairwise (fun a b => c.Compare a.sep b.sep = Ordering.lt))
    (htrans : ∀ a b k, c.Compare a b = Ordering.lt → c.Compare b k = Ordering.lt →
      c.Compare a k = Ordering.lt)
    (herr1 : r1.err = none) (hpart1 : r1.Properties.IndexPartitions = 0)
    (hread1 : r1.readTopLevelIndexBlock env1 = .ok indexH1)
    (hinit1 : env1.indexInit r1.tableFormat indexH1 = .ok subs.flatten)
    (hc1 : r1.Comparer = some c)
    (hds : r1.Properties.DataSize = r.Properties.DataSize)
    (hvbs : r1.Properties.ValueBlocksSize = r.Properties.ValueBlocksSize)
    (hint : env1.interpolate = env.interpolate)
    (hinv : env1.invariantsEnabled = env.invariantsEnabled) :
    r.EstimateDiskUsage env start end_ = r1.EstimateDiskUsage env1 start end_ := by
  have hflat : r1.EstimateDiskUsage env1 start end_ =
      estimateFromIters env1 r1 c subs.flatten (some subs.flatten) start end_ := by
    unfold Reader.EstimateDiskUsage estimateDiskUsage
    simp only [herr1, hread1, hpart1, hinit1, hc1, if_true, ite_self]
  have htwo : r.EstimateDiskUsage env start end_ = estimateDiskUsage env r start end_ := by
    unfold Reader.EstimateDiskUsage
    simp only [ite_self]
  rw [hflat, htwo]
  obtain ⟨hSnone, hSsome⟩ := indexSeekGE_two_level c htrans start
    (fun t sub => r.subIndexEntries env t = some sub) top subs hsubs hsorted
  obtain ⟨hEnone, hEsome⟩ := indexSeekGE_two_level c htrans end_
    (fun t sub => r.subIndexEntries env t = some sub) top subs hsubs hsorted
  unfold estimateDiskUsage
  simp only [herr, hread, if_neg hpart, hinit, hc]
  cases hsT : indexSeekGE c top start with
  | none =>
    simp only
    unfold estimateFromIters
    rw [hSnone hsT]
  | some sT =>
    obtain ⟨S, s, hsub, hsS, hsF⟩ := hSsome sT hsT
    obtain ⟨bh, blk, hbh, hblk, hS⟩ := Reader.subIndexEntries_some env r sT S hsub
    simp only [hbh, hblk, hS]
    cases heT : indexSeekGE c top end_ with
    | none =>
      simp only
      refine estimateFromIters_eq_of_seek env env1 r r1 c S subs.flatten none
        (some subs.flatten) start end_ hds hvbs hint hinv (by rw [hsS, hsF]) ?_
      simp only [Option.none_bind, Option.some_bind, hEnone heT]
    | some eT =>
      obtain ⟨E, e, hsubE, heE, heF⟩ := hEsome eT heT
      obtain ⟨bhE, blkE, hbhE, hblkE, hE⟩ := Reader.subIndexEntries_some env r eT E hsubE
      simp only [hbhE, hblkE, hE]
      refine estimateFromIters_eq_of_seek env env1 r r1 c S subs.flatten (some E)
        (some subs.flatten) start end_ hds hvbs hint hinv (by rw [hsS, hsF]) ?_
      simp only [Option.some_bind, heE, heF]

/-- C21, witness: the table with a two-level index over four data blocks and
the table with the flat index over the same blocks, for the keys `a` (of the
first sub-index block) and `d` (of the second). -/
theorem Reader.EstimateDiskUsage_two_level_flat_witness :
    twoLevelReader.EstimateDiskUsage (float64Env twoLevelIndex) [97] [100] =
      flatReader.EstimateDiskUsage (float64Env flatIndex) [97] [100] :=
  Reader.EstimateDiskUsage_two_level_flat (float64Env twoLevelIndex) (float64Env flatIndex)
    twoLevelReader flatReader comparerY [90] [90]
    [{ sep := [98], bh := .ok { Handle := { Offset := 60, Length := 10 } } },
     { sep := [100], bh := .ok { Handle := { Offset := 75, Length := 10 } } }]
    [[{ sep := [97], bh := .ok { Handle := { Offset := 0, Length := 10 } } },
      { sep := [98], bh := .ok { Handle := { Offset := 15, Length := 10 } } }],
     [{ sep := [99], bh := .ok { Handle := { Offset := 30, Length := 10 } } },
      { sep := [100], bh := .ok { Handle := { Offset := 45, Length := 10 } } }]]
    [97] [100] rfl (by decide) rfl rfl rfl
    (List.Forall₂.cons ⟨rfl, _, rfl, rfl⟩ (List.Forall₂.cons ⟨rfl, _, rfl, rfl⟩ List.Forall₂.nil))
    (by decide) bytesCompare_lt_trans rfl rfl rfl rfl rfl rfl rfl rfl rfl

end Pebble
